import Mathlib

/-!
# The thread scheduler of the cs140 kernel

A shallow embedding of `src/threads/thread.c` and of the path splitter
`dir_path_and_leaf` of `src/test.c`.  Thread control blocks live in a heap
indexed by their page address (`0` is `NULL`); the intrusive lists of the
kernel are lists of such addresses.  Every `ASSERT` of the source is a branch
that stops the run, and the stopped run keeps the kernel state it stopped in.

A routine that switches threads returns the state in which the chosen thread
has been put on the CPU by `thread_schedule_tail`; what that thread does next
is a later step.

Not part of the state: the interrupt level (every `intr_disable` /
`intr_set_level` pair is a critical section that the embedding runs as one
step, so the `INTR_OFF` assertions hold), thread names and the contents of the
stack frames built by `thread_create`.  C integers are unbounded integers: the
values that occur (priorities, `nice`, 17.14 fixed-point numbers built from
them) stay far from the 32-bit limits.  The counters that only ever count up,
`thread_ticks` and the two `uint32_t` counters of `dir_path_and_leaf`, keep
their 32-bit wrap-around.

The invariants of the scheduler are proved over the relation `Reachable`: the
states reached from `thread_init` by runs of the operations that return.
-/

namespace Cs140

/-! ## Constants and data -/

/-- Modelled from the spec: lowest priority, `PRI_MIN = 0` (threads/thread.h is
not among the sources). -/
def PRI_MIN : Int := 0

/-- Modelled from the spec: default priority, `PRI_DEFAULT = 31`. -/
def PRI_DEFAULT : Int := 31

/-- Modelled from the spec: highest priority, `PRI_MAX = 63`. -/
def PRI_MAX : Int := 63

/-- The value of `THREAD_MAGIC` in thread.c. -/
def THREAD_MAGIC : Nat := 0xcd6abf4b

/-- The value of `TIME_SLICE` in thread.c. -/
def TIME_SLICE : Nat := 4

/-- The pointer `NO_SWITCH`, `((void*)1)` in thread.c. -/
def NO_SWITCH : Nat := 1

/-- The error value of `tid_t` (threads/thread.h, `((tid_t) -1)`). -/
def TID_ERROR : Int := -1

/-- The states of a thread's life cycle, `enum thread_status`. -/
inductive thread_status where
  | THREAD_RUNNING
  | THREAD_READY
  | THREAD_BLOCKED
  | THREAD_DYING
deriving DecidableEq, Repr

open thread_status

/-- The fields of `struct thread` that thread.c reads or writes.  The list
nodes `elem` and `allelem` are represented by the thread's address being a
member of the corresponding list. -/
structure thread where
  tid : Int
  status : thread_status
  priority : Int
  tmp_priority : Int
  nice : Int
  recent_cpu : Int
  wake_time : Int
  held_locks : List Nat
  lock_waited_on : Nat
  magic : Nat
deriving DecidableEq, Repr

/-- The thread block left by `memset (t, 0, sizeof *t)`. -/
def thread.zeroed : thread :=
  { tid := 0, status := THREAD_RUNNING, priority := 0, tmp_priority := 0, nice := 0,
    recent_cpu := 0, wake_time := 0, held_locks := [], lock_waited_on := 0, magic := 0 }

/-- The global state of thread.c together with the heap of thread blocks.
`cur` is what `running_thread ()` returns, `lock_waiters l` the waiter list of
the semaphore inside the lock at address `l`, `freed` the pages handed back to
`palloc_free_page`, `yield_on_return` the request that `intr_yield_on_return`
leaves for the interrupt handler. -/
structure Kernel where
  thread_mlfqs : Bool
  intr_context : Bool
  mem : Nat → thread
  lock_waiters : Nat → List Nat
  ready_list : List Nat
  mlfqs_queue : Nat → List Nat
  sleep_list : List Nat
  all_list : List Nat
  idle_thread : Nat
  initial_thread : Nat
  cur : Nat
  load_avg : Int
  thread_ticks : Nat
  next_tid : Int
  freed : List Nat
  idle_ticks : Nat
  kernel_ticks : Nat
  user_ticks : Nat
  yield_on_return : Bool

/-- Outcome of a kernel routine: it returns, or an `ASSERT` fails and the
kernel stops in the state it had reached. -/
inductive Result (α : Type) where
  | ok (val : α)
  | panic (stopped : Kernel)

/-- Sequencing of kernel routines: a stopped run stays stopped. -/
def Result.bind {α β : Type} (r : Result α) (f : α → Result β) : Result β :=
  match r with
  | Result.ok a => f a
  | Result.panic s => Result.panic s

/-- Store the thread block `v` at address `t`. -/
def Kernel.write (s : Kernel) (t : Nat) (v : thread) : Kernel :=
  { s with mem := fun p => if p = t then v else s.mem p }

/-- The assignment `t->status = st`. -/
def Kernel.set_status (s : Kernel) (t : Nat) (st : thread_status) : Kernel :=
  s.write t { s.mem t with status := st }

/-! ## Fixed-point arithmetic (lib/fixed-point.h) -/

/-- Modelled from the spec: the scale of the 17.14 format, `2^14`
(lib/fixed-point.h is not among the sources). -/
def FP_SCALE : Int := 16384

/-- Modelled from the spec: integer to fixed point. -/
def itof (n : Int) : Int := n * FP_SCALE

/-- Modelled from the spec: fixed point to integer, truncating toward zero. -/
def ftoi (x : Int) : Int := Int.tdiv x FP_SCALE

/-- Modelled from the spec: fixed point plus fixed point. -/
def fp_add (a b : Int) : Int := a + b

/-- Modelled from the spec: fixed point minus fixed point. -/
def fp_sub (a b : Int) : Int := a - b

/-- Modelled from the spec: fixed point divided by an integer, truncating
toward zero as C division does. -/
def fp_int_div (a n : Int) : Int := Int.tdiv a n

/-- Modelled from the spec: fixed point times fixed point, the product taken
in a 64-bit intermediate (here: exactly) and scaled back by a division that
truncates toward zero. -/
def fp_mult (a b : Int) : Int := Int.tdiv (a * b) FP_SCALE

/-- Modelled from the spec: fixed point divided by fixed point, the dividend
scaled up in a 64-bit intermediate (here: exactly), the division truncating
toward zero. -/
def fp_div (a b : Int) : Int := Int.tdiv (a * FP_SCALE) b

/-- Modelled from the spec: fixed point times an integer. -/
def fp_int_mult (a n : Int) : Int := a * n

/-- Modelled from the spec: fixed point plus an integer. -/
def fp_int_add (a n : Int) : Int := a + n * FP_SCALE

/-! ## Intrusive lists (lib/kernel/list.c) -/

/-- Modelled from the spec: the list operation push-back (lib/kernel/list.c is
not among the sources).  "A node may be in at most one list at a time": the
node pushed is one that is linked in no list (`elem_unlinked` for a thread's
scheduling node); a list of addresses does not express what relinking a node
that is still in another list does to that list. -/
def list_push_back (l : List Nat) (e : Nat) : List Nat := l ++ [e]

/-- Modelled from the spec: the list operation empty-check. -/
def list_empty (l : List Nat) : Bool := l.isEmpty

/-- Modelled from the spec: the list operation pop-front, the front node and
the remaining list (nothing on an empty list). -/
def list_pop_front : List Nat → Option (Nat × List Nat)
  | [] => none
  | e :: rest => some (e, rest)

/-- Modelled from the spec: the list operation max-by-comparator, a node that
no other node of the list exceeds (the earliest such node; nothing on an empty
list). -/
def list_max (less : Nat → Nat → Bool) : List Nat → Option Nat
  | [] => none
  | e :: rest =>
    match list_max less rest with
    | none => some e
    | some m => if less e m then some m else some e

/-- Modelled from the spec: the list operation remove-max-by-comparator as the
ready list uses it, "pops the element with maximum effective priority, ties
broken by FIFO among equals": the earliest node that no other node exceeds is
unlinked and returned with the remaining list (nothing on an empty list). -/
def remove_list_max (less : Nat → Nat → Bool) : List Nat → Option (Nat × List Nat)
  | [] => none
  | e :: rest =>
    match remove_list_max less rest with
    | none => some (e, [])
    | some (m, rest1) => if less e m then some (m, e :: rest1) else some (e, rest)

/-- Modelled from the spec: the list operation remove-by-node, on the list
that holds the node. -/
def list_remove (l : List Nat) (e : Nat) : List Nat := l.erase e

/-- Modelled from the spec: remove-by-node applied to `t->elem` where the code
does not say which list holds the node.  The node is in at most one list at a
time (ready list, an MLFQS queue, the sleep queue or a semaphore's waiter
list); it is unlinked from whichever holds it. -/
def list_remove_elem (s : Kernel) (t : Nat) : Kernel :=
  { s with
    ready_list := list_remove s.ready_list t
    mlfqs_queue := fun i => list_remove (s.mlfqs_queue i) t
    sleep_list := list_remove s.sleep_list t
    lock_waiters := fun l => list_remove (s.lock_waiters l) t }

/-- The scheduling node `t->elem` is linked in no list: `t` is not on the
ready list, in no MLFQS queue, not on the sleep queue and on no waiter list.
This is what `list_push_back (.., &t->elem)` requires of the node ("a node may
be in at most one list at a time"). -/
def elem_unlinked (s : Kernel) (t : Nat) : Prop :=
  t ∉ s.ready_list ∧ (∀ j, t ∉ s.mlfqs_queue j) ∧ t ∉ s.sleep_list ∧
  ∀ l, t ∉ s.lock_waiters l

/-! ## thread.c -/

/-- The function `running_thread`: the thread whose stack the CPU is on. -/
def running_thread (s : Kernel) : Nat := s.cur

/-- The function `is_thread`: `t != NULL && t->magic == THREAD_MAGIC`. -/
def is_thread (s : Kernel) (t : Nat) : Bool :=
  decide (t ≠ 0) && decide ((s.mem t).magic = THREAD_MAGIC)

/-- The function `thread_current`: `running_thread` plus its two assertions. -/
def thread_current (s : Kernel) : Result Nat :=
  let t := running_thread s
  if !is_thread s t then Result.panic s
  else if (s.mem t).status ≠ THREAD_RUNNING then Result.panic s
  else Result.ok t

/-- The function `thread_hash_compare`: whether thread `a` has priority less
than thread `b`, by `tmp_priority` under the priority policy and by `priority`
under MLFQS. -/
def thread_hash_compare (s : Kernel) (a b : Nat) : Bool :=
  if !s.thread_mlfqs then decide ((s.mem a).tmp_priority < (s.mem b).tmp_priority)
  else decide ((s.mem a).priority < (s.mem b).priority)

/-- The function `mlfqs_insert`: after its two assertions the thread is pushed
at the back of the queue indexed by its priority. -/
def mlfqs_insert (s : Kernel) (t : Nat) : Result Kernel :=
  if !is_thread s t then Result.panic s
  else if ¬ ((s.mem t).priority ≥ PRI_MIN ∧ (s.mem t).priority ≤ PRI_MAX) then Result.panic s
  else
    let i := ((s.mem t).priority).toNat
    Result.ok { s with mlfqs_queue := fun j =>
      if j = i then list_push_back (s.mlfqs_queue j) t else s.mlfqs_queue j }

/-- The loop of `mlfqs_get_highest_priority` from index `i` downwards. -/
def mlfqs_get_highest_priority_from (s : Kernel) : Nat → Int
  | 0 => if !list_empty (s.mlfqs_queue 0) then 0 else 0
  | i + 1 =>
    if !list_empty (s.mlfqs_queue (i + 1)) then ((i + 1 : Nat) : Int)
    else mlfqs_get_highest_priority_from s i

/-- The function `mlfqs_get_highest_priority`: the index of the highest
non-empty queue, `0` when all are empty. -/
def mlfqs_get_highest_priority (s : Kernel) : Int :=
  mlfqs_get_highest_priority_from s PRI_MAX.toNat

/-- The body of the loop of `mlfqs_get_next_thread_to_run` at a non-empty
queue `i`: pop the front, check it, return it. -/
def mlfqs_pop_queue (s : Kernel) (i : Nat) : Result (Nat × Kernel) :=
  match list_pop_front (s.mlfqs_queue i) with
  | none => Result.panic s
  | some (next, rest) =>
    let s1 := { s with mlfqs_queue := fun j => if j = i then rest else s.mlfqs_queue j }
    if !is_thread s1 next then Result.panic s1
    else if (s1.mem next).status ≠ THREAD_READY then Result.panic s1
    else Result.ok (next, s1)

/-- The loop of `mlfqs_get_next_thread_to_run` from index `i` downwards. -/
def mlfqs_get_next_thread_to_run_from (s : Kernel) : Nat → Result (Nat × Kernel)
  | 0 =>
    if !list_empty (s.mlfqs_queue 0) then mlfqs_pop_queue s 0
    else Result.ok (s.idle_thread, s)
  | i + 1 =>
    if !list_empty (s.mlfqs_queue (i + 1)) then mlfqs_pop_queue s (i + 1)
    else mlfqs_get_next_thread_to_run_from s i

/-- The function `mlfqs_get_next_thread_to_run`. -/
def mlfqs_get_next_thread_to_run (s : Kernel) : Result (Nat × Kernel) :=
  mlfqs_get_next_thread_to_run_from s PRI_MAX.toNat

/-- The function `next_thread_to_run`. -/
def next_thread_to_run (s : Kernel) : Result (Nat × Kernel) :=
  if !s.thread_mlfqs then
    if list_empty s.ready_list then Result.ok (s.idle_thread, s)
    else
      match remove_list_max (thread_hash_compare s) s.ready_list with
      | none => Result.panic s
      | some (t, rest) =>
        let s1 := { s with ready_list := rest }
        if !is_thread s1 t then Result.panic s1
        else if (s1.mem t).status ≠ THREAD_READY then Result.panic s1
        else Result.ok (t, s1)
  else mlfqs_get_next_thread_to_run s

/-- The function `thread_schedule_tail`: marks the thread now on the CPU as
running, starts its time slice and frees the page of a dying predecessor
(`prev = 0` is the `NULL` passed when no switch took place). -/
def thread_schedule_tail (s : Kernel) (prev : Nat) : Result Kernel :=
  let cur := running_thread s
  let s1 := s.set_status cur THREAD_RUNNING
  if ¬ (prev ≠ cur ∧ (s1.mem cur).status ≠ THREAD_DYING) then Result.panic s1
  else
    let s2 := { s1 with thread_ticks := 0 }
    if prev ≠ 0 ∧ (s2.mem prev).status = THREAD_DYING ∧ prev ≠ s2.initial_thread then
      if ¬ (prev ≠ cur) then Result.panic s2
      else Result.ok { s2 with freed := prev :: s2.freed }
    else Result.ok s2

/-- The function `schedule`: picks the next thread, checks its assertions,
switches to the chosen thread when it differs from the current one
(`switch_threads` hands the thread switched from to the new thread as `prev`)
and runs `thread_schedule_tail`. -/
def schedule (s : Kernel) : Result Kernel :=
  let cur := running_thread s
  match next_thread_to_run s with
  | Result.panic s1 => Result.panic s1
  | Result.ok (next, s1) =>
    if (s1.mem cur).status = THREAD_RUNNING then Result.panic s1
    else if !is_thread s1 next then Result.panic s1
    else if cur ≠ next then thread_schedule_tail { s1 with cur := next } cur
    else thread_schedule_tail s1 0

/-- The function `thread_block`. -/
def thread_block (s : Kernel) : Result Kernel :=
  if s.intr_context then Result.panic s
  else
    match thread_current s with
    | Result.panic s1 => Result.panic s1
    | Result.ok t => schedule (s.set_status t THREAD_BLOCKED)

/-- The function `thread_unblock`.  It links the scheduling node `t->elem`
into the ready structure, so its callers hand it a thread whose node is in no
list: `thread_create` a thread on a fresh page, `thread_check_sleeping` a
thread it has just unlinked ("thread_unblock moves e to the ready list leaving
the sleep list in an inconsistent state if e isn't removed first").  The
embedding stands for the code on the states with `elem_unlinked s t`. -/
def thread_unblock (s : Kernel) (t : Nat) : Result Kernel :=
  if !is_thread s t then Result.panic s
  else if (s.mem t).status ≠ THREAD_BLOCKED then Result.panic s
  else
    Result.bind
      (if !s.thread_mlfqs then
        Result.ok { s with ready_list := list_push_back s.ready_list t }
      else mlfqs_insert s t)
      (fun s1 => Result.ok (s1.set_status t THREAD_READY))

/-- The function `thread_yield`. -/
def thread_yield (s : Kernel) : Result Kernel :=
  match thread_current s with
  | Result.panic s1 => Result.panic s1
  | Result.ok cur =>
    if s.intr_context then Result.panic s
    else
      Result.bind
        (if cur ≠ s.idle_thread then
          if !s.thread_mlfqs then
            Result.ok { s with ready_list := list_push_back s.ready_list cur }
          else mlfqs_insert s cur
        else Result.ok s)
        (fun s1 => schedule (s1.set_status cur THREAD_READY))

/-- The function `thread_yield` called `n` times in a row, each call by the
thread that the previous call made the running thread. -/
def thread_yield_times : Nat → Kernel → Result Kernel
  | 0, s => Result.ok s
  | n + 1, s => Result.bind (thread_yield s) (thread_yield_times n)

/-- The function `thread_preempt`. -/
def thread_preempt (s : Kernel) : Result Kernel :=
  let cur := running_thread s
  if !is_thread s cur then Result.panic s
  else if (s.mem cur).status ≠ THREAD_RUNNING then Result.panic s
  else if !s.thread_mlfqs then
    if !list_empty s.ready_list then
      match list_max (thread_hash_compare s) s.ready_list with
      | none => Result.ok s
      | some tHigh =>
        if (s.mem tHigh).tmp_priority > (s.mem cur).tmp_priority then thread_yield s
        else Result.ok s
    else Result.ok s
  else if mlfqs_get_highest_priority s > (s.mem cur).priority then thread_yield s
  else Result.ok s

/-- The function `allocate_tid`: hands out `next_tid` and increments it (the
lock around it is uncontended and leaves the scheduler state alone). -/
def allocate_tid (s : Kernel) : Int × Kernel :=
  (s.next_tid, { s with next_tid := s.next_tid + 1 })

/-- The function `init_thread`; `name` is the address of the name string. -/
def init_thread (s : Kernel) (t : Nat) (name : Nat) (priority : Int) : Result Kernel :=
  if t = 0 then Result.panic s
  else if ¬ (PRI_MIN ≤ priority ∧ priority ≤ PRI_MAX) then Result.panic s
  else if name = 0 then Result.panic s
  else
    let s1 := s.write t { thread.zeroed with
      status := THREAD_BLOCKED, priority := priority, lock_waited_on := 0,
      magic := THREAD_MAGIC }
    let s2 :=
      if s1.thread_mlfqs then
        let running := running_thread s1
        s1.write t { s1.mem t with
          recent_cpu := (s1.mem running).recent_cpu, nice := (s1.mem running).nice }
      else s1.write t { s1.mem t with tmp_priority := priority }
    let s3 := s2.write t { s2.mem t with held_locks := [] }
    Result.ok { s3 with all_list := list_push_back s3.all_list t }

/-- The function `thread_create`.  `page` is what `palloc_get_page` returns
(`0` for `NULL`), `function` the address of the thread function, and
`process_ok` is false exactly when, in a USERPROG build, `calloc` or
`initialize_process` fails.  Returns the new thread's id or `TID_ERROR`. -/
def thread_create (s : Kernel) (page : Nat) (process_ok : Bool) (name : Nat)
    (priority : Int) (function : Nat) : Result (Int × Kernel) :=
  let priority := if s.thread_mlfqs then PRI_MAX else priority
  if function = 0 then Result.panic s
  else if page = 0 then Result.ok (TID_ERROR, s)
  else
    match init_thread s page name priority with
    | Result.panic s1 => Result.panic s1
    | Result.ok s1 =>
      let (tid, s2) := allocate_tid s1
      let s3 := s2.write page { s2.mem page with tid := tid }
      if !process_ok then Result.ok (TID_ERROR, s3)
      else
        match thread_unblock s3 page with
        | Result.panic s4 => Result.panic s4
        | Result.ok s4 =>
          match thread_preempt s4 with
          | Result.panic s5 => Result.panic s5
          | Result.ok s5 => Result.ok (tid, s5)

/-- Modelled from the spec: the donors of a thread that holds the locks `ls`,
the threads on "all held locks' waiter lists", in order (threads/synch.c is
not among the sources). -/
def lock_donors (s : Kernel) : List Nat → List Nat
  | [] => []
  | l :: ls => s.lock_waiters l ++ lock_donors s ls

/-- Modelled from the spec: `update_temp_priority` (threads/synch.c is not
among the sources), "effective priority is recomputed as max of new base and
donors' effective priorities across all held locks' waiter lists". -/
def update_temp_priority (s : Kernel) (t : Nat) : Kernel :=
  s.write t { s.mem t with
    tmp_priority :=
      (lock_donors s (s.mem t).held_locks).foldl
        (fun m w => max m (s.mem w).tmp_priority) (s.mem t).priority }

/-- The function `thread_set_priority`. -/
def thread_set_priority (s : Kernel) (new_priority : Int) : Result Kernel :=
  if s.thread_mlfqs then Result.ok s
  else
    match thread_current s with
    | Result.panic s1 => Result.panic s1
    | Result.ok t =>
      let s1 := s.write t { s.mem t with priority := new_priority }
      let s2 := s1.write t { s1.mem t with tmp_priority := new_priority }
      let s3 := update_temp_priority s2 t
      thread_preempt s3

/-- The function `thread_get_priority`. -/
def thread_get_priority (s : Kernel) : Result Int :=
  match thread_current s with
  | Result.panic s1 => Result.panic s1
  | Result.ok t =>
    if s.thread_mlfqs then Result.ok (s.mem t).priority
    else Result.ok (s.mem t).tmp_priority

/-- The function `mlfqs_switch_queue`. -/
def mlfqs_switch_queue (s : Kernel) (t : Nat) (new_priority : Int) : Result Kernel :=
  if new_priority = (s.mem t).priority then Result.ok s
  else
    let s1 := s.write t { s.mem t with priority := new_priority }
    if (s1.mem t).status = THREAD_READY then mlfqs_insert (list_remove_elem s1 t) t
    else Result.ok s1

/-- The value `newPriority` that `recalculate_priority` computes from a
thread's `recent_cpu` and `nice`: the fixed-point subtraction, the conversion
to an integer and the bounding to `PRI_MIN .. PRI_MAX`. -/
def recalculate_priority_value (recent_cpu nice : Int) : Int :=
  let newP := fp_sub (itof PRI_MAX) (fp_int_div recent_cpu 4)
  let newP := fp_sub newP (itof (nice * 2))
  let newPriority := ftoi newP
  if newPriority < PRI_MIN then PRI_MIN
  else if newPriority > PRI_MAX then PRI_MAX
  else newPriority

/-- The function `recalculate_priority`; `switchQueues` is the pointer
argument (`0` for `NULL`). -/
def recalculate_priority (s : Kernel) (t : Nat) (switchQueues : Nat) : Result Kernel :=
  if t = s.idle_thread then Result.ok s
  else
    let newPriority := recalculate_priority_value (s.mem t).recent_cpu (s.mem t).nice
    if switchQueues = 0 then mlfqs_switch_queue s t newPriority
    else Result.ok s

/-- The loop of `thread_foreach` over the remaining nodes of the all-threads
list. -/
def thread_foreach_from (func : Kernel → Nat → Result Kernel) :
    List Nat → Kernel → Result Kernel
  | [], s => Result.ok s
  | t :: rest, s => Result.bind (func s t) (thread_foreach_from func rest)

/-- The function `thread_foreach`: `func` on every thread of the all-threads
list, front to back. -/
def thread_foreach (s : Kernel) (func : Kernel → Nat → Result Kernel) : Result Kernel :=
  thread_foreach_from func s.all_list s

/-- The function `recalculate_priorities`. -/
def recalculate_priorities (s : Kernel) : Result Kernel :=
  thread_foreach s (fun k t => recalculate_priority k t 0)

/-- The function `thread_set_nice`. -/
def thread_set_nice (s : Kernel) (nice : Int) : Result Kernel :=
  if !s.thread_mlfqs then Result.ok s
  else
    match thread_current s with
    | Result.panic s1 => Result.panic s1
    | Result.ok t =>
      let s1 := s.write t { s.mem t with nice := nice }
      match recalculate_priority s1 t NO_SWITCH with
      | Result.panic s2 => Result.panic s2
      | Result.ok s2 => thread_preempt s2

/-- The loop of `thread_check_sleeping` over the remaining nodes of the sleep
queue: a due thread is unlinked from the sleep queue first and then
unblocked. -/
def thread_check_sleeping_from (current_tick : Int) : List Nat → Kernel → Result Kernel
  | [], s => Result.ok s
  | t :: rest, s =>
    if (s.mem t).wake_time ≤ current_tick then
      Result.bind (thread_unblock { s with sleep_list := list_remove s.sleep_list t } t)
        (thread_check_sleeping_from current_tick rest)
    else thread_check_sleeping_from current_tick rest s

/-- The function `thread_check_sleeping`. -/
def thread_check_sleeping (s : Kernel) (current_tick : Int) : Result Kernel :=
  if !s.intr_context then Result.panic s
  else thread_check_sleeping_from current_tick s.sleep_list s

/-- The function `thread_sleep`. -/
def thread_sleep (s : Kernel) (wake_time : Int) : Result Kernel :=
  let cur := running_thread s
  if !is_thread s cur then Result.panic s
  else if (s.mem cur).status ≠ THREAD_RUNNING then Result.panic s
  else
    let s1 := s.write cur { s.mem cur with wake_time := wake_time }
    let s2 := { s1 with sleep_list := list_push_back s1.sleep_list cur }
    thread_block s2


/-- Modelled from the spec: `intr_yield_on_return` (threads/interrupt.c is not
among the sources), "requests a yield-on-return from the interrupt". -/
def intr_yield_on_return (s : Kernel) : Kernel :=
  { s with yield_on_return := true }

/-- The function `thread_tick`.  `in_user_process` is true exactly when, in a
USERPROG build, the running thread has a page directory
(`t->pagedir != NULL`).  The counter `thread_ticks` is a 32-bit `unsigned`. -/
def thread_tick (s : Kernel) (in_user_process : Bool) : Result Kernel :=
  match thread_current s with
  | Result.panic s1 => Result.panic s1
  | Result.ok t =>
    let s1 :=
      if t = s.idle_thread then { s with idle_ticks := s.idle_ticks + 1 }
      else if in_user_process then { s with user_ticks := s.user_ticks + 1 }
      else { s with kernel_ticks := s.kernel_ticks + 1 }
    let s2 :=
      if s1.thread_mlfqs then
        s1.write t { s1.mem t with recent_cpu := fp_add (s1.mem t).recent_cpu (itof 1) }
      else s1
    let s3 := { s2 with thread_ticks := (s2.thread_ticks + 1) % 4294967296 }
    if s3.thread_ticks ≥ TIME_SLICE then Result.ok (intr_yield_on_return s3)
    else Result.ok s3

/-- The function `thread_tick` called `n` times in a row by the timer
interrupt, each interrupt starting with no yield requested and no scheduling
in between. -/
def thread_tick_times (in_user_process : Bool) : Nat → Kernel → Result Kernel
  | 0, s => Result.ok s
  | n + 1, s =>
    Result.bind (thread_tick_times in_user_process n s)
      (fun s1 => thread_tick { s1 with yield_on_return := false } in_user_process)

/-- The function `count_thread_if_ready`; `count` is the integer behind the
pointer argument, the new value is returned. -/
def count_thread_if_ready (s : Kernel) (t : Nat) (count : Int) : Int :=
  if t ≠ s.idle_thread ∧
      ((s.mem t).status = THREAD_RUNNING ∨ (s.mem t).status = THREAD_READY) then count + 1
  else count

/-- The function `thread_foreach` applied to a function that only updates the
integer behind `aux`: the integer after the pass over the all-threads list. -/
def thread_foreach_count (s : Kernel) (func : Kernel → Nat → Int → Int) (aux : Int) : Int :=
  s.all_list.foldl (fun count t => func s t count) aux

/-- The function `count_ready_threads`. -/
def count_ready_threads (s : Kernel) : Int :=
  thread_foreach_count s count_thread_if_ready 0

/-- The function `recalculate_loads`. -/
def recalculate_loads (s : Kernel) : Kernel :=
  { s with
    load_avg := (fp_add (fp_mult (fp_div (itof 59) (itof 60)) s.load_avg)
      (fp_div (itof (count_ready_threads s)) (itof 60))) }

/-- The function `recalculate_recent_cpu`. -/
def recalculate_recent_cpu (s : Kernel) (t : Nat) : Kernel :=
  let enumer := fp_int_mult s.load_avg 2
  let coefficient := fp_div enumer (fp_int_add enumer 1)
  s.write t { s.mem t with
    recent_cpu := (fp_int_add (fp_mult coefficient (s.mem t).recent_cpu) (s.mem t).nice) }

/-- The function `recalculate_all_recent_cpu`. -/
def recalculate_all_recent_cpu (s : Kernel) : Result Kernel :=
  thread_foreach s (fun k t => Result.ok (recalculate_recent_cpu k t))

/-- The function `mlfqs_init`: the queues `0 .. PRI_MAX` become empty lists. -/
def mlfqs_init (s : Kernel) : Kernel :=
  { s with mlfqs_queue := fun i => if i ≤ PRI_MAX.toNat then [] else s.mlfqs_queue i }

/-- The address of the string literal `"main"`, not `NULL`. -/
def STR_MAIN : Nat := 1

/-- The function `thread_init`, run on the state the loader leaves: `cur` is
the page of the stack in use, and the `static` variables have their load-time
values. -/
def thread_init (s : Kernel) : Result Kernel :=
  let s1 := { s with ready_list := [], all_list := [], sleep_list := [] }
  let s2 := if s1.thread_mlfqs then { mlfqs_init s1 with load_avg := 0 } else s1
  let s3 := { s2 with initial_thread := running_thread s2 }
  match init_thread s3 s3.initial_thread STR_MAIN PRI_DEFAULT with
  | Result.panic s4 => Result.panic s4
  | Result.ok s4 =>
    let t := s4.initial_thread
    let s5 := s4.write t { s4.mem t with recent_cpu := 0 }
    let s6 := s5.write t { s5.mem t with nice := 0 }
    let s7 := s6.set_status t THREAD_RUNNING
    let (tid, s8) := allocate_tid s7
    Result.ok (s8.write t { s8.mem t with tid := tid })

/-- Modelled from the spec: `lock_release_preempt` (threads/synch.c is not
among the sources) for a lock already taken off the holder's held-set: the
releaser's effective priority is recomputed over the remaining held locks,
then the semaphore is upped, "if waiters present, select the
max-effective-priority waiter, remove, unblock", and only the preempting
variant checks for preemption. -/
def lock_release_preempt (s : Kernel) (lock : Nat) (preempt : Bool) : Result Kernel :=
  let s1 := update_temp_priority s (running_thread s)
  Result.bind
    (match remove_list_max (thread_hash_compare s1) (s1.lock_waiters lock) with
      | none => Result.ok s1
      | some (w, rest) =>
        thread_unblock
          { s1 with lock_waiters := fun l => if l = lock then rest else s1.lock_waiters l } w)
    (fun s2 => if preempt then thread_preempt s2 else Result.ok s2)

/-- The loop of `release_locks` over the locks still held: the front lock is
popped off the held-set and released without preempting. -/
def release_locks_from (t : Nat) : List Nat → Kernel → Result Kernel
  | [], s => Result.ok s
  | lock :: rest, s =>
    Result.bind
      (lock_release_preempt (s.write t { s.mem t with held_locks := rest }) lock false)
      (release_locks_from t rest)

/-- The function `release_locks`. -/
def release_locks (s : Kernel) : Result Kernel :=
  if s.intr_context then Result.panic s
  else
    match thread_current s with
    | Result.panic s1 => Result.panic s1
    | Result.ok t => release_locks_from t (s.mem t).held_locks s

/-- The function `thread_exit`.  It returns the state in which the next thread
runs; were `schedule` to come back to the exiting thread, `NOT_REACHED` stops
the kernel.  The call of `process_exit` in a USERPROG build (userprog, outside
the scheduler state) is left out. -/
def thread_exit (s : Kernel) : Result Kernel :=
  if s.intr_context then Result.panic s
  else
    match thread_current s with
    | Result.panic s1 => Result.panic s1
    | Result.ok t =>
      let s1 := { s with all_list := list_remove s.all_list t }
      match release_locks s1 with
      | Result.panic s2 => Result.panic s2
      | Result.ok s2 =>
        match thread_current s2 with
        | Result.panic s3 => Result.panic s3
        | Result.ok t2 =>
          match schedule (s2.set_status t2 THREAD_DYING) with
          | Result.panic s4 => Result.panic s4
          | Result.ok s4 => if s4.cur = t2 then Result.panic s4 else Result.ok s4

/-- The function `allocate_tid` called `k + 1` times in a row: what the last
of these calls returns, and the state it leaves (`next_tid` is a `static`
local of `allocate_tid`, so no other code reads or writes it). -/
def allocate_tid_nth : Nat → Kernel → Int × Kernel
  | 0, s => allocate_tid s
  | k + 1, s => allocate_tid_nth k (allocate_tid s).2

/-! ## test.c -/

/-- The character `'\0'` that ends a C string. -/
def NUL : Char := Char.ofNat 0

/-- The character `full[i]` of a buffer. -/
def char_at (full : List Char) (i : Nat) : Char := full.getD i NUL

/-- The loop of `dir_path_and_leaf` that scans `full` up to its terminating
`'\0'`, with the two `uint32_t` counters; `fuel` bounds the number of
iterations, and the result is `(last_slash_pos, char_count)` once the loop has
ended. -/
def dir_scan (full : List Char) : Nat → Nat → Nat → Option (Nat × Nat)
  | 0, _, _ => none
  | fuel + 1, last_slash_pos, char_count =>
    if char_at full char_count ≠ NUL then
      dir_scan full fuel
        (if char_at full char_count = '/' then char_count else last_slash_pos)
        ((char_count + 1) % 4294967296)
    else some (last_slash_pos, char_count)

/-- What `dir_path_and_leaf` leaves behind: the buffer `full` after the call,
the pointers stored in `*path` and `*leaf` as offsets into the buffer (`none`
for `NULL`), and the returned `is_relative`. -/
structure path_and_leaf where
  buffer : List Char
  path : Option Nat
  leaf : Option Nat
  is_relative : Int
deriving DecidableEq, Repr

/-- The function `dir_path_and_leaf` of test.c on the buffer `full`; `fuel`
bounds the iterations of its scanning loop (`none` when it does not suffice). -/
def dir_path_and_leaf (fuel : Nat) (full : List Char) : Option path_and_leaf :=
  match dir_scan full fuel 0 0 with
  | none => none
  | some (last_slash_pos, char_count) =>
    let r : path_and_leaf :=
      if char_at full 0 = '/' then
        if last_slash_pos = 0 then
          if char_count = 1 then
            { buffer := full, path := none, leaf := some 0, is_relative := 0 }
          else { buffer := full, path := none, leaf := some 1, is_relative := 0 }
        else
          { buffer := full.set last_slash_pos NUL, path := some 0,
            leaf := some (last_slash_pos + 1), is_relative := 0 }
      else
        if last_slash_pos = 0 then
          { buffer := full, path := none, leaf := some 0, is_relative := 1 }
        else
          { buffer := full.set last_slash_pos NUL, path := some 0,
            leaf := some (last_slash_pos + 1), is_relative := 1 }
    match r.leaf with
    | none => some r
    | some l => if char_at r.buffer l = NUL then some { r with leaf := none } else some r

/-- The function `thread_is_alive`: the loop over the remaining nodes of the
all-threads list. -/
def thread_is_alive_from (s : Kernel) (tid : Int) : List Nat → Bool
  | [] => false
  | t :: rest => if (s.mem t).tid = tid then true else thread_is_alive_from s tid rest

/-- The function `thread_is_alive`. -/
def thread_is_alive (s : Kernel) (tid : Int) : Bool :=
  thread_is_alive_from s tid s.all_list

/-! ## Notions of the specification -/

/-- The condition of the specification's preempt rule, "some ready thread has
higher priority than current": a thread linked into the ready structure (the
ready list, or one of the queues 0..63 under MLFQS) has a priority strictly
greater than the running thread's, `tmp_priority` under the priority policy
and `priority` under MLFQS. -/
def ready_outranks (s : Kernel) : Prop :=
  if s.thread_mlfqs then
    ∃ i, i ≤ 63 ∧ ∃ t ∈ s.mlfqs_queue i, (s.mem t).priority > (s.mem s.cur).priority
  else ∃ t ∈ s.ready_list, (s.mem t).tmp_priority > (s.mem s.cur).tmp_priority

/-- The MLFQS priority formula in the words of the specification,
`clamp (PRI_MAX - recent_cpu/4 - nice*2, PRI_MIN, PRI_MAX)`: the subtraction
is done in 17.14 fixed point on the fixed-point `recent_cpu`, the result is
converted to an integer and then bounded below by `PRI_MIN` and above by
`PRI_MAX`. -/
def spec_mlfqs_priority (recent_cpu nice : Int) : Int :=
  max PRI_MIN (min PRI_MAX
    (ftoi (fp_sub (fp_sub (itof PRI_MAX) (fp_int_div recent_cpu 4)) (itof (2 * nice)))))

/-- The situation of the specification's FIFO scenario: under the priority
policy, outside interrupt context, the running thread and the threads of a
non-empty ready list are distinct valid threads other than the idle thread,
all of the same effective priority, the first RUNNING and the others READY. -/
def round_robin_ready (s : Kernel) : Prop :=
  s.thread_mlfqs = false ∧ s.intr_context = false ∧ s.ready_list ≠ [] ∧
  (s.cur :: s.ready_list).Nodup ∧
  (∀ t ∈ s.cur :: s.ready_list,
    is_thread s t = true ∧ t ≠ s.idle_thread ∧
      (s.mem t).tmp_priority = (s.mem s.cur).tmp_priority) ∧
  (s.mem s.cur).status = THREAD_RUNNING ∧
  (∀ t ∈ s.ready_list, (s.mem t).status = THREAD_READY)

/-- The load-average update in the words of the specification,
`(59/60)*load_avg + (1/60)*ready_count` in 17.14 fixed point: the coefficient
`59/60` and the term `ready_count/60` are fixed-point quotients of integers
converted to fixed point, the product is scaled back, every division
truncating toward zero, and the two are added. -/
def spec_load_avg (load_avg ready_count : Int) : Int :=
  Int.tdiv (Int.tdiv (59 * 16384 * 16384) (60 * 16384) * load_avg) 16384
    + Int.tdiv (ready_count * 16384 * 16384) (60 * 16384)

/-- The decay of `recent_cpu` in the words of the specification,
`(2*load_avg)/(2*load_avg + 1) * recent_cpu + nice` in 17.14 fixed point: the
coefficient is a fixed-point quotient, the product is scaled back, both
divisions truncating toward zero, and `nice` is added as an integer. -/
def spec_recent_cpu (load_avg recent_cpu nice : Int) : Int :=
  Int.tdiv (Int.tdiv (2 * load_avg * 16384) (2 * load_avg + 16384) * recent_cpu) 16384
    + nice * 16384

/-- The threads that the specification's `ready_count` counts: RUNNING or
READY and not the idle thread. -/
def counts_as_ready (s : Kernel) (t : Nat) : Bool :=
  decide (t ≠ s.idle_thread) &&
    (decide ((s.mem t).status = THREAD_RUNNING) || decide ((s.mem t).status = THREAD_READY))

/-- The state in which `thread_create` calls `thread_unblock`: the thread
block on `page` has been zeroed and filled in by `init_thread` with priority
`p`, appended to the all-threads list, and given the id `next_tid`. -/
def created_state (s : Kernel) (page : Nat) (p : Int) : Kernel :=
  { s with
    all_list := s.all_list ++ [page]
    next_tid := s.next_tid + 1
    mem := (fun q => if q = page then
      { thread.zeroed with
        tid := s.next_tid, status := THREAD_BLOCKED, priority := p, magic := THREAD_MAGIC,
        tmp_priority := (if s.thread_mlfqs = true then 0 else p),
        recent_cpu := (if s.thread_mlfqs = true then
          (if s.cur = page then 0 else (s.mem s.cur).recent_cpu) else 0),
        nice := (if s.thread_mlfqs = true then
          (if s.cur = page then 0 else (s.mem s.cur).nice) else 0) }
      else s.mem q) }

/-- The C string that starts at offset `k` of a buffer: the characters up to
the first `'\0'`. -/
def c_string (buf : List Char) (k : Nat) : List Char :=
  (buf.drop k).takeWhile (fun c => decide (c ≠ NUL))

/-- The string that `*path` points to after `dir_path_and_leaf`, a `NULL`
pointer read as the empty string. -/
def path_string (r : path_and_leaf) : List Char :=
  match r.path with
  | none => []
  | some k => c_string r.buffer k

/-- The string that `*leaf` points to after `dir_path_and_leaf`, a `NULL`
pointer read as the empty string. -/
def leaf_string (r : path_and_leaf) : List Char :=
  match r.leaf with
  | none => []
  | some k => c_string r.buffer k

/-- The position of the last `'/'` among the characters `r`, which stand at
the positions `c, c+1, ...` of a string; `l` when there is none. -/
def last_slash_from : List Char → Nat → Nat → Nat
  | [], l, _ => l
  | ch :: rest, l, c => last_slash_from rest (if ch = '/' then c else l) (c + 1)

/-- A thread is linked into the ready structure: it is on the ready list
under the priority policy, in one of the queues 0..63 under MLFQS. -/
def ready_linked (s : Kernel) (t : Nat) : Prop :=
  if s.thread_mlfqs = true then ∃ i, i ≤ 63 ∧ t ∈ s.mlfqs_queue i else t ∈ s.ready_list

/-- The ready structure after `t` has been pushed at the back of the ready
list (priority policy) or of the queue of its priority (MLFQS). -/
def ready_push (s : Kernel) (t : Nat) : Kernel :=
  { s with
    ready_list := (if s.thread_mlfqs = true then s.ready_list else s.ready_list ++ [t])
    mlfqs_queue := (fun j =>
      if s.thread_mlfqs = true ∧ j = ((s.mem t).priority).toNat then s.mlfqs_queue j ++ [t]
      else s.mlfqs_queue j) }

/-- The state the loader leaves for `thread_init`: the boot stack page is not
`NULL`, the `static` variables have their load-time values, interrupts are
off, and no page carries the thread magic yet. -/
def boot_state (s : Kernel) : Prop :=
  s.cur ≠ 0 ∧ s.next_tid = 1 ∧ s.idle_thread = 0 ∧ s.load_avg = 0 ∧
  s.intr_context = false ∧ ∀ p, (s.mem p).magic ≠ THREAD_MAGIC

/-- The part of the scheduler invariant that also holds inside `thread_block`,
`thread_yield` and `thread_exit` between the change of the running thread's
status and the call of `schedule`. -/
structure base_invariant (s : Kernel) : Prop where
  linked_ready : ∀ t, ready_linked s t → is_thread s t = true ∧ (s.mem t).status = THREAD_READY
  alive_listed : ∀ t, is_thread s t = true → (s.mem t).status ≠ THREAD_DYING → t ∈ s.all_list
  listed_valid : ∀ t, t ∈ s.all_list → is_thread s t = true
  idle_alive : s.idle_thread = 0 ∨
    (is_thread s s.idle_thread = true ∧ (s.mem s.idle_thread).status ≠ THREAD_DYING)
  ready_nodup : s.ready_list.Nodup
  queue_nodup : s.thread_mlfqs = true → ∀ i, i ≤ 63 → (s.mlfqs_queue i).Nodup
  queue_priority : s.thread_mlfqs = true →
    ∀ i t, i ≤ 63 → t ∈ s.mlfqs_queue i → (s.mem t).priority = (i : Int)
  priority_range : s.thread_mlfqs = true →
    ∀ t, is_thread s t = true → PRI_MIN ≤ (s.mem t).priority ∧ (s.mem t).priority ≤ PRI_MAX
  no_locks : ∀ t, is_thread s t = true → (s.mem t).held_locks = []
  load_nonneg : 0 ≤ s.load_avg
  tid_below : ∀ t, t ∈ s.all_list → (s.mem t).tid < s.next_tid
  tid_nodup : (s.all_list.map (fun t => (s.mem t).tid)).Nodup

/-- The scheduler invariant between operations: the base invariant, and the
thread on the CPU is a valid thread, RUNNING, and the only RUNNING one. -/
structure scheduler_invariant (s : Kernel) : Prop where
  base : base_invariant s
  cur_valid : is_thread s s.cur = true
  cur_running : (s.mem s.cur).status = THREAD_RUNNING
  one_running : ∀ t, is_thread s t = true → (s.mem t).status = THREAD_RUNNING → t = s.cur

/-- The state in which `schedule` is called: the base invariant, the thread on
the CPU is valid, and no thread is RUNNING any more. -/
structure schedule_ready (s : Kernel) : Prop where
  base : base_invariant s
  cur_valid : is_thread s s.cur = true
  none_running : ∀ t, is_thread s t = true → (s.mem t).status ≠ THREAD_RUNNING

/-- Every READY thread other than the idle thread is linked into the ready
structure. -/
def ready_all_linked (s : Kernel) : Prop :=
  ∀ t, is_thread s t = true → (s.mem t).status = THREAD_READY → t ≠ s.idle_thread →
    ready_linked s t

/-- Two states that agree on everything the base invariant looks at: policy,
ready structure, all-threads list, idle thread, next id, load average, and of
every thread block the magic, status, id, held locks and, under MLFQS, the
priority. -/
def same_base (s s1 : Kernel) : Prop :=
  s1.thread_mlfqs = s.thread_mlfqs ∧ s1.ready_list = s.ready_list ∧
  s1.mlfqs_queue = s.mlfqs_queue ∧ s1.all_list = s.all_list ∧
  s1.idle_thread = s.idle_thread ∧ s1.next_tid = s.next_tid ∧
  s1.load_avg = s.load_avg ∧
  ∀ u, (s1.mem u).magic = (s.mem u).magic ∧ (s1.mem u).status = (s.mem u).status ∧
    (s1.mem u).tid = (s.mem u).tid ∧ (s1.mem u).held_locks = (s.mem u).held_locks ∧
    (s.thread_mlfqs = true → (s1.mem u).priority = (s.mem u).priority)

/-- Two states that agree on everything the scheduler invariant looks at: as
`same_base`, and the same thread is on the CPU. -/
def same_core (s s1 : Kernel) : Prop :=
  same_base s s1 ∧ s1.cur = s.cur

/-- Two states with the same threads: the same policy, all-threads list, idle
thread and next id, and the same magic and id in every thread block. -/
def same_threads (s s1 : Kernel) : Prop :=
  s1.thread_mlfqs = s.thread_mlfqs ∧ s1.all_list = s.all_list ∧
  s1.idle_thread = s.idle_thread ∧ s1.next_tid = s.next_tid ∧
  ∀ u, (s1.mem u).magic = (s.mem u).magic ∧ (s1.mem u).tid = (s.mem u).tid

/-- What every scheduler operation that neither creates nor ends a thread
guarantees: the scheduler invariant afterwards, READY threads stay linked, and
the threads are the same. -/
def step_ok (s s1 : Kernel) : Prop :=
  scheduler_invariant s1 ∧ (ready_all_linked s → ready_all_linked s1) ∧ same_threads s s1

/-- The states the kernel reaches from `thread_init` by completed scheduler
operations.  A page handed to `thread_create` is not the page of a thread on
the all-threads list; the idle thread does not exit; the idle thread announces
itself once (`idle_thread = thread_current ()` in `idle`); the priority
recalculation runs under MLFQS only; an interrupt handler is entered and left
at any time.  `thread_unblock` is taken on any thread it accepts, so the
relation contains every run in which it is only called on threads whose
scheduling node is linked in no list.  With `internal = true` the two internal MLFQS routines
`mlfqs_switch_queue` (on a valid thread, with a priority in range) and
`mlfqs_get_next_thread_to_run` also count as operations of their own. -/
inductive Reachable (internal : Bool) : Kernel → Prop
  | init_step (s0 s : Kernel) :
      boot_state s0 → thread_init s0 = Result.ok s → Reachable internal s
  | create_step (s s1 : Kernel) (page name function : Nat) (b : Bool) (p tid : Int) :
      Reachable internal s → page ∉ s.all_list →
      thread_create s page b name p function = Result.ok (tid, s1) → Reachable internal s1
  | block_step (s s1 : Kernel) :
      Reachable internal s → thread_block s = Result.ok s1 → Reachable internal s1
  | unblock_step (s s1 : Kernel) (t : Nat) :
      Reachable internal s → thread_unblock s t = Result.ok s1 → Reachable internal s1
  | yield_step (s s1 : Kernel) :
      Reachable internal s → thread_yield s = Result.ok s1 → Reachable internal s1
  | sleep_step (s s1 : Kernel) (wake_time : Int) :
      Reachable internal s → thread_sleep s wake_time = Result.ok s1 → Reachable internal s1
  | check_sleeping_step (s s1 : Kernel) (current_tick : Int) :
      Reachable internal s → thread_check_sleeping s current_tick = Result.ok s1 →
      Reachable internal s1
  | set_priority_step (s s1 : Kernel) (p : Int) :
      Reachable internal s → thread_set_priority s p = Result.ok s1 → Reachable internal s1
  | exit_step (s s1 : Kernel) :
      Reachable internal s → s.cur ≠ s.idle_thread → thread_exit s = Result.ok s1 →
      Reachable internal s1
  | set_nice_step (s s1 : Kernel) (nice : Int) :
      Reachable internal s → thread_set_nice s nice = Result.ok s1 → Reachable internal s1
  | tick_step (s s1 : Kernel) (in_user_process : Bool) :
      Reachable internal s → thread_tick s in_user_process = Result.ok s1 →
      Reachable internal s1
  | recalculate_priority_step (s s1 : Kernel) (t switchQueues : Nat) :
      Reachable internal s → s.thread_mlfqs = true → is_thread s t = true →
      recalculate_priority s t switchQueues = Result.ok s1 → Reachable internal s1
  | recalculate_priorities_step (s s1 : Kernel) :
      Reachable internal s → s.thread_mlfqs = true →
      recalculate_priorities s = Result.ok s1 → Reachable internal s1
  | recalculate_loads_step (s : Kernel) :
      Reachable internal s → Reachable internal (recalculate_loads s)
  | recalculate_recent_cpu_step (s s1 : Kernel) :
      Reachable internal s → recalculate_all_recent_cpu s = Result.ok s1 →
      Reachable internal s1
  | intr_step (s : Kernel) (b : Bool) :
      Reachable internal s → Reachable internal { s with intr_context := b }
  | idle_step (s : Kernel) :
      Reachable internal s → s.idle_thread = 0 →
      Reachable internal { s with idle_thread := s.cur }
  | switch_queue_step (s s1 : Kernel) (t : Nat) (q : Int) :
      Reachable internal s → internal = true → s.thread_mlfqs = true →
      is_thread s t = true → PRI_MIN ≤ q ∧ q ≤ PRI_MAX →
      mlfqs_switch_queue s t q = Result.ok s1 → Reachable internal s1
  | next_step (s s1 : Kernel) (t : Nat) :
      Reachable internal s → internal = true → s.thread_mlfqs = true →
      mlfqs_get_next_thread_to_run s = Result.ok (t, s1) → Reachable internal s1

/-! ## Concrete kernels used as examples -/

/-- A kernel without threads: every list empty, every thread block zeroed. -/
def Kernel.blank : Kernel :=
  { thread_mlfqs := false, intr_context := false, mem := fun _ => thread.zeroed,
    lock_waiters := fun _ => [], ready_list := [], mlfqs_queue := fun _ => [],
    sleep_list := [], all_list := [], idle_thread := 0, initial_thread := 0, cur := 0,
    load_avg := 0, thread_ticks := 0, next_tid := 1, freed := [], idle_ticks := 0,
    kernel_ticks := 0, user_ticks := 0, yield_on_return := false }

/-- A valid thread block with the given id, status and priority (base and
effective), everything else zero. -/
def example_thread (tid : Int) (st : thread_status) (priority : Int) : thread :=
  { thread.zeroed with
    tid := tid, status := st, priority := priority, tmp_priority := priority,
    magic := THREAD_MAGIC }

/-- A priority-policy kernel: `main` at address 1 is running at priority 31,
the idle thread at address 2 is blocked, and the threads at 3, 4, 5 wait on
the ready list in this order with priorities 31, 40, 40. -/
def example_priority_kernel : Kernel :=
  { Kernel.blank with
    mem := fun p =>
      if p = 1 then example_thread 1 THREAD_RUNNING 31
      else if p = 2 then example_thread 2 THREAD_BLOCKED 0
      else if p = 3 then example_thread 3 THREAD_READY 31
      else if p = 4 then example_thread 4 THREAD_READY 40
      else if p = 5 then example_thread 5 THREAD_READY 40
      else thread.zeroed
    ready_list := [3, 4, 5], all_list := [1, 2, 3, 4, 5], idle_thread := 2,
    initial_thread := 1, cur := 1, next_tid := 6 }

/-- An MLFQS kernel: `main` at address 1 is running at priority 63, the idle
thread at address 2 is blocked, queue 40 holds the threads 4, 5 and queue 31
holds thread 3. -/
def example_mlfqs_kernel : Kernel :=
  { example_priority_kernel with
    thread_mlfqs := true
    mem := fun p =>
      if p = 1 then example_thread 1 THREAD_RUNNING 63
      else example_priority_kernel.mem p
    ready_list := []
    mlfqs_queue := fun i => if i = 40 then [4, 5] else if i = 31 then [3] else [] }

/-- The scenario "main at 31 creates T": as `example_priority_kernel`, but only
thread 3 (priority 31) waits on the ready list. -/
def example_main_kernel : Kernel :=
  { example_priority_kernel with ready_list := [3] }

/-- The specification's scenario "threads A, B, C all at priority 31": A at
address 3 is running, B at 4 and C at 5 wait on the ready list in this order;
`main` at 1 and the idle thread at 2 are blocked. -/
def example_abc_kernel : Kernel :=
  { Kernel.blank with
    mem := fun p =>
      if p = 1 then example_thread 1 THREAD_BLOCKED 31
      else if p = 2 then example_thread 2 THREAD_BLOCKED 0
      else if p = 3 then example_thread 3 THREAD_RUNNING 31
      else if p = 4 then example_thread 4 THREAD_READY 31
      else if p = 5 then example_thread 5 THREAD_READY 31
      else thread.zeroed
    ready_list := [4, 5], all_list := [1, 2, 3, 4, 5], idle_thread := 2,
    initial_thread := 1, cur := 3, next_tid := 6 }

/-- A kernel inside the timer interrupt: as `example_priority_kernel`, and the
threads at 6, 7, 8 sleep on the sleep queue in this order with wake times 10,
30, 20 and priorities 50, 31, 31. -/
def example_sleep_kernel : Kernel :=
  { example_priority_kernel with
    intr_context := true
    mem := fun p =>
      if p = 6 then { example_thread 6 THREAD_BLOCKED 50 with wake_time := 10 }
      else if p = 7 then { example_thread 7 THREAD_BLOCKED 31 with wake_time := 30 }
      else if p = 8 then { example_thread 8 THREAD_BLOCKED 31 with wake_time := 20 }
      else example_priority_kernel.mem p
    sleep_list := [6, 7, 8], all_list := [1, 2, 3, 4, 5, 6, 7, 8], next_tid := 9 }

/-- The kernel of `example_sleep_kernel` inside `thread_check_sleeping`, after
the due thread 6 has been unlinked from the sleep queue (`e = list_remove (e)`)
and before `thread_unblock` is called on it. -/
def example_wake_kernel : Kernel :=
  { example_sleep_kernel with sleep_list := list_remove example_sleep_kernel.sleep_list 6 }

/-- An idle system under the priority policy: `main` at address 1 runs at
priority 31, nothing is ready, the idle thread at address 2 is blocked. -/
def example_quiet_kernel : Kernel :=
  { example_priority_kernel with ready_list := [] }

/-- A priority-policy kernel with donors: `main` at address 1 runs at priority
31 and holds the locks 100 and 101; thread 6 (priority 45) and thread 7
(priority 20) wait on lock 100, thread 8 (priority 35) waits on lock 101;
thread 3 (priority 31) is ready. -/
def example_lock_kernel : Kernel :=
  { Kernel.blank with
    mem := fun p =>
      if p = 1 then { example_thread 1 THREAD_RUNNING 31 with held_locks := [100, 101] }
      else if p = 2 then example_thread 2 THREAD_BLOCKED 0
      else if p = 3 then example_thread 3 THREAD_READY 31
      else if p = 6 then { example_thread 6 THREAD_BLOCKED 45 with lock_waited_on := 100 }
      else if p = 7 then { example_thread 7 THREAD_BLOCKED 20 with lock_waited_on := 100 }
      else if p = 8 then { example_thread 8 THREAD_BLOCKED 35 with lock_waited_on := 101 }
      else thread.zeroed
    lock_waiters := fun l => if l = 100 then [6, 7] else if l = 101 then [8] else []
    ready_list := [3], all_list := [1, 2, 3, 6, 7, 8], idle_thread := 2,
    initial_thread := 1, cur := 1, next_tid := 9 }

/-- An MLFQS kernel at a recomputation boundary: as `example_mlfqs_kernel`, but
thread 3 (READY in queue 31) has `recent_cpu` 40.0 (655360 in fixed point) and
`nice` 5. -/
def example_decay_kernel : Kernel :=
  { example_mlfqs_kernel with
    mem := fun p =>
      if p = 3 then { example_thread 3 THREAD_READY 31 with recent_cpu := 655360, nice := 5 }
      else example_mlfqs_kernel.mem p }

/-- An MLFQS kernel in which nothing is ready and the idle thread (address 2)
runs; `main` at address 1 is blocked. -/
def example_idle_kernel : Kernel :=
  { Kernel.blank with
    thread_mlfqs := true
    mem := fun p =>
      if p = 1 then example_thread 1 THREAD_BLOCKED 63
      else if p = 2 then example_thread 2 THREAD_RUNNING 0
      else thread.zeroed
    all_list := [1, 2], idle_thread := 2, initial_thread := 1, cur := 2, next_tid := 3 }

/-- An MLFQS kernel whose running thread `main` (address 1, priority 63) has
`nice` 5 and `recent_cpu` 0; otherwise as `example_mlfqs_kernel`. -/
def example_nice_kernel : Kernel :=
  { example_mlfqs_kernel with
    mem := fun p =>
      if p = 1 then { example_thread 1 THREAD_RUNNING 63 with nice := 5 }
      else example_mlfqs_kernel.mem p }

/-- The state in which a run of a kernel routine ended. -/
def Result.state (r : Result Kernel) : Kernel :=
  match r with
  | Result.ok s => s
  | Result.panic s => s

/-- The state in which a run of `thread_create` ended. -/
def Result.created (r : Result (Int × Kernel)) : Kernel :=
  match r with
  | Result.ok (_, s) => s
  | Result.panic s => s

/-- A boot state under the priority policy: no threads, the boot stack on
page 1. -/
def example_boot_kernel : Kernel := { Kernel.blank with cur := 1 }

/-- The boot run, step 1: `thread_init` has made page 1 the thread `main`. -/
def example_run_init : Kernel := (thread_init example_boot_kernel).state

/-- The boot run, step 2: `thread_start` has created the idle thread on page 2
with priority `PRI_MIN`. -/
def example_run_created : Kernel :=
  (thread_create example_run_init 2 true 7 PRI_MIN 8).created

/-- The boot run, step 3: `main` has blocked waiting for the idle thread, which
now runs. -/
def example_run_blocked : Kernel := (thread_block example_run_created).state

/-- The boot run, step 4: the idle thread has set `idle_thread` to itself. -/
def example_run_idle : Kernel :=
  { example_run_blocked with idle_thread := example_run_blocked.cur }

/-- The boot run, step 5: the idle thread has unblocked `main`. -/
def example_run_woken : Kernel := (thread_unblock example_run_idle 1).state

/-- The boot run, step 6: the idle thread has yielded to `main`. -/
def example_run_yielded : Kernel := (thread_yield example_run_woken).state

/-- A boot state under MLFQS: no threads, the boot stack on page 1. -/
def example_mlfqs_boot_kernel : Kernel :=
  { Kernel.blank with cur := 1, thread_mlfqs := true }

/-- The MLFQS run, step 1: `thread_init`. -/
def example_mlfqs_run_init : Kernel := (thread_init example_mlfqs_boot_kernel).state

/-- The MLFQS run, step 2: `main` has created a thread on page 2. -/
def example_mlfqs_run_created : Kernel :=
  (thread_create example_mlfqs_run_init 2 true 7 PRI_DEFAULT 8).created

/-- The MLFQS run, step 3: the load average has been recalculated. -/
def example_mlfqs_run_loads : Kernel := recalculate_loads example_mlfqs_run_created

/-- The boot run, step 7: `main` has exited and the idle thread runs. -/
def example_run_exited : Kernel := (thread_exit example_run_yielded).state

/-! ## Theorems -/

@[simp] theorem Result.bind_ok {α β : Type} (a : α) (f : α → Result β) :
    Result.bind (Result.ok a) f = f a := rfl

@[simp] theorem Result.bind_panic {α β : Type} (k : Kernel) (f : α → Result β) :
    Result.bind (Result.panic k : Result α) f = Result.panic k := rfl

theorem remove_list_max_key (key : Nat → Int) (l : List Nat) (hl : l ≠ []) :
    ∃ pre t post, l = pre ++ t :: post ∧
      remove_list_max (fun a b => decide (key a < key b)) l = some (t, pre ++ post) ∧
      (∀ u ∈ pre, key u < key t) ∧ (∀ u ∈ post, key u ≤ key t) := by
  induction l with
  | nil => exact absurd rfl hl
  | cons e rest ih =>
    by_cases hrest : rest = []
    · subst hrest
      exact ⟨[], e, [], rfl, by simp [remove_list_max], by simp, by simp⟩
    · obtain ⟨pre, m, post, hsplit, hrm, hpre, hpost⟩ := ih hrest
      by_cases hlt : key e < key m
      · refine ⟨e :: pre, m, post, by simp [hsplit], ?_, ?_, hpost⟩
        · simp [remove_list_max, hrm, hlt]
        · intro u hu
          rcases List.mem_cons.mp hu with h | h
          · rw [h]; exact hlt
          · exact hpre u h
      · refine ⟨[], e, rest, rfl, ?_, by simp, ?_⟩
        · simp [remove_list_max, hrm, hlt]
        · intro u hu
          have hme : key m ≤ key e := not_lt.mp hlt
          rw [hsplit] at hu
          rcases List.mem_append.mp hu with h | h
          · exact le_trans (le_of_lt (hpre u h)) hme
          · rcases List.mem_cons.mp h with h | h
            · rw [h]; exact hme
            · exact le_trans (hpost u h) hme

/-- C1: under the priority policy `next_thread_to_run` returns the idle thread
and changes nothing when the ready list is empty; otherwise it unlinks and
returns the earliest thread of maximal `tmp_priority` (everything before it is
strictly lower, everything after it is not higher) and the other threads keep
their order. -/
theorem next_thread_to_run_priority (s : Kernel) (hpol : s.thread_mlfqs = false)
    (hready : ∀ t ∈ s.ready_list, is_thread s t = true ∧ (s.mem t).status = THREAD_READY) :
    (s.ready_list = [] → next_thread_to_run s = Result.ok (s.idle_thread, s)) ∧
    (s.ready_list ≠ [] → ∃ pre t post, s.ready_list = pre ++ t :: post ∧
      next_thread_to_run s = Result.ok (t, { s with ready_list := pre ++ post }) ∧
      (∀ u ∈ pre, (s.mem u).tmp_priority < (s.mem t).tmp_priority) ∧
      (∀ u ∈ post, (s.mem u).tmp_priority ≤ (s.mem t).tmp_priority)) := by
  constructor
  · intro hnil
    simp [next_thread_to_run, hpol, hnil, list_empty]
  · intro hne
    obtain ⟨pre, t, post, hsplit, hrm, hpre, hpost⟩ :=
      remove_list_max_key (fun a => (s.mem a).tmp_priority) s.ready_list hne
    refine ⟨pre, t, post, hsplit, ?_, hpre, hpost⟩
    have hcmp : thread_hash_compare s
        = fun a b => decide ((s.mem a).tmp_priority < (s.mem b).tmp_priority) := by
      funext a b
      simp [thread_hash_compare, hpol]
    have ht := hready t (by rw [hsplit]; simp)
    have hthr := ht.1
    simp only [is_thread, Bool.and_eq_true, decide_eq_true_eq] at hthr
    simp [next_thread_to_run, hpol, list_empty, hne, hcmp, hrm, is_thread, hthr, ht.2]

/-- C1 at `example_priority_kernel`: thread 4, the first of the two threads at
priority 40, is chosen and 3, 5 stay in order. -/
theorem next_thread_to_run_priority_witness :
    (∀ t ∈ example_priority_kernel.ready_list,
      is_thread example_priority_kernel t = true ∧
        (example_priority_kernel.mem t).status = THREAD_READY) ∧
    ∃ pre t post, example_priority_kernel.ready_list = pre ++ t :: post ∧
      next_thread_to_run example_priority_kernel
        = Result.ok (t, { example_priority_kernel with ready_list := pre ++ post }) ∧
      (∀ u ∈ pre, (example_priority_kernel.mem u).tmp_priority
        < (example_priority_kernel.mem t).tmp_priority) ∧
      (∀ u ∈ post, (example_priority_kernel.mem u).tmp_priority
        ≤ (example_priority_kernel.mem t).tmp_priority) :=
  ⟨by decide, (next_thread_to_run_priority example_priority_kernel rfl (by decide)).2
    (by decide)⟩

theorem next_thread_to_run_example :
    next_thread_to_run example_priority_kernel
      = Result.ok (4, { example_priority_kernel with ready_list := [3, 5] }) := by
  rfl

theorem mlfqs_scan_empty (s : Kernel) (n : Nat) (h : ∀ i, i ≤ n → s.mlfqs_queue i = []) :
    mlfqs_get_next_thread_to_run_from s n = Result.ok (s.idle_thread, s) := by
  induction n with
  | zero => simp [mlfqs_get_next_thread_to_run_from, h 0 (le_refl 0), list_empty]
  | succ m ih =>
    have hm : s.mlfqs_queue (m + 1) = [] := h (m + 1) (le_refl _)
    simp only [mlfqs_get_next_thread_to_run_from, hm, list_empty]
    exact ih (fun i hi => h i (Nat.le_succ_of_le hi))

theorem mlfqs_scan_top (s : Kernel) (n i : Nat) (hi : i ≤ n) (hq : s.mlfqs_queue i ≠ [])
    (habove : ∀ j, i < j → j ≤ n → s.mlfqs_queue j = []) :
    mlfqs_get_next_thread_to_run_from s n = mlfqs_pop_queue s i := by
  induction n with
  | zero =>
    have h0 : i = 0 := Nat.le_zero.mp hi
    subst h0
    simp [mlfqs_get_next_thread_to_run_from, list_empty, hq]
  | succ m ih =>
    by_cases him : i = m + 1
    · subst him
      simp [mlfqs_get_next_thread_to_run_from, list_empty, hq]
    · have hlt : i < m + 1 := lt_of_le_of_ne hi him
      have hm : s.mlfqs_queue (m + 1) = [] := habove (m + 1) hlt (le_refl _)
      simp only [mlfqs_get_next_thread_to_run_from, hm, list_empty]
      exact ih (Nat.lt_succ_iff.mp hlt) (fun j h1 h2 => habove j h1 (Nat.le_succ_of_le h2))

/-- C2: `mlfqs_get_next_thread_to_run` returns the idle thread and changes
nothing when the queues 0..63 are all empty; when queue `i` is the non-empty
queue of highest index, with front `t` (a valid thread in state READY, as the
routine asserts), it returns `t` and only removes `t` from the front of queue
`i`. -/
theorem mlfqs_get_next_thread_to_run_spec (s : Kernel) :
    ((∀ i, i ≤ 63 → s.mlfqs_queue i = []) →
      mlfqs_get_next_thread_to_run s = Result.ok (s.idle_thread, s)) ∧
    (∀ i t rest, i ≤ 63 → s.mlfqs_queue i = t :: rest →
      (∀ j, i < j → j ≤ 63 → s.mlfqs_queue j = []) →
      is_thread s t = true → (s.mem t).status = THREAD_READY →
      mlfqs_get_next_thread_to_run s
        = Result.ok (t, { s with
            mlfqs_queue := fun j => if j = i then rest else s.mlfqs_queue j })) := by
  constructor
  · intro h
    exact mlfqs_scan_empty s 63 h
  · intro i t rest hi hq habove hthr hst
    have htop : mlfqs_get_next_thread_to_run s = mlfqs_pop_queue s i :=
      mlfqs_scan_top s 63 i hi (by simp [hq]) habove
    rw [htop]
    simp only [is_thread, Bool.and_eq_true, decide_eq_true_eq] at hthr
    simp [mlfqs_pop_queue, hq, list_pop_front, is_thread, hthr, hst]

/-- C2 at `example_mlfqs_kernel`: queue 40 is the highest non-empty queue, its
front thread 4 is returned and thread 5 stays behind. -/
theorem mlfqs_get_next_thread_to_run_witness :
    mlfqs_get_next_thread_to_run example_mlfqs_kernel
      = Result.ok (4, { example_mlfqs_kernel with
          mlfqs_queue := fun j => if j = 40 then [5] else example_mlfqs_kernel.mlfqs_queue j }) :=
  (mlfqs_get_next_thread_to_run_spec example_mlfqs_kernel).2 40 4 [5] (by decide) rfl
    (by
      intro j h1 h2
      have h40 : j ≠ 40 := by omega
      have h31 : j ≠ 31 := by omega
      simp [example_mlfqs_kernel, h40, h31])
    (by decide) (by decide)

theorem remove_list_max_mem (less : Nat → Nat → Bool) (l : List Nat) (m : Nat)
    (r : List Nat) (h : remove_list_max less l = some (m, r)) : m ∈ l := by
  induction l generalizing m r with
  | nil => simp [remove_list_max] at h
  | cons e rest ih =>
    simp only [remove_list_max] at h
    cases hrest : remove_list_max less rest with
    | none =>
      simp [hrest] at h
      simp [h.1]
    | some v =>
      obtain ⟨m1, r1⟩ := v
      simp only [hrest] at h
      by_cases hl : less e m1 = true
      · simp [hl] at h
        have := ih m1 r1 hrest
        simp [← h.1, this]
      · simp [hl] at h
        simp [h.1]

theorem remove_list_max_at (key : Nat → Int) (A : List Nat) (x : Nat) (B : List Nat)
    (hA : ∀ u ∈ A, key u < key x) (hB : ∀ u ∈ B, key u ≤ key x) :
    remove_list_max (fun a b => decide (key a < key b)) (A ++ x :: B) = some (x, A ++ B) := by
  induction A with
  | nil =>
    simp only [List.nil_append, remove_list_max]
    cases hrest : remove_list_max (fun a b => decide (key a < key b)) B with
    | none =>
      cases B with
      | nil => rfl
      | cons b B1 =>
        simp only [remove_list_max] at hrest
        cases h2 : remove_list_max (fun a b => decide (key a < key b)) B1 with
        | none => simp [h2] at hrest
        | some v =>
          simp only [h2] at hrest
          split at hrest <;> simp at hrest
    | some v =>
      obtain ⟨m, r⟩ := v
      have hm : key m ≤ key x := hB m (remove_list_max_mem _ B m r hrest)
      simp [not_lt.mpr hm]
  | cons a A1 ih =>
    have ih1 := ih (fun u hu => hA u (List.mem_cons_of_mem a hu))
    have ha : key a < key x := hA a (List.mem_cons_self a A1)
    simp [remove_list_max, ih1, ha]

theorem list_max_key (key : Nat → Int) (l : List Nat) (hl : l ≠ []) :
    ∃ m, m ∈ l ∧ list_max (fun a b => decide (key a < key b)) l = some m ∧
      ∀ u ∈ l, key u ≤ key m := by
  induction l with
  | nil => exact absurd rfl hl
  | cons e rest ih =>
    by_cases hrest : rest = []
    · subst hrest
      exact ⟨e, by simp, by simp [list_max], by simp⟩
    · obtain ⟨m, hm, hmax, hall⟩ := ih hrest
      by_cases hlt : key e < key m
      · refine ⟨m, List.mem_cons_of_mem e hm, by simp [list_max, hmax, hlt], ?_⟩
        intro u hu
        rcases List.mem_cons.mp hu with h | h
        · rw [h]; exact le_of_lt hlt
        · exact hall u h
      · refine ⟨e, List.mem_cons_self e rest, by simp [list_max, hmax, hlt], ?_⟩
        intro u hu
        rcases List.mem_cons.mp hu with h | h
        · rw [h]
        · exact le_trans (hall u h) (not_lt.mp hlt)

theorem thread_hash_compare_priority (s : Kernel) (hpol : s.thread_mlfqs = false) :
    thread_hash_compare s
      = fun a b => decide ((s.mem a).tmp_priority < (s.mem b).tmp_priority) := by
  funext a b
  simp [thread_hash_compare, hpol]

theorem thread_current_ok (s : Kernel) (hcur : is_thread s s.cur = true)
    (hrun : (s.mem s.cur).status = THREAD_RUNNING) : thread_current s = Result.ok s.cur := by
  simp [thread_current, running_thread, hcur, hrun]

theorem next_thread_to_run_at (s : Kernel) (A : List Nat) (t : Nat) (B : List Nat)
    (hpol : s.thread_mlfqs = false) (hsplit : s.ready_list = A ++ t :: B)
    (hA : ∀ u ∈ A, (s.mem u).tmp_priority < (s.mem t).tmp_priority)
    (hB : ∀ u ∈ B, (s.mem u).tmp_priority ≤ (s.mem t).tmp_priority)
    (ht : is_thread s t = true) (hst : (s.mem t).status = THREAD_READY) :
    next_thread_to_run s = Result.ok (t, { s with ready_list := A ++ B }) := by
  have hrm := remove_list_max_at (fun a => (s.mem a).tmp_priority) A t B hA hB
  rw [← hsplit] at hrm
  have hne : s.ready_list ≠ [] := by rw [hsplit]; simp
  simp only [is_thread, Bool.and_eq_true, decide_eq_true_eq] at ht
  simp [next_thread_to_run, hpol, list_empty, hne, thread_hash_compare_priority s hpol, hrm,
    is_thread, ht, hst]

theorem schedule_switch (s s1 : Kernel) (t : Nat)
    (hnext : next_thread_to_run s = Result.ok (t, s1))
    (hnr : (s1.mem s.cur).status ≠ THREAD_RUNNING)
    (hnd : (s1.mem s.cur).status ≠ THREAD_DYING)
    (ht : is_thread s1 t = true) (hne : s.cur ≠ t) :
    schedule s = Result.ok
      { ({ s1 with cur := t } : Kernel).set_status t THREAD_RUNNING with thread_ticks := 0 } := by
  have hmem : ((({ s1 with cur := t } : Kernel).set_status t THREAD_RUNNING).mem s.cur).status
      = (s1.mem s.cur).status := by
    simp [Kernel.set_status, Kernel.write, hne]
  have hstt : ((({ s1 with cur := t } : Kernel).set_status t THREAD_RUNNING).mem t).status
      = THREAD_RUNNING := by
    simp [Kernel.set_status, Kernel.write]
  simp only [schedule, hnext, running_thread, hnr, ht, hne]
  simp only [thread_schedule_tail, running_thread]
  simp [hmem, hstt, hnd, hne]

/-- A yield under the priority policy that switches to another thread: the
yielder goes to the back of the ready list in state READY, the earliest thread
of maximal effective priority `t` leaves the list and runs. -/
theorem thread_yield_priority_switch (s : Kernel) (A : List Nat) (t : Nat) (B : List Nat)
    (hpol : s.thread_mlfqs = false) (hctx : s.intr_context = false)
    (hcur : is_thread s s.cur = true) (hrun : (s.mem s.cur).status = THREAD_RUNNING)
    (hidle : s.cur ≠ s.idle_thread)
    (hsplit : s.ready_list ++ [s.cur] = A ++ t :: B)
    (hA : ∀ u ∈ A, (s.mem u).tmp_priority < (s.mem t).tmp_priority)
    (hB : ∀ u ∈ B, (s.mem u).tmp_priority ≤ (s.mem t).tmp_priority)
    (hne : t ≠ s.cur) (ht : is_thread s t = true) (hst : (s.mem t).status = THREAD_READY) :
    thread_yield s = Result.ok { s with
      ready_list := A ++ B, cur := t, thread_ticks := 0,
      mem := fun p =>
        if p = t then { s.mem t with status := THREAD_RUNNING }
        else if p = s.cur then { s.mem s.cur with status := THREAD_READY }
        else s.mem p } := by
  have hkey : ∀ p, (((({ s with ready_list := list_push_back s.ready_list s.cur } : Kernel).set_status
      s.cur THREAD_READY).mem p).tmp_priority) = (s.mem p).tmp_priority := by
    intro p
    simp only [Kernel.set_status, Kernel.write]
    split
    · next h => rw [h]
    · rfl
  have hnext := next_thread_to_run_at
    (({ s with ready_list := list_push_back s.ready_list s.cur } : Kernel).set_status
      s.cur THREAD_READY) A t B hpol hsplit
    (by intro u hu; rw [hkey, hkey]; exact hA u hu)
    (by intro u hu; rw [hkey, hkey]; exact hB u hu)
    (by simpa [is_thread, Kernel.set_status, Kernel.write, hne] using ht)
    (by simpa [Kernel.set_status, Kernel.write, hne] using hst)
  have hsched := schedule_switch _ _ t hnext
    (by simp [Kernel.set_status, Kernel.write])
    (by simp [Kernel.set_status, Kernel.write])
    (by simpa [is_thread, Kernel.set_status, Kernel.write, hne] using ht)
    (by simp [Kernel.set_status, Kernel.write, Ne.symm hne])
  have hunf : thread_yield s = schedule
      (({ s with ready_list := list_push_back s.ready_list s.cur } : Kernel).set_status
        s.cur THREAD_READY) := by
    unfold thread_yield
    rw [thread_current_ok s hcur hrun]
    dsimp only
    rw [if_neg (by simp [hctx]), if_pos hidle, if_pos (by simp [hpol])]
    rfl
  rw [hunf, hsched]
  simp [Kernel.set_status, Kernel.write, hne]

theorem thread_preempt_priority_yield (s : Kernel) (hpol : s.thread_mlfqs = false)
    (hcur : is_thread s s.cur = true) (hrun : (s.mem s.cur).status = THREAD_RUNNING)
    (hhigh : ∃ t ∈ s.ready_list, (s.mem t).tmp_priority > (s.mem s.cur).tmp_priority) :
    thread_preempt s = thread_yield s := by
  obtain ⟨t, htmem, htgt⟩ := hhigh
  have hne : s.ready_list ≠ [] := List.ne_nil_of_mem htmem
  obtain ⟨m, _, hmax, hall⟩ := list_max_key (fun a => (s.mem a).tmp_priority) s.ready_list hne
  have hm : (s.mem m).tmp_priority > (s.mem s.cur).tmp_priority :=
    lt_of_lt_of_le htgt (hall t htmem)
  unfold thread_preempt
  simp only [running_thread, hcur, hrun]
  rw [if_neg (by simp), if_neg (by simp), if_pos (by simp [hpol]),
    if_pos (by simp [list_empty, hne]), thread_hash_compare_priority s hpol, hmax]
  dsimp only
  rw [if_pos hm]

theorem thread_preempt_priority_stay (s : Kernel) (hpol : s.thread_mlfqs = false)
    (hcur : is_thread s s.cur = true) (hrun : (s.mem s.cur).status = THREAD_RUNNING)
    (hlow : ∀ t ∈ s.ready_list, (s.mem t).tmp_priority ≤ (s.mem s.cur).tmp_priority) :
    thread_preempt s = Result.ok s := by
  unfold thread_preempt
  simp only [running_thread, hcur, hrun]
  rw [if_neg (by simp), if_neg (by simp), if_pos (by simp [hpol])]
  by_cases hne : s.ready_list = []
  · rw [if_neg (by simp [list_empty, hne])]
  · obtain ⟨m, hmem, hmax, _⟩ := list_max_key (fun a => (s.mem a).tmp_priority) s.ready_list hne
    rw [if_pos (by simp [list_empty, hne]), thread_hash_compare_priority s hpol, hmax]
    dsimp only
    rw [if_neg (not_lt.mpr (hlow m hmem))]

theorem mlfqs_highest_empty (s : Kernel) (n : Nat) (h : ∀ i, i ≤ n → s.mlfqs_queue i = []) :
    mlfqs_get_highest_priority_from s n = 0 := by
  induction n with
  | zero => simp [mlfqs_get_highest_priority_from]
  | succ m ih =>
    have hm : s.mlfqs_queue (m + 1) = [] := h (m + 1) (le_refl _)
    simp only [mlfqs_get_highest_priority_from, hm, list_empty]
    exact ih (fun i hi => h i (Nat.le_succ_of_le hi))

theorem mlfqs_highest_top (s : Kernel) (n i : Nat) (hi : i ≤ n) (hq : s.mlfqs_queue i ≠ [])
    (habove : ∀ j, i < j → j ≤ n → s.mlfqs_queue j = []) :
    mlfqs_get_highest_priority_from s n = (i : Int) := by
  induction n with
  | zero =>
    have h0 : i = 0 := Nat.le_zero.mp hi
    subst h0
    simp [mlfqs_get_highest_priority_from]
  | succ m ih =>
    by_cases him : i = m + 1
    · subst him
      simp [mlfqs_get_highest_priority_from, list_empty, hq]
    · have hlt : i < m + 1 := lt_of_le_of_ne hi him
      have hm : s.mlfqs_queue (m + 1) = [] := habove (m + 1) hlt (le_refl _)
      simp only [mlfqs_get_highest_priority_from, hm, list_empty]
      exact ih (Nat.lt_succ_iff.mp hlt) (fun j h1 h2 => habove j h1 (Nat.le_succ_of_le h2))

/-- Among the queues `0..n` either all are empty or there is a non-empty one
of highest index. -/
theorem mlfqs_top_exists (q : Nat → List Nat) (n : Nat) :
    (∀ i, i ≤ n → q i = []) ∨
    ∃ i, i ≤ n ∧ q i ≠ [] ∧ ∀ j, i < j → j ≤ n → q j = [] := by
  induction n with
  | zero =>
    by_cases h : q 0 = []
    · left
      intro i hi
      rw [Nat.le_zero.mp hi]; exact h
    · right
      exact ⟨0, le_refl 0, h, fun j h1 h2 => absurd h2 (by omega)⟩
  | succ m ih =>
    by_cases h : q (m + 1) = []
    · rcases ih with hall | ⟨i, hi, hq, habove⟩
      · left
        intro i hi
        rcases Nat.lt_or_eq_of_le hi with h1 | h1
        · exact hall i (Nat.lt_succ_iff.mp h1)
        · rw [h1]; exact h
      · right
        refine ⟨i, Nat.le_succ_of_le hi, hq, ?_⟩
        intro j h1 h2
        rcases Nat.lt_or_eq_of_le h2 with h3 | h3
        · exact habove j h1 (Nat.lt_succ_iff.mp h3)
        · rw [h3]; exact h
    · right
      exact ⟨m + 1, le_refl _, h, fun j h1 h2 => absurd h2 (by omega)⟩

theorem thread_preempt_mlfqs_eq (s : Kernel) (hpol : s.thread_mlfqs = true)
    (hcur : is_thread s s.cur = true) (hrun : (s.mem s.cur).status = THREAD_RUNNING) :
    thread_preempt s
      = if mlfqs_get_highest_priority s > (s.mem s.cur).priority then thread_yield s
        else Result.ok s := by
  unfold thread_preempt
  simp only [running_thread, hcur, hrun]
  rw [if_neg (by simp), if_neg (by simp), if_neg (by simp [hpol])]

theorem mlfqs_next_at (s : Kernel) (i t : Nat) (rest : List Nat)
    (hpol : s.thread_mlfqs = true) (hi : i ≤ 63) (hq : s.mlfqs_queue i = t :: rest)
    (habove : ∀ j, i < j → j ≤ 63 → s.mlfqs_queue j = [])
    (ht : is_thread s t = true) (hst : (s.mem t).status = THREAD_READY) :
    next_thread_to_run s = Result.ok (t, { s with
      mlfqs_queue := fun j => if j = i then rest else s.mlfqs_queue j }) := by
  have htop : mlfqs_get_next_thread_to_run s = mlfqs_pop_queue s i :=
    mlfqs_scan_top s 63 i hi (by simp [hq]) habove
  have hunf : next_thread_to_run s = mlfqs_get_next_thread_to_run s := by
    unfold next_thread_to_run
    rw [if_neg (by simp [hpol])]
  rw [hunf, htop]
  simp only [is_thread, Bool.and_eq_true, decide_eq_true_eq] at ht
  simp [mlfqs_pop_queue, hq, list_pop_front, is_thread, ht, hst]

theorem mlfqs_insert_ok (s : Kernel) (t : Nat) (ht : is_thread s t = true)
    (hpri : PRI_MIN ≤ (s.mem t).priority ∧ (s.mem t).priority ≤ PRI_MAX) :
    mlfqs_insert s t = Result.ok { s with mlfqs_queue := (fun j =>
      if j = ((s.mem t).priority).toNat then list_push_back (s.mlfqs_queue j) t
      else s.mlfqs_queue j) } := by
  unfold mlfqs_insert
  rw [if_neg (by simp [ht]), if_neg (by simp [hpri.1, hpri.2])]

/-- A yield under MLFQS that switches to another thread: the yielder goes to
the back of the queue of its priority in state READY, the front `t` of the
highest non-empty queue `i` leaves that queue and runs. -/
theorem thread_yield_mlfqs_switch (s : Kernel) (i t : Nat) (rest : List Nat)
    (hpol : s.thread_mlfqs = true) (hctx : s.intr_context = false)
    (hcur : is_thread s s.cur = true) (hrun : (s.mem s.cur).status = THREAD_RUNNING)
    (hidle : s.cur ≠ s.idle_thread)
    (hpri : PRI_MIN ≤ (s.mem s.cur).priority ∧ (s.mem s.cur).priority ≤ PRI_MAX)
    (hi : i ≤ 63) (hq : s.mlfqs_queue i = t :: rest)
    (habove : ∀ j, i < j → j ≤ 63 → s.mlfqs_queue j = [])
    (hgt : (s.mem s.cur).priority < (i : Int))
    (hne : t ≠ s.cur) (ht : is_thread s t = true) (hst : (s.mem t).status = THREAD_READY) :
    thread_yield s = Result.ok { s with
      mlfqs_queue := fun j =>
        if j = i then rest
        else if j = ((s.mem s.cur).priority).toNat then s.mlfqs_queue j ++ [s.cur]
        else s.mlfqs_queue j,
      cur := t, thread_ticks := 0,
      mem := fun p =>
        if p = t then { s.mem t with status := THREAD_RUNNING }
        else if p = s.cur then { s.mem s.cur with status := THREAD_READY }
        else s.mem p } := by
  have hidx : ((s.mem s.cur).priority).toNat ≠ i := by
    have h0 : (0 : Int) ≤ (s.mem s.cur).priority := hpri.1
    omega
  have hnext := mlfqs_next_at
    (({ s with mlfqs_queue := (fun j =>
        if j = ((s.mem s.cur).priority).toNat then list_push_back (s.mlfqs_queue j) s.cur
        else s.mlfqs_queue j) } : Kernel).set_status s.cur THREAD_READY) i t rest hpol hi
    (by
      show (if i = ((s.mem s.cur).priority).toNat then _ else s.mlfqs_queue i) = t :: rest
      rw [if_neg (Ne.symm hidx)]; exact hq)
    (by
      intro j h1 h2
      show (if j = ((s.mem s.cur).priority).toNat then _ else s.mlfqs_queue j) = []
      have : j ≠ ((s.mem s.cur).priority).toNat := by omega
      rw [if_neg this]; exact habove j h1 h2)
    (by simpa [is_thread, Kernel.set_status, Kernel.write, hne] using ht)
    (by simpa [Kernel.set_status, Kernel.write, hne] using hst)
  have hsched := schedule_switch _ _ t hnext
    (by simp [Kernel.set_status, Kernel.write])
    (by simp [Kernel.set_status, Kernel.write])
    (by simpa [is_thread, Kernel.set_status, Kernel.write, hne] using ht)
    (by simp [Kernel.set_status, Kernel.write, Ne.symm hne])
  have hunf : thread_yield s = schedule
      (({ s with mlfqs_queue := (fun j =>
        if j = ((s.mem s.cur).priority).toNat then list_push_back (s.mlfqs_queue j) s.cur
        else s.mlfqs_queue j) } : Kernel).set_status s.cur THREAD_READY) := by
    unfold thread_yield
    rw [thread_current_ok s hcur hrun]
    dsimp only
    rw [if_neg (by simp [hctx]), if_pos hidle, if_neg (by simp [hpol]),
      mlfqs_insert_ok s s.cur hcur hpri]
    rfl
  rw [hunf, hsched]
  simp [Kernel.set_status, Kernel.write, list_push_back, hne]

/-- C4: in both policies `thread_preempt` performs `thread_yield` exactly when
a thread in the ready structure has a priority strictly greater than the
running thread's (`tmp_priority` under the priority policy, `priority` under
MLFQS); the yield then puts another thread on the CPU and leaves the former
running thread READY.  Otherwise (ready structure empty, or nothing in it
strictly higher) `thread_preempt` returns with the kernel state unchanged. -/
theorem thread_preempt_spec (s : Kernel) (hctx : s.intr_context = false)
    (hcur : is_thread s s.cur = true) (hrun : (s.mem s.cur).status = THREAD_RUNNING)
    (hidle : s.cur ≠ s.idle_thread)
    (hready : ∀ t ∈ s.ready_list, is_thread s t = true ∧ (s.mem t).status = THREAD_READY)
    (hqueue : ∀ i, i ≤ 63 → ∀ t ∈ s.mlfqs_queue i,
      is_thread s t = true ∧ (s.mem t).status = THREAD_READY ∧ (s.mem t).priority = (i : Int))
    (hpri : s.thread_mlfqs = true →
      PRI_MIN ≤ (s.mem s.cur).priority ∧ (s.mem s.cur).priority ≤ PRI_MAX) :
    (ready_outranks s →
      thread_preempt s = thread_yield s ∧
      ∃ s1, thread_yield s = Result.ok s1 ∧ s1.cur ≠ s.cur ∧
        (s1.mem s.cur).status = THREAD_READY ∧ (s1.mem s1.cur).status = THREAD_RUNNING) ∧
    (¬ ready_outranks s → thread_preempt s = Result.ok s) ∧
    (ready_outranks s ↔ ∃ s1, thread_preempt s = Result.ok s1 ∧ s1.cur ≠ s.cur) := by
  have hyes : ready_outranks s →
      thread_preempt s = thread_yield s ∧
      ∃ s1, thread_yield s = Result.ok s1 ∧ s1.cur ≠ s.cur ∧
        (s1.mem s.cur).status = THREAD_READY ∧ (s1.mem s1.cur).status = THREAD_RUNNING := by
    intro hout
    cases hpol : s.thread_mlfqs with
    | false =>
      simp only [ready_outranks, hpol] at hout
      have hout1 : ∃ t ∈ s.ready_list,
          (s.mem t).tmp_priority > (s.mem s.cur).tmp_priority := by simpa using hout
      refine ⟨thread_preempt_priority_yield s hpol hcur hrun hout1, ?_⟩
      obtain ⟨t0, ht0, hgt0⟩ := hout1
      obtain ⟨A, t, B, hsplit, _, hA, hB⟩ :=
        remove_list_max_key (fun a => (s.mem a).tmp_priority) (s.ready_list ++ [s.cur])
          (by simp)
      have ht0mem : t0 ∈ A ++ t :: B := by rw [← hsplit]; simp [ht0]
      have hge : (s.mem t0).tmp_priority ≤ (s.mem t).tmp_priority := by
        rcases List.mem_append.mp ht0mem with h | h
        · exact le_of_lt (hA t0 h)
        · rcases List.mem_cons.mp h with h | h
          · rw [h]
          · exact hB t0 h
      have hne : t ≠ s.cur := by
        intro h
        rw [h] at hge
        exact absurd hgt0 (not_lt.mpr hge)
      have htmem : t ∈ s.ready_list := by
        have : t ∈ s.ready_list ++ [s.cur] := by rw [hsplit]; simp
        rcases List.mem_append.mp this with h | h
        · exact h
        · exact absurd (List.mem_singleton.mp h) hne
      have hyield := thread_yield_priority_switch s A t B hpol hctx hcur hrun hidle hsplit
        hA hB hne (hready t htmem).1 (hready t htmem).2
      refine ⟨_, hyield, ?_, ?_, ?_⟩
      · exact hne
      · simp [Ne.symm hne]
      · simp
    | true =>
      simp only [ready_outranks, hpol] at hout
      have hout1 : ∃ i, i ≤ 63 ∧ ∃ t ∈ s.mlfqs_queue i,
          (s.mem t).priority > (s.mem s.cur).priority := by simpa using hout
      obtain ⟨i0, hi0, t0, ht0, hgt0⟩ := hout1
      have hp0 := (hqueue i0 hi0 t0 ht0).2.2
      rcases mlfqs_top_exists s.mlfqs_queue 63 with hall | ⟨i, hi, hq, habove⟩
      · rw [hall i0 hi0] at ht0
        exact absurd ht0 (List.not_mem_nil t0)
      · have hii0 : i0 ≤ i := by
          by_contra hcon
          have := habove i0 (Nat.lt_of_not_le hcon) hi0
          rw [this] at ht0
          exact absurd ht0 (List.not_mem_nil t0)
        have hgt : (s.mem s.cur).priority < (i : Int) := by
          have : (i0 : Int) ≤ (i : Int) := by exact_mod_cast hii0
          rw [hp0] at hgt0
          exact lt_of_lt_of_le hgt0 this
        obtain ⟨t, rest, hqeq⟩ := List.exists_cons_of_ne_nil hq
        have htq := hqueue i hi t (by rw [hqeq]; simp)
        have hne : t ≠ s.cur := by
          intro h
          rw [h] at htq
          rw [htq.2.2] at hgt
          exact absurd hgt (lt_irrefl _)
        have hhigh : mlfqs_get_highest_priority s = (i : Int) :=
          mlfqs_highest_top s 63 i hi hq habove
        have hyield := thread_yield_mlfqs_switch s i t rest hpol hctx hcur hrun hidle
          (hpri hpol) hi hqeq habove hgt hne htq.1 htq.2.1
        refine ⟨?_, _, hyield, ?_, ?_, ?_⟩
        · rw [thread_preempt_mlfqs_eq s hpol hcur hrun, hhigh, if_pos hgt]
        · exact hne
        · simp [Ne.symm hne]
        · simp
  have hno : ¬ ready_outranks s → thread_preempt s = Result.ok s := by
    intro hout
    cases hpol : s.thread_mlfqs with
    | false =>
      simp only [ready_outranks, hpol] at hout
      apply thread_preempt_priority_stay s hpol hcur hrun
      intro t ht
      by_contra hcon
      exact hout (by simpa using ⟨t, ht, not_le.mp hcon⟩)
    | true =>
      simp only [ready_outranks, hpol] at hout
      rw [thread_preempt_mlfqs_eq s hpol hcur hrun]
      apply if_neg
      rcases mlfqs_top_exists s.mlfqs_queue 63 with hall | ⟨i, hi, hq, habove⟩
      · have h0 : mlfqs_get_highest_priority s = 0 := mlfqs_highest_empty s 63 hall
        rw [h0]
        exact not_lt.mpr (hpri hpol).1
      · have hhigh : mlfqs_get_highest_priority s = (i : Int) :=
          mlfqs_highest_top s 63 i hi hq habove
        rw [hhigh]
        obtain ⟨t, rest, hqeq⟩ := List.exists_cons_of_ne_nil hq
        have htq := hqueue i hi t (by rw [hqeq]; simp)
        intro hcon
        apply hout
        have : ∃ i, i ≤ 63 ∧ ∃ t ∈ s.mlfqs_queue i,
            (s.mem t).priority > (s.mem s.cur).priority :=
          ⟨i, hi, t, by rw [hqeq]; simp, by rw [htq.2.2]; exact hcon⟩
        simpa using this
  refine ⟨hyes, hno, ?_⟩
  constructor
  · intro hout
    obtain ⟨heq, s1, hy, hne, _, _⟩ := hyes hout
    exact ⟨s1, by rw [heq, hy], hne⟩
  · rintro ⟨s1, hpre, hne⟩
    by_contra hout
    rw [hno hout] at hpre
    injection hpre with h
    exact hne (by rw [h])

/-- C4 at `example_priority_kernel`: threads at priority 40 wait while `main`
runs at 31, so `thread_preempt` yields and another thread gets the CPU. -/
theorem thread_preempt_spec_witness :
    ready_outranks example_priority_kernel ∧
    thread_preempt example_priority_kernel = thread_yield example_priority_kernel ∧
    ∃ s1, thread_yield example_priority_kernel = Result.ok s1 ∧
      s1.cur ≠ example_priority_kernel.cur ∧
      (s1.mem example_priority_kernel.cur).status = THREAD_READY ∧
      (s1.mem s1.cur).status = THREAD_RUNNING :=
  have hout : ready_outranks example_priority_kernel :=
    show ∃ t ∈ [3, 4, 5], (example_priority_kernel.mem t).tmp_priority
      > (example_priority_kernel.mem 1).tmp_priority from ⟨4, by decide, by decide⟩
  ⟨hout, (thread_preempt_spec example_priority_kernel rfl (by decide) (by decide) (by decide)
    (by decide) (fun _ _ t ht => absurd ht (List.not_mem_nil t))
    (fun h => absurd h (by decide))).1 hout⟩

theorem thread_preempt_example :
    thread_preempt example_priority_kernel = Result.ok { example_priority_kernel with
      ready_list := [3, 5, 1], cur := 4, thread_ticks := 0,
      mem := fun p =>
        if p = 4 then { example_priority_kernel.mem 4 with status := THREAD_RUNNING }
        else if p = 1 then { example_priority_kernel.mem 1 with status := THREAD_READY }
        else example_priority_kernel.mem p } := by
  rfl

theorem thread_preempt_mlfqs_example :
    thread_preempt example_mlfqs_kernel = Result.ok example_mlfqs_kernel ∧
    ∃ s1, thread_preempt { example_mlfqs_kernel with
        mem := fun p =>
          if p = 1 then example_thread 1 THREAD_RUNNING 31 else example_mlfqs_kernel.mem p }
      = Result.ok s1 ∧ s1.cur = 4 ∧ s1.mlfqs_queue 40 = [5] ∧ s1.mlfqs_queue 31 = [3, 1] ∧
        (s1.mem 1).status = THREAD_READY ∧ (s1.mem 4).status = THREAD_RUNNING :=
  ⟨rfl, _, rfl, rfl, rfl, rfl, rfl, rfl⟩

theorem thread_unblock_priority_ok (s : Kernel) (t : Nat) (hpol : s.thread_mlfqs = false)
    (ht : is_thread s t = true) (hst : (s.mem t).status = THREAD_BLOCKED) :
    thread_unblock s t = Result.ok
      (({ s with ready_list := s.ready_list ++ [t] } : Kernel).set_status t THREAD_READY) := by
  unfold thread_unblock
  rw [if_neg (by simp [ht]), if_neg (by simp [hst]), if_pos (by simp [hpol])]
  rfl

theorem thread_create_priority_unfold (s : Kernel) (page name function : Nat) (p : Int)
    (hpol : s.thread_mlfqs = false) (hfun : function ≠ 0) (hname : name ≠ 0)
    (hpage : page ≠ 0) (hp : PRI_MIN ≤ p ∧ p ≤ PRI_MAX) :
    ∃ s4 : Kernel,
      thread_create s page true name p function
        = Result.bind (thread_preempt s4) (fun s5 => Result.ok (s.next_tid, s5)) ∧
      s4.thread_mlfqs = false ∧ s4.intr_context = s.intr_context ∧ s4.cur = s.cur ∧
      s4.idle_thread = s.idle_thread ∧ s4.ready_list = s.ready_list ++ [page] ∧
      (s4.mem page).status = THREAD_READY ∧ (s4.mem page).tmp_priority = p ∧
      is_thread s4 page = true ∧ ∀ q, q ≠ page → s4.mem q = s.mem q := by
  have hinit : ∃ s1 : Kernel, init_thread s page name p = Result.ok s1 ∧
      s1.thread_mlfqs = false ∧ s1.intr_context = s.intr_context ∧ s1.cur = s.cur ∧
      s1.idle_thread = s.idle_thread ∧ s1.ready_list = s.ready_list ∧
      s1.next_tid = s.next_tid ∧
      (s1.mem page).status = THREAD_BLOCKED ∧ (s1.mem page).tmp_priority = p ∧
      (s1.mem page).magic = THREAD_MAGIC ∧ ∀ q, q ≠ page → s1.mem q = s.mem q := by
    unfold init_thread
    rw [if_neg hpage, if_neg (by simp [hp.1, hp.2]), if_neg hname]
    refine ⟨_, rfl, ?_, ?_, ?_, ?_, ?_, ?_, ?_, ?_, ?_, ?_⟩ <;>
      simp (disch := assumption) [Kernel.write, hpol, list_push_back]
    intro q hq
    simp [hq]
  obtain ⟨s1, h1, hp1, hc1, hcur1, hid1, hr1, hn1, hst1, htmp1, hmag1, hmem1⟩ := hinit
  have hunb := thread_unblock_priority_ok
    ((allocate_tid s1).2.write page { (allocate_tid s1).2.mem page with tid := (allocate_tid s1).1 })
    page hp1 (by simp [is_thread, allocate_tid, Kernel.write, hpage, hmag1])
    (by simp [allocate_tid, Kernel.write, hst1])
  have hfacts : ∃ s4 : Kernel, thread_unblock
      ((allocate_tid s1).2.write page
        { (allocate_tid s1).2.mem page with tid := (allocate_tid s1).1 }) page = Result.ok s4 ∧
      s4.thread_mlfqs = false ∧ s4.intr_context = s.intr_context ∧ s4.cur = s.cur ∧
      s4.idle_thread = s.idle_thread ∧ s4.ready_list = s.ready_list ++ [page] ∧
      (s4.mem page).status = THREAD_READY ∧ (s4.mem page).tmp_priority = p ∧
      is_thread s4 page = true ∧ ∀ q, q ≠ page → s4.mem q = s.mem q := by
    refine ⟨_, hunb, ?_, ?_, ?_, ?_, ?_, ?_, ?_, ?_, ?_⟩
    all_goals clear hunb
    all_goals simp [Kernel.set_status, Kernel.write, allocate_tid, is_thread, hpage, *]
    intro q hq
    simp [hq, hmem1 q hq]
  obtain ⟨s4, h4, hrest⟩ := hfacts
  refine ⟨s4, ?_, hrest⟩
  unfold thread_create
  simp only [hpol, Bool.false_eq_true, if_false]
  rw [if_neg hfun, if_neg hpage, h1]
  simp only [Bool.not_true, Bool.false_eq_true, if_false]
  rw [h4]
  simp only [allocate_tid, hn1]
  cases thread_preempt s4 <;> rfl

/-- C3: under the priority policy, when the running thread (effective priority
`c`, not the idle thread) creates a thread of priority `p` on a fresh page and
no thread on the ready list exceeds `c`, `thread_create` returns the new id
and: if `p > c` the new thread is running and the creator is READY at the
back of the ready list; if `p ≤ c` the creator is still running and the new
thread is READY at the back of the ready list. -/
theorem thread_create_priority_preempt (s : Kernel) (page name function : Nat) (p : Int)
    (hpol : s.thread_mlfqs = false) (hctx : s.intr_context = false)
    (hfun : function ≠ 0) (hname : name ≠ 0) (hpage : page ≠ 0)
    (hfresh : page ≠ s.cur ∧ page ∉ s.ready_list)
    (hp : PRI_MIN ≤ p ∧ p ≤ PRI_MAX)
    (hcur : is_thread s s.cur = true) (hrun : (s.mem s.cur).status = THREAD_RUNNING)
    (hidle : s.cur ≠ s.idle_thread)
    (hle : ∀ u ∈ s.ready_list, (s.mem u).tmp_priority ≤ (s.mem s.cur).tmp_priority) :
    ∃ s1, thread_create s page true name p function = Result.ok (s.next_tid, s1) ∧
      (p > (s.mem s.cur).tmp_priority →
        s1.cur = page ∧ (s1.mem page).status = THREAD_RUNNING ∧
        (s1.mem s.cur).status = THREAD_READY ∧ s1.ready_list = s.ready_list ++ [s.cur]) ∧
      (p ≤ (s.mem s.cur).tmp_priority →
        s1.cur = s.cur ∧ (s1.mem s.cur).status = THREAD_RUNNING ∧
        (s1.mem page).status = THREAD_READY ∧ s1.ready_list = s.ready_list ++ [page]) := by
  obtain ⟨s4, hcreate, hpol4, hctx4, hcur4, hidle4, hready4, hst4, htmp4, hthr4, hmem4⟩ :=
    thread_create_priority_unfold s page name function p hpol hfun hname hpage hp
  have hcurmem : s4.mem s.cur = s.mem s.cur := hmem4 s.cur (Ne.symm hfresh.1)
  have hcurthr : is_thread s4 s4.cur = true := by
    rw [hcur4]
    simpa [is_thread, hcurmem] using hcur
  have hcurrun : (s4.mem s4.cur).status = THREAD_RUNNING := by
    rw [hcur4, hcurmem]; exact hrun
  have hold : ∀ u ∈ s.ready_list, s4.mem u = s.mem u := by
    intro u hu
    apply hmem4
    intro h
    rw [h] at hu
    exact hfresh.2 hu
  by_cases hgt : p > (s.mem s.cur).tmp_priority
  · have hpre : thread_preempt s4 = thread_yield s4 := by
      apply thread_preempt_priority_yield s4 hpol4 hcurthr hcurrun
      refine ⟨page, by rw [hready4]; simp, ?_⟩
      rw [htmp4, hcur4, hcurmem]
      exact hgt
    have hyield := thread_yield_priority_switch s4 s.ready_list page [s.cur] hpol4
      (by rw [hctx4]; exact hctx) hcurthr hcurrun (by rw [hcur4, hidle4]; exact hidle)
      (by rw [hready4, hcur4]; simp)
      (by
        intro u hu
        rw [hold u hu, htmp4]
        exact lt_of_le_of_lt (hle u hu) hgt)
      (by
        intro u hu
        rw [List.mem_singleton.mp hu, hcurmem, htmp4]
        exact le_of_lt hgt)
      (by rw [hcur4]; exact hfresh.1) hthr4 hst4
    refine ⟨_, by rw [hcreate, hpre, hyield]; rfl, ?_, ?_⟩
    · intro _
      refine ⟨rfl, by simp, ?_, rfl⟩
      simp [hcur4, Ne.symm hfresh.1]
    · intro hcon
      exact absurd hgt (not_lt.mpr hcon)
  · have hpre : thread_preempt s4 = Result.ok s4 := by
      apply thread_preempt_priority_stay s4 hpol4 hcurthr hcurrun
      intro t ht
      rw [hready4] at ht
      rw [hcur4, hcurmem]
      rcases List.mem_append.mp ht with h | h
      · rw [hold t h]; exact hle t h
      · rw [List.mem_singleton.mp h, htmp4]; exact not_lt.mp hgt
    refine ⟨s4, by rw [hcreate, hpre]; rfl, ?_, ?_⟩
    · intro hcon
      exact absurd hcon hgt
    · intro _
      exact ⟨hcur4, by rw [hcurmem]; exact hrun, hst4, hready4⟩

/-- C3 at `example_main_kernel`: `main` (priority 31) creates a thread of
priority 40 on page 6; the new thread runs and `main` is READY behind
thread 3. -/
theorem thread_create_priority_preempt_witness :
    ∃ s1, thread_create example_main_kernel 6 true 1 40 1 = Result.ok (6, s1) ∧
      s1.cur = 6 ∧ (s1.mem 6).status = THREAD_RUNNING ∧
      (s1.mem 1).status = THREAD_READY ∧ s1.ready_list = [3, 1] :=
  match thread_create_priority_preempt example_main_kernel 6 1 1 40 rfl rfl (by decide)
    (by decide) (by decide) (by decide) (by decide) (by decide) (by decide) (by decide)
    (by decide) with
  | ⟨s1, h, hgt, _⟩ => ⟨s1, h, hgt (by decide)⟩

theorem thread_unblock_mlfqs_ok (s : Kernel) (t : Nat) (hpol : s.thread_mlfqs = true)
    (ht : is_thread s t = true) (hst : (s.mem t).status = THREAD_BLOCKED)
    (hpri : PRI_MIN ≤ (s.mem t).priority ∧ (s.mem t).priority ≤ PRI_MAX) :
    thread_unblock s t = Result.ok
      (({ s with mlfqs_queue := (fun j =>
          if j = ((s.mem t).priority).toNat then s.mlfqs_queue j ++ [t]
          else s.mlfqs_queue j) } : Kernel).set_status t THREAD_READY) := by
  unfold thread_unblock
  rw [if_neg (by simp [ht]), if_neg (by simp [hst]), if_neg (by simp [hpol]),
    mlfqs_insert_ok s t ht hpri]
  rfl

theorem thread_unblock_facts (s : Kernel) (t : Nat) (ht : is_thread s t = true)
    (hst : (s.mem t).status = THREAD_BLOCKED)
    (hpri : s.thread_mlfqs = true →
      PRI_MIN ≤ (s.mem t).priority ∧ (s.mem t).priority ≤ PRI_MAX) :
    ∃ s1, thread_unblock s t = Result.ok s1 ∧
      s1.mem t = { s.mem t with status := THREAD_READY } ∧
      (∀ u, u ≠ t → s1.mem u = s.mem u) ∧
      s1.cur = s.cur ∧
      s1.sleep_list = s.sleep_list ∧ s1.all_list = s.all_list ∧
      s1.lock_waiters = s.lock_waiters ∧ s1.thread_mlfqs = s.thread_mlfqs ∧
      s1.idle_thread = s.idle_thread ∧
      (s.thread_mlfqs = false →
        s1.ready_list = s.ready_list ++ [t] ∧ s1.mlfqs_queue = s.mlfqs_queue) ∧
      (s.thread_mlfqs = true →
        s1.ready_list = s.ready_list ∧
        s1.mlfqs_queue ((s.mem t).priority).toNat
          = s.mlfqs_queue ((s.mem t).priority).toNat ++ [t] ∧
        ∀ j, j ≠ ((s.mem t).priority).toNat → s1.mlfqs_queue j = s.mlfqs_queue j) := by
  cases hpol : s.thread_mlfqs with
  | false =>
    refine ⟨_, thread_unblock_priority_ok s t hpol ht hst, ?_, ?_, rfl, rfl, rfl, rfl, hpol,
      rfl, ?_, ?_⟩
    · simp [Kernel.set_status, Kernel.write]
    · intro u hu
      simp [Kernel.set_status, Kernel.write, hu]
    · intro _
      exact ⟨rfl, rfl⟩
    · intro h
      exact absurd h (by simp)
  | true =>
    refine ⟨_, thread_unblock_mlfqs_ok s t hpol ht hst (hpri hpol), ?_, ?_, rfl, rfl, rfl,
      rfl, hpol, rfl, ?_, ?_⟩
    · simp [Kernel.set_status, Kernel.write]
    · intro u hu
      simp [Kernel.set_status, Kernel.write, hu]
    · intro h
      exact absurd h (by simp)
    · intro _
      refine ⟨rfl, ?_, ?_⟩
      · simp [Kernel.set_status, Kernel.write]
      · intro j hj
        simp [Kernel.set_status, Kernel.write, hj]

/-- C5: `thread_unblock t` on a valid BLOCKED thread whose scheduling node is
linked in no list (under MLFQS with its priority in `PRI_MIN..PRI_MAX`)
returns with `t` READY and appended at the back of the ready list (priority
policy) or of the queue indexed by its priority (MLFQS), where its node is
then linked exactly once; the running thread, every other thread block, every
other queue, the sleep queue and the waiter lists stay as they were, whatever
the priorities.  On a thread whose status is not BLOCKED the call stops at its
assertion with the kernel state unchanged. -/
theorem thread_unblock_spec (s : Kernel) (t : Nat) :
    (is_thread s t = true → (s.mem t).status = THREAD_BLOCKED → elem_unlinked s t →
      (s.thread_mlfqs = true →
        PRI_MIN ≤ (s.mem t).priority ∧ (s.mem t).priority ≤ PRI_MAX) →
      ∃ s1, thread_unblock s t = Result.ok s1 ∧
        s1.mem t = { s.mem t with status := THREAD_READY } ∧
        (∀ u, u ≠ t → s1.mem u = s.mem u) ∧
        s1.cur = s.cur ∧
        s1.sleep_list = s.sleep_list ∧ s1.all_list = s.all_list ∧
        s1.lock_waiters = s.lock_waiters ∧ s1.thread_mlfqs = s.thread_mlfqs ∧
        s1.idle_thread = s.idle_thread ∧
        t ∉ s1.sleep_list ∧ (∀ l, t ∉ s1.lock_waiters l) ∧
        (s.thread_mlfqs = false →
          s1.ready_list = s.ready_list ++ [t] ∧ s1.mlfqs_queue = s.mlfqs_queue ∧
          s1.ready_list.count t = 1 ∧ ∀ j, t ∉ s1.mlfqs_queue j) ∧
        (s.thread_mlfqs = true →
          s1.ready_list = s.ready_list ∧
          s1.mlfqs_queue ((s.mem t).priority).toNat
            = s.mlfqs_queue ((s.mem t).priority).toNat ++ [t] ∧
          (∀ j, j ≠ ((s.mem t).priority).toNat → s1.mlfqs_queue j = s.mlfqs_queue j) ∧
          t ∉ s1.ready_list ∧ (s1.mlfqs_queue ((s.mem t).priority).toNat).count t = 1 ∧
          ∀ j, j ≠ ((s.mem t).priority).toNat → t ∉ s1.mlfqs_queue j)) ∧
    ((s.mem t).status ≠ THREAD_BLOCKED → thread_unblock s t = Result.panic s) := by
  constructor
  · intro ht hst hun hpri
    obtain ⟨hrl, hq, hsl, hlw⟩ := hun
    obtain ⟨s1, h, hmem, hoth, hcur, hsleep, hall, hwait, hpol, hidle, hp, hm⟩ :=
      thread_unblock_facts s t ht hst hpri
    refine ⟨s1, h, hmem, hoth, hcur, hsleep, hall, hwait, hpol, hidle, ?_, ?_, ?_, ?_⟩
    · rw [hsleep]; exact hsl
    · intro l; rw [hwait]; exact hlw l
    · intro hf
      obtain ⟨h1, h2⟩ := hp hf
      refine ⟨h1, h2, ?_, ?_⟩
      · rw [h1, List.count_append, List.count_eq_zero_of_not_mem hrl]
        simp
      · intro j; rw [h2]; exact hq j
    · intro ht1
      obtain ⟨h1, h2, h3⟩ := hm ht1
      refine ⟨h1, h2, h3, ?_, ?_, ?_⟩
      · rw [h1]; exact hrl
      · rw [h2, List.count_append, List.count_eq_zero_of_not_mem (hq _)]
        simp
      · intro j hj; rw [h3 j hj]; exact hq j
  · intro hst
    unfold thread_unblock
    by_cases ht : is_thread s t = true
    · rw [if_neg (by simp [ht]), if_pos hst]
    · rw [if_pos (by simpa using ht)]

/-- C5 at `example_wake_kernel`: thread 6 (priority 50, above the running
thread's 31), unlinked from the sleep queue, becomes READY at the back of the
ready list; thread 1 keeps the CPU and the sleep queue keeps the threads 7
and 8. -/
theorem thread_unblock_spec_witness :
    elem_unlinked example_wake_kernel 6 ∧
    ∃ s1, thread_unblock example_wake_kernel 6 = Result.ok s1 ∧
      (s1.mem 6).status = THREAD_READY ∧ s1.cur = 1 ∧ s1.ready_list = [3, 4, 5, 6] ∧
      s1.sleep_list = [7, 8] ∧ (s1.mem 1).status = THREAD_RUNNING :=
  have hun : elem_unlinked example_wake_kernel 6 :=
    ⟨by decide, fun _ => List.not_mem_nil 6, by decide, fun _ => List.not_mem_nil 6⟩
  ⟨hun,
    match (thread_unblock_spec example_wake_kernel 6).1 (by decide) (by decide) hun
      (fun h => absurd h (by decide)) with
    | ⟨s1, h, hmem, hother, hcur, hsleep, _, _, _, _, _, _, hprio, _⟩ =>
      ⟨s1, h, by rw [hmem], hcur, (hprio rfl).1, hsleep,
        by rw [hother 1 (by decide)]; rfl⟩⟩

theorem mem_switch_fields (m : Nat → thread) (a c u : Nat) (x y : thread_status) :
    ((if u = a then { m a with status := x }
      else if u = c then { m c with status := y } else m u : thread).magic = (m u).magic) ∧
    ((if u = a then { m a with status := x }
      else if u = c then { m c with status := y } else m u : thread).tmp_priority
        = (m u).tmp_priority) ∧
    ((if u = a then { m a with status := x }
      else if u = c then { m c with status := y } else m u : thread).priority
        = (m u).priority) := by
  by_cases h1 : u = a
  · subst h1
    simp
  · by_cases h2 : u = c
    · subst h2
      simp [h1]
    · simp [h1, h2]

theorem thread_yield_round_robin_step (s : Kernel) (h : round_robin_ready s) :
    ∃ a rest s1, s.ready_list = a :: rest ∧ thread_yield s = Result.ok s1 ∧
      s1.cur = a ∧ s1.ready_list = rest ++ [s.cur] ∧
      (s1.mem s.cur).status = THREAD_READY ∧ (s1.mem a).status = THREAD_RUNNING ∧
      round_robin_ready s1 := by
  obtain ⟨hpol, hctx, hne, hnodup, hall, hrun, hrdy⟩ := h
  obtain ⟨a, rest, hlist⟩ := List.exists_cons_of_ne_nil hne
  have hamem : a ∈ s.ready_list := by rw [hlist]; simp
  have hcur := hall s.cur (List.mem_cons_self _ _)
  have ha := hall a (List.mem_cons_of_mem _ hamem)
  have hane : a ≠ s.cur := by
    intro h
    have := (List.nodup_cons.mp hnodup).1
    rw [← h] at this
    exact this hamem
  have hyield := thread_yield_priority_switch s [] a (rest ++ [s.cur]) hpol hctx hcur.1 hrun
    hcur.2.1 (by rw [hlist]; simp) (by simp)
    (by
      intro u hu
      have hu1 : u ∈ s.cur :: s.ready_list := by
        rw [hlist]
        rcases List.mem_append.mp hu with h1 | h1
        · exact List.mem_cons_of_mem _ (List.mem_cons_of_mem _ h1)
        · rw [List.mem_singleton.mp h1]; exact List.mem_cons_self _ _
      rw [(hall u hu1).2.2, ha.2.2])
    hane ha.1 (hrdy a hamem)
  refine ⟨a, rest, _, hlist, hyield, rfl, by simp, by simp [Ne.symm hane], by simp, ?_⟩
  have hnodup1 : (a :: (rest ++ [s.cur])).Nodup := by
    have hp : (a :: (rest ++ [s.cur])).Perm (s.cur :: s.ready_list) := by
      rw [hlist]
      have : (a :: (rest ++ [s.cur])) = (a :: rest) ++ [s.cur] := by simp
      rw [this]
      exact List.perm_append_singleton s.cur (a :: rest)
    exact hp.nodup_iff.mpr hnodup
  have hmem1 : ∀ t, t ∈ a :: (rest ++ [s.cur]) → t ∈ s.cur :: s.ready_list := by
    intro t ht
    rw [hlist]
    rcases List.mem_cons.mp ht with h1 | h1
    · rw [h1]; simp
    · rcases List.mem_append.mp h1 with h2 | h2
      · simp [h2]
      · simp [List.mem_singleton.mp h2]
  refine ⟨hpol, hctx, by simp, by simpa using hnodup1, ?_, by simp, ?_⟩
  · intro t ht
    have ht1 : t ∈ s.cur :: s.ready_list := hmem1 t (by simpa using ht)
    have hfact := hall t ht1
    have hthr := hfact.1
    simp only [is_thread, Bool.and_eq_true, decide_eq_true_eq] at hthr
    refine ⟨?_, hfact.2.1, ?_⟩
    · simp only [is_thread, Bool.and_eq_true, decide_eq_true_eq]
      exact ⟨hthr.1, ((mem_switch_fields s.mem a s.cur t _ _).1).trans hthr.2⟩
    · exact ((mem_switch_fields s.mem a s.cur t _ _).2.1).trans
        ((hfact.2.2.trans ha.2.2.symm).trans (mem_switch_fields s.mem a s.cur a _ _).2.1.symm)
  · intro t ht
    have ht' : t ∈ rest ++ [s.cur] := ht
    have htne : t ≠ a := by
      intro h1
      rw [h1] at ht'
      exact (List.nodup_cons.mp hnodup1).1 ht'
    rcases List.mem_append.mp ht' with h2 | h2
    · have htr : t ∈ s.ready_list := by rw [hlist]; exact List.mem_cons_of_mem _ h2
      have htc : t ≠ s.cur := by
        intro h3
        rw [h3] at htr
        exact (List.nodup_cons.mp hnodup).1 htr
      simp [htne, htc, hrdy t htr]
    · simp [List.mem_singleton.mp h2, Ne.symm hane]

theorem thread_yield_times_rotate (k : Nat) :
    ∀ s : Kernel, round_robin_ready s →
      ∃ sk, thread_yield_times k s = Result.ok sk ∧
        sk.cur :: sk.ready_list = (s.cur :: s.ready_list).rotate k ∧
        round_robin_ready sk := by
  induction k with
  | zero =>
    intro s h
    exact ⟨s, rfl, by simp, h⟩
  | succ n ih =>
    intro s h
    obtain ⟨a, rest, s1, hlist, hyield, hcur1, hready1, _, _, hinv1⟩ :=
      thread_yield_round_robin_step s h
    obtain ⟨sk, hk, hrot, hinvk⟩ := ih s1 hinv1
    refine ⟨sk, ?_, ?_, hinvk⟩
    · simp only [thread_yield_times, hyield, Result.bind_ok]
      exact hk
    · rw [hrot, hcur1, hready1, hlist, List.rotate_cons_succ]
      simp

/-- C6: in the situation `round_robin_ready` (priority policy, running thread
and a non-empty ready list all of one effective priority) `thread_yield` makes
the front of the ready list the running thread and puts the yielder at the
back in state READY.  After `k` yields the running thread followed by the
ready list is the original sequence rotated by `k`; so over any `n`
consecutive yields (`n` the number of threads) the running threads are, in
order, the entries of a rotation of the original sequence, a duplicate-free
permutation of the threads: each runs exactly once. -/
theorem thread_yield_round_robin (s : Kernel) (h : round_robin_ready s) :
    (∃ a rest s1, s.ready_list = a :: rest ∧ thread_yield s = Result.ok s1 ∧
      s1.cur = a ∧ (s1.mem a).status = THREAD_RUNNING ∧
      s1.ready_list = rest ++ [s.cur] ∧ (s1.mem s.cur).status = THREAD_READY) ∧
    (∀ k, ∃ sk, thread_yield_times k s = Result.ok sk ∧
      sk.cur :: sk.ready_list = (s.cur :: s.ready_list).rotate k ∧
      (sk.mem sk.cur).status = THREAD_RUNNING ∧
      ∀ t ∈ sk.ready_list, (sk.mem t).status = THREAD_READY) ∧
    (∀ k j, j < (s.cur :: s.ready_list).length →
      ∃ sj, thread_yield_times (k + j) s = Result.ok sj ∧
        ((s.cur :: s.ready_list).rotate k)[j]? = some sj.cur) ∧
    (∀ k, ((s.cur :: s.ready_list).rotate k).Perm (s.cur :: s.ready_list) ∧
      ((s.cur :: s.ready_list).rotate k).Nodup) := by
  refine ⟨?_, ?_, ?_, ?_⟩
  · obtain ⟨a, rest, s1, hlist, hyield, hcur1, hready1, hst, hsta, _⟩ :=
      thread_yield_round_robin_step s h
    exact ⟨a, rest, s1, hlist, hyield, hcur1, hsta, hready1, hst⟩
  · intro k
    obtain ⟨sk, hk, hrot, hinv⟩ := thread_yield_times_rotate k s h
    exact ⟨sk, hk, hrot, hinv.2.2.2.2.2.1, hinv.2.2.2.2.2.2⟩
  · intro k j hj
    obtain ⟨sj, hres, hrot, _⟩ := thread_yield_times_rotate (k + j) s h
    refine ⟨sj, hres, ?_⟩
    have hlen : j < ((s.cur :: s.ready_list).rotate k).length := by
      rw [List.length_rotate]; exact hj
    rw [← List.head?_rotate hlen, List.rotate_rotate, ← hrot]
    rfl
  · intro k
    exact ⟨List.rotate_perm _ k, List.nodup_rotate.mpr h.2.2.2.1⟩

/-- C6 at `example_abc_kernel`: A (3) runs, B (4) and C (5) are ready, all at
priority 31; the threads running after 0, 1, ..., 6 yields are A B C A B C A. -/
theorem thread_yield_round_robin_witness :
    round_robin_ready example_abc_kernel ∧
    ∀ k, ∃ sk, thread_yield_times k example_abc_kernel = Result.ok sk ∧
      sk.cur :: sk.ready_list = [3, 4, 5].rotate k ∧
      (sk.mem sk.cur).status = THREAD_RUNNING ∧
      ∀ t ∈ sk.ready_list, (sk.mem t).status = THREAD_READY :=
  have h : round_robin_ready example_abc_kernel :=
    ⟨rfl, rfl, by decide, by decide, by decide, by decide, by decide⟩
  ⟨h, (thread_yield_round_robin example_abc_kernel h).2.1⟩

theorem thread_yield_times_example :
    (match thread_yield_times 0 example_abc_kernel with
      | Result.ok k => k.cur | Result.panic _ => 0) = 3 ∧
    (match thread_yield_times 1 example_abc_kernel with
      | Result.ok k => k.cur | Result.panic _ => 0) = 4 ∧
    (match thread_yield_times 2 example_abc_kernel with
      | Result.ok k => k.cur | Result.panic _ => 0) = 5 ∧
    (match thread_yield_times 3 example_abc_kernel with
      | Result.ok k => k.cur | Result.panic _ => 0) = 3 ∧
    (match thread_yield_times 4 example_abc_kernel with
      | Result.ok k => k.cur | Result.panic _ => 0) = 4 := by
  decide

theorem thread_check_sleeping_from_spec (now : Int) (rest : List Nat) :
    ∀ (s : Kernel) (kept : List Nat), s.sleep_list = kept ++ rest → (kept ++ rest).Nodup →
      (∀ t ∈ rest, is_thread s t = true ∧ (s.mem t).status = THREAD_BLOCKED ∧
        (s.thread_mlfqs = true →
          PRI_MIN ≤ (s.mem t).priority ∧ (s.mem t).priority ≤ PRI_MAX)) →
      ∃ s1, thread_check_sleeping_from now rest s = Result.ok s1 ∧
        s1.sleep_list = kept ++ rest.filter (fun t => decide (now < (s.mem t).wake_time)) ∧
        (∀ u, s1.mem u =
          if u ∈ rest ∧ (s.mem u).wake_time ≤ now then { s.mem u with status := THREAD_READY }
          else s.mem u) ∧
        s1.cur = s.cur ∧ s1.thread_mlfqs = s.thread_mlfqs ∧ s1.all_list = s.all_list ∧
        (s.thread_mlfqs = false →
          s1.ready_list
            = s.ready_list ++ rest.filter (fun t => decide ((s.mem t).wake_time ≤ now)) ∧
          s1.mlfqs_queue = s.mlfqs_queue) ∧
        (s.thread_mlfqs = true →
          s1.ready_list = s.ready_list ∧
          ∀ i, s1.mlfqs_queue i = s.mlfqs_queue i ++
            (rest.filter (fun t => decide ((s.mem t).wake_time ≤ now))).filter
              (fun t => decide (((s.mem t).priority).toNat = i))) := by
  induction rest with
  | nil =>
    intro s kept hsl _ _
    refine ⟨s, rfl, by simpa using hsl, by simp, rfl, rfl, rfl, ?_, ?_⟩
    · intro _; simp
    · intro _; simp
  | cons t rest ih =>
    intro s kept hsl hnodup hvalid
    have htfacts := hvalid t (List.mem_cons_self _ _)
    have htkept : t ∉ kept := by
      intro h
      have := List.nodup_append.mp hnodup
      exact this.2.2 h (List.mem_cons_self _ _)
    have htrest : t ∉ rest := by
      have := (List.nodup_append.mp hnodup).2.1
      exact (List.nodup_cons.mp this).1
    by_cases hdue : (s.mem t).wake_time ≤ now
    · -- the thread is due: unlink, unblock, go on
      have herase : list_remove s.sleep_list t = kept ++ rest := by
        rw [hsl, list_remove, List.erase_append_right _ htkept]
        simp
      obtain ⟨s1, hunb, hmemt, hmemo, hcur1, hsl1, hall1, _, hpol1, _, hprio1, hmlfqs1⟩ :=
        thread_unblock_facts { s with sleep_list := list_remove s.sleep_list t } t
          htfacts.1 htfacts.2.1 htfacts.2.2
      have hfield : ∀ u, (s1.mem u).wake_time = (s.mem u).wake_time ∧
          (s1.mem u).priority = (s.mem u).priority ∧ (s1.mem u).magic = (s.mem u).magic := by
        intro u
        by_cases hu : u = t
        · subst hu
          rw [hmemt]
          exact ⟨rfl, rfl, rfl⟩
        · rw [hmemo u hu]
          exact ⟨rfl, rfl, rfl⟩
      have hnodup1 : (kept ++ rest).Nodup := by
        have h1 := List.nodup_append.mp hnodup
        refine List.nodup_append.mpr ⟨h1.1, (List.nodup_cons.mp h1.2.1).2, ?_⟩
        intro a ha hb
        exact h1.2.2 ha (List.mem_cons_of_mem _ hb)
      obtain ⟨s2, hloop, hsl2, hmem2, hcur2, hpol2, hall2, hprio2, hmlfqs2⟩ :=
        ih s1 kept (by rw [hsl1]; exact herase) hnodup1
          (by
            intro u hu
            have hut : u ≠ t := by
              intro h; rw [h] at hu; exact htrest hu
            have hv := hvalid u (List.mem_cons_of_mem _ hu)
            rw [hpol1, hmemo u hut]
            refine ⟨?_, hv.2.1, hv.2.2⟩
            have h1 := hv.1
            simp only [is_thread, Bool.and_eq_true, decide_eq_true_eq] at h1 ⊢
            rw [hmemo u hut]
            exact h1)
      have hwk : (fun u => decide (now < (s1.mem u).wake_time))
          = (fun u => decide (now < (s.mem u).wake_time)) := by
        funext u; rw [(hfield u).1]
      have hdu : (fun u => decide ((s1.mem u).wake_time ≤ now))
          = (fun u => decide ((s.mem u).wake_time ≤ now)) := by
        funext u; rw [(hfield u).1]
      have hpr : ∀ i, (fun u => decide (((s1.mem u).priority).toNat = i))
          = (fun u => decide (((s.mem u).priority).toNat = i)) := by
        intro i; funext u; rw [(hfield u).2.1]
      refine ⟨s2, ?_, ?_, ?_, ?_, ?_, ?_, ?_, ?_⟩
      · simp only [thread_check_sleeping_from, if_pos hdue, hunb, Result.bind_ok]
        exact hloop
      · rw [hsl2, hwk]
        simp [List.filter_cons, not_lt.mpr hdue]
      · intro u
        rw [hmem2 u, (hfield u).1]
        by_cases hu : u = t
        · subst hu
          simp [htrest, hdue, hmemt]
        · simp [hu, hmemo u hu]
      · rw [hcur2, hcur1]
      · rw [hpol2, hpol1]
      · rw [hall2, hall1]
      · intro hpol
        have h2 := hprio2 (by rw [hpol1]; exact hpol)
        have h1 := hprio1 hpol
        refine ⟨?_, by rw [h2.2, h1.2]⟩
        rw [h2.1, h1.1, hdu]
        simp [List.filter_cons, hdue]
      · intro hpol
        have h2 := hmlfqs2 (by rw [hpol1]; exact hpol)
        have h1 := hmlfqs1 hpol
        refine ⟨by rw [h2.1, h1.1], ?_⟩
        intro i
        rw [h2.2 i, hdu, hpr i]
        by_cases hi : i = ((s.mem t).priority).toNat
        · subst hi
          rw [h1.2.1]
          simp [List.filter_cons, hdue]
        · rw [h1.2.2 i hi]
          simp [List.filter_cons, hdue, Ne.symm hi]
    · -- not yet due: the thread stays where it is
      obtain ⟨s2, hloop, hsl2, hmem2, hcur2, hpol2, hall2, hprio2, hmlfqs2⟩ :=
        ih s (kept ++ [t]) (by rw [hsl]; simp) (by simpa using hnodup)
          (fun u hu => hvalid u (List.mem_cons_of_mem _ hu))
      refine ⟨s2, ?_, ?_, ?_, hcur2, hpol2, hall2, ?_, ?_⟩
      · simp only [thread_check_sleeping_from, if_neg hdue]
        exact hloop
      · rw [hsl2]
        simp [List.filter_cons, not_le.mp hdue]
      · intro u
        rw [hmem2 u]
        by_cases hu : u = t
        · subst hu
          simp [htrest, hdue]
        · simp [hu]
      · intro hpol
        have h2 := hprio2 hpol
        refine ⟨?_, h2.2⟩
        rw [h2.1]
        simp [List.filter_cons, hdue]
      · intro hpol
        have h2 := hmlfqs2 hpol
        refine ⟨h2.1, ?_⟩
        intro i
        rw [h2.2 i]
        simp [List.filter_cons, hdue]

/-- When the ready structure holds only valid READY threads and the idle
thread is valid, `next_thread_to_run` returns a valid thread, the idle thread
or a READY one, and touches nothing but the ready structure. -/
theorem next_thread_to_run_total (s : Kernel)
    (hidle : is_thread s s.idle_thread = true)
    (hready : ∀ t ∈ s.ready_list, is_thread s t = true ∧ (s.mem t).status = THREAD_READY)
    (hqueue : ∀ i, i ≤ 63 → ∀ t ∈ s.mlfqs_queue i,
      is_thread s t = true ∧ (s.mem t).status = THREAD_READY) :
    ∃ next s1, next_thread_to_run s = Result.ok (next, s1) ∧
      s1.mem = s.mem ∧ s1.sleep_list = s.sleep_list ∧ s1.cur = s.cur ∧
      s1.initial_thread = s.initial_thread ∧ is_thread s next = true ∧
      (next = s.idle_thread ∨ (s.mem next).status = THREAD_READY) := by
  cases hpol : s.thread_mlfqs with
  | false =>
    by_cases hne : s.ready_list = []
    · refine ⟨s.idle_thread, s, ?_, rfl, rfl, rfl, rfl, hidle, Or.inl rfl⟩
      simp [next_thread_to_run, hpol, hne, list_empty]
    · obtain ⟨A, t, B, hsplit, _, hA, hB⟩ :=
        remove_list_max_key (fun a => (s.mem a).tmp_priority) s.ready_list hne
      have ht := hready t (by rw [hsplit]; simp)
      exact ⟨t, _, next_thread_to_run_at s A t B hpol hsplit hA hB ht.1 ht.2, rfl, rfl, rfl,
        rfl, ht.1, Or.inr ht.2⟩
  | true =>
    rcases mlfqs_top_exists s.mlfqs_queue 63 with hall | ⟨i, hi, hq, habove⟩
    · refine ⟨s.idle_thread, s, ?_, rfl, rfl, rfl, rfl, hidle, Or.inl rfl⟩
      have hunf : next_thread_to_run s = mlfqs_get_next_thread_to_run s := by
        unfold next_thread_to_run
        rw [if_neg (by simp [hpol])]
      rw [hunf]
      exact mlfqs_scan_empty s 63 hall
    · obtain ⟨t, rest, hqeq⟩ := List.exists_cons_of_ne_nil hq
      have ht := hqueue i hi t (by rw [hqeq]; simp)
      exact ⟨t, _, mlfqs_next_at s i t rest hpol hi hqeq habove ht.1 ht.2, rfl, rfl, rfl, rfl,
        ht.1, Or.inr ht.2⟩

theorem thread_sleep_facts (s : Kernel) (w : Int) (hctx : s.intr_context = false)
    (hcur : is_thread s s.cur = true) (hrun : (s.mem s.cur).status = THREAD_RUNNING)
    (hnotidle : s.cur ≠ s.idle_thread) (hidle : is_thread s s.idle_thread = true)
    (hready : ∀ t ∈ s.ready_list, is_thread s t = true ∧ (s.mem t).status = THREAD_READY)
    (hqueue : ∀ i, i ≤ 63 → ∀ t ∈ s.mlfqs_queue i,
      is_thread s t = true ∧ (s.mem t).status = THREAD_READY) :
    ∃ s1, thread_sleep s w = Result.ok s1 ∧ s1.sleep_list = s.sleep_list ++ [s.cur] ∧
      (s1.mem s.cur).wake_time = w ∧ (s1.mem s.cur).status = THREAD_BLOCKED ∧
      s1.cur ≠ s.cur := by
  -- the state `schedule` starts from
  obtain ⟨s3, hs3⟩ : ∃ s3 : Kernel, s3 =
      (({ (s.write s.cur { s.mem s.cur with wake_time := w }) with
        sleep_list := list_push_back s.sleep_list s.cur } : Kernel).set_status
          s.cur THREAD_BLOCKED) := ⟨_, rfl⟩
  have hmem3 : ∀ u, u ≠ s.cur → s3.mem u = s.mem u := by
    intro u hu
    rw [hs3]
    simp [Kernel.set_status, Kernel.write, hu]
  have hcur3 : s3.cur = s.cur := by rw [hs3]; rfl
  have hthr3 : ∀ u, is_thread s3 u = is_thread s u := by
    intro u
    rw [hs3]
    by_cases hu : u = s.cur
    · subst hu
      simp [is_thread, Kernel.set_status, Kernel.write]
    · simp [is_thread, Kernel.set_status, Kernel.write, hu]
  have hst3 : ∀ u, (s.mem u).status = THREAD_READY → (s3.mem u).status = THREAD_READY := by
    intro u hu
    have hne : u ≠ s.cur := by
      intro h
      rw [h, hrun] at hu
      exact absurd hu (by decide)
    rw [hmem3 u hne]; exact hu
  have hblk3 : (s3.mem s.cur).status = THREAD_BLOCKED ∧ (s3.mem s.cur).wake_time = w := by
    rw [hs3]
    simp [Kernel.set_status, Kernel.write]
  obtain ⟨next, s4, hnext, hmem4, hsl4, hcur4, _, hnthr, hnst⟩ :=
    next_thread_to_run_total s3
      (by rw [hthr3, hs3]; exact hidle)
      (by
        intro t ht
        have htr : t ∈ s.ready_list := by rw [hs3] at ht; exact ht
        rw [hthr3]
        exact ⟨(hready t htr).1, hst3 t (hready t htr).2⟩)
      (by
        intro i hi t ht
        have htr : t ∈ s.mlfqs_queue i := by rw [hs3] at ht; exact ht
        rw [hthr3]
        exact ⟨(hqueue i hi t htr).1, hst3 t (hqueue i hi t htr).2⟩)
  have hnne : s3.cur ≠ next := by
    intro h
    rcases hnst with h1 | h1
    · rw [← h, hcur3] at h1
      rw [hs3] at h1
      exact hnotidle h1
    · rw [← h, hcur3, hblk3.1] at h1
      exact absurd h1 (by decide)
  have hsched := schedule_switch s3 s4 next hnext
    (by rw [hmem4, hcur3, hblk3.1]; decide)
    (by rw [hmem4, hcur3, hblk3.1]; decide)
    (by simpa [is_thread, hmem4] using hnthr) hnne
  have hunf : thread_sleep s w = schedule s3 := by
    unfold thread_sleep
    simp only [running_thread]
    rw [if_neg (by simp [hcur]), if_neg (by simp [hrun])]
    unfold thread_block
    rw [if_neg (by simp [hctx, Kernel.write])]
    rw [thread_current_ok _ (by simpa [is_thread, Kernel.write] using hcur)
      (by simp [Kernel.write, hrun])]
    rw [hs3]
    rfl
  refine ⟨_, by rw [hunf, hsched], ?_, ?_, ?_, ?_⟩
  · show s4.sleep_list = _
    rw [hsl4, hs3]
    rfl
  · have : s.cur ≠ next := by rw [← hcur3]; exact hnne
    simp [Kernel.set_status, Kernel.write, this, hmem4, hblk3.2]
  · have : s.cur ≠ next := by rw [← hcur3]; exact hnne
    simp [Kernel.set_status, Kernel.write, this, hmem4, hblk3.1]
  · show next ≠ s.cur
    rw [← hcur3]
    exact Ne.symm hnne

/-- C7: inside an interrupt, on a duplicate-free sleep queue of valid BLOCKED
threads (under MLFQS with priorities in `PRI_MIN..PRI_MAX`),
`thread_check_sleeping now` returns and wakes exactly the threads with
`wake_time ≤ now`: the sleep queue keeps the threads with `wake_time > now` in
their order, their blocks untouched (still BLOCKED); the woken threads are
READY and appended to the ready list, or to the queue of their priority, in
sleep-queue order; no other thread block changes.  And `thread_sleep w` by a
running thread other than the idle thread returns control to another thread
with the caller BLOCKED at the back of the sleep queue with wake time `w`, so
a check with `now < w` leaves it BLOCKED. -/
theorem thread_check_sleeping_spec :
    (∀ (s : Kernel) (now : Int), s.intr_context = true → s.sleep_list.Nodup →
      (∀ t ∈ s.sleep_list, is_thread s t = true ∧ (s.mem t).status = THREAD_BLOCKED ∧
        (s.thread_mlfqs = true →
          PRI_MIN ≤ (s.mem t).priority ∧ (s.mem t).priority ≤ PRI_MAX)) →
      ∃ s1, thread_check_sleeping s now = Result.ok s1 ∧
        s1.sleep_list = s.sleep_list.filter (fun t => decide (now < (s.mem t).wake_time)) ∧
        (∀ t ∈ s.sleep_list, now < (s.mem t).wake_time →
          s1.mem t = s.mem t ∧ (s1.mem t).status = THREAD_BLOCKED ∧ t ∈ s1.sleep_list) ∧
        (∀ t ∈ s.sleep_list, (s.mem t).wake_time ≤ now →
          s1.mem t = { s.mem t with status := THREAD_READY } ∧ t ∉ s1.sleep_list) ∧
        (∀ t, t ∉ s.sleep_list → s1.mem t = s.mem t) ∧
        s1.cur = s.cur ∧
        (s.thread_mlfqs = false →
          s1.ready_list = s.ready_list
            ++ s.sleep_list.filter (fun t => decide ((s.mem t).wake_time ≤ now)) ∧
          s1.mlfqs_queue = s.mlfqs_queue) ∧
        (s.thread_mlfqs = true →
          s1.ready_list = s.ready_list ∧
          ∀ i, s1.mlfqs_queue i = s.mlfqs_queue i ++
            (s.sleep_list.filter (fun t => decide ((s.mem t).wake_time ≤ now))).filter
              (fun t => decide (((s.mem t).priority).toNat = i)))) ∧
    (∀ (s : Kernel) (w : Int), s.intr_context = false → is_thread s s.cur = true →
      (s.mem s.cur).status = THREAD_RUNNING → s.cur ≠ s.idle_thread →
      is_thread s s.idle_thread = true →
      (∀ t ∈ s.ready_list, is_thread s t = true ∧ (s.mem t).status = THREAD_READY) →
      (∀ i, i ≤ 63 → ∀ t ∈ s.mlfqs_queue i,
        is_thread s t = true ∧ (s.mem t).status = THREAD_READY) →
      ∃ s1, thread_sleep s w = Result.ok s1 ∧ s1.sleep_list = s.sleep_list ++ [s.cur] ∧
        (s1.mem s.cur).wake_time = w ∧ (s1.mem s.cur).status = THREAD_BLOCKED ∧
        s1.cur ≠ s.cur) := by
  constructor
  · intro s now hctx hnodup hvalid
    obtain ⟨s1, hloop, hsl, hmem, hcur, _, _, hprio, hmlfqs⟩ :=
      thread_check_sleeping_from_spec now s.sleep_list s [] (by simp) (by simpa using hnodup)
        hvalid
    refine ⟨s1, ?_, by simpa using hsl, ?_, ?_, ?_, hcur, hprio, hmlfqs⟩
    · unfold thread_check_sleeping
      rw [if_neg (by simp [hctx])]
      exact hloop
    · intro t ht hlt
      have hm : s1.mem t = s.mem t := by
        rw [hmem t, if_neg (fun h => absurd hlt (not_lt.mpr h.2))]
      refine ⟨hm, by rw [hm]; exact (hvalid t ht).2.1, ?_⟩
      rw [hsl]
      simp [ht, hlt]
    · intro t ht hle
      refine ⟨by rw [hmem t, if_pos ⟨ht, hle⟩], ?_⟩
      rw [hsl]
      simp [not_lt.mpr hle]
    · intro t ht
      rw [hmem t, if_neg (fun h => ht h.1)]
  · intro s w hctx hcur hrun hnotidle hidle hready hqueue
    exact thread_sleep_facts s w hctx hcur hrun hnotidle hidle hready hqueue

/-- C7 at `example_sleep_kernel` with `now = 20`: threads 6 and 8 (wake times
10 and 20) are woken in this order, thread 7 (wake time 30) stays asleep. -/
theorem thread_check_sleeping_spec_witness :
    ∃ s1, thread_check_sleeping example_sleep_kernel 20 = Result.ok s1 ∧
      s1.sleep_list = [7] ∧ s1.ready_list = [3, 4, 5, 6, 8] ∧
      (s1.mem 7).status = THREAD_BLOCKED ∧ (s1.mem 6).status = THREAD_READY ∧
      (s1.mem 8).status = THREAD_READY :=
  match thread_check_sleeping_spec.1 example_sleep_kernel 20 rfl (by decide) (by decide) with
  | ⟨s1, h, hsl, hkeep, hwake, _, _, hprio, _⟩ =>
    ⟨s1, h, by rw [hsl]; decide, by rw [(hprio rfl).1]; decide,
      (hkeep 7 (by decide) (by decide)).2.1,
      by rw [(hwake 6 (by decide) (by decide)).1],
      by rw [(hwake 8 (by decide) (by decide)).1]⟩

theorem thread_sleep_example :
    ∃ s1, thread_sleep example_quiet_kernel 25 = Result.ok s1 ∧ s1.cur = 2 ∧
      s1.sleep_list = [1] ∧ (s1.mem 1).wake_time = 25 ∧
      (s1.mem 1).status = THREAD_BLOCKED :=
  ⟨_, rfl, rfl, rfl, rfl, rfl⟩

theorem foldl_max_spec (f : Nat → Int) (l : List Nat) :
    ∀ p : Int, p ≤ l.foldl (fun m w => max m (f w)) p ∧
      (∀ w ∈ l, f w ≤ l.foldl (fun m w => max m (f w)) p) ∧
      (l.foldl (fun m w => max m (f w)) p = p ∨
        ∃ w ∈ l, l.foldl (fun m w => max m (f w)) p = f w) := by
  induction l with
  | nil =>
    intro p
    simp
  | cons a rest ih =>
    intro p
    obtain ⟨h1, h2, h3⟩ := ih (max p (f a))
    simp only [List.foldl_cons]
    refine ⟨le_trans (le_max_left _ _) h1, ?_, ?_⟩
    · intro w hw
      rcases List.mem_cons.mp hw with h | h
      · rw [h]; exact le_trans (le_max_right _ _) h1
      · exact h2 w h
    · rcases h3 with h | ⟨w, hw, h⟩
      · rcases max_choice p (f a) with hm | hm
        · left; rw [h, hm]
        · right; exact ⟨a, List.mem_cons_self _ _, by rw [h, hm]⟩
      · right; exact ⟨w, List.mem_cons_of_mem _ hw, h⟩

/-- Under the priority policy, with a valid running thread other than the
idle thread and a ready list of valid READY threads, `thread_preempt` returns:
either nothing changed, or another thread runs; in both cases only status
fields of thread blocks changed. -/
theorem thread_preempt_priority_total (s : Kernel) (hpol : s.thread_mlfqs = false)
    (hctx : s.intr_context = false)
    (hcur : is_thread s s.cur = true) (hrun : (s.mem s.cur).status = THREAD_RUNNING)
    (hidle : s.cur ≠ s.idle_thread)
    (hready : ∀ t ∈ s.ready_list, is_thread s t = true ∧ (s.mem t).status = THREAD_READY) :
    ∃ s1, thread_preempt s = Result.ok s1 ∧
      (s1 = s ∨ s1.cur ≠ s.cur) ∧
      s1.lock_waiters = s.lock_waiters ∧
      ∀ u, (s1.mem u).priority = (s.mem u).priority ∧
        (s1.mem u).tmp_priority = (s.mem u).tmp_priority ∧
        (s1.mem u).held_locks = (s.mem u).held_locks ∧
        (s1.mem u).nice = (s.mem u).nice ∧
        (s1.mem u).recent_cpu = (s.mem u).recent_cpu := by
  by_cases hhigh : ∃ t ∈ s.ready_list, (s.mem t).tmp_priority > (s.mem s.cur).tmp_priority
  · obtain ⟨t0, ht0, hgt0⟩ := hhigh
    obtain ⟨A, t, B, hsplit, _, hA, hB⟩ :=
      remove_list_max_key (fun a => (s.mem a).tmp_priority) (s.ready_list ++ [s.cur])
        (by simp)
    have ht0mem : t0 ∈ A ++ t :: B := by rw [← hsplit]; simp [ht0]
    have hge : (s.mem t0).tmp_priority ≤ (s.mem t).tmp_priority := by
      rcases List.mem_append.mp ht0mem with h | h
      · exact le_of_lt (hA t0 h)
      · rcases List.mem_cons.mp h with h | h
        · rw [h]
        · exact hB t0 h
    have hne : t ≠ s.cur := by
      intro h
      rw [h] at hge
      exact absurd hgt0 (not_lt.mpr hge)
    have htmem : t ∈ s.ready_list := by
      have : t ∈ s.ready_list ++ [s.cur] := by rw [hsplit]; simp
      rcases List.mem_append.mp this with h | h
      · exact h
      · exact absurd (List.mem_singleton.mp h) hne
    have hyield := thread_yield_priority_switch s A t B hpol hctx hcur hrun hidle hsplit
      hA hB hne (hready t htmem).1 (hready t htmem).2
    have hpre := thread_preempt_priority_yield s hpol hcur hrun ⟨t0, ht0, hgt0⟩
    refine ⟨_, by rw [hpre, hyield], ?_, ?_, ?_⟩
    · exact Or.inr hne
    · rfl
    intro u
    by_cases h1 : u = t
    · subst h1
      simp
    · by_cases h2 : u = s.cur
      · subst h2
        simp [h1]
      · simp [h1, h2]
  · refine ⟨s, ?_, Or.inl rfl, rfl, fun u => ⟨rfl, rfl, rfl, rfl, rfl⟩⟩
    apply thread_preempt_priority_stay s hpol hcur hrun
    intro t ht
    by_contra hcon
    exact hhigh ⟨t, ht, not_le.mp hcon⟩

theorem lock_donors_congr (s1 s2 : Kernel) (h : s1.lock_waiters = s2.lock_waiters)
    (ls : List Nat) : lock_donors s1 ls = lock_donors s2 ls := by
  induction ls with
  | nil => rfl
  | cons l rest ih => simp [lock_donors, h, ih]

/-- C8: under the priority policy, after the running thread calls
`thread_set_priority p` its base priority is `p` and its effective priority
`tmp_priority` is the maximum of `p` and the effective priorities of the
threads on the waiter lists of the locks it holds: it is at least `p`, at
least the effective priority of every thread waiting on a lock it holds, and
equal to `p` or to the effective priority of one of them.  The call changes
neither the locks held, nor the waiter lists, nor another thread's effective
priority.  With no held locks the effective priority is `p`; it is never below
the base priority; the caller keeps the CPU when no ready thread outranks it,
and `thread_get_priority`, called while it still runs, returns the effective
priority. -/
theorem thread_set_priority_spec (s : Kernel) (p : Int) (hpol : s.thread_mlfqs = false)
    (hctx : s.intr_context = false)
    (hcur : is_thread s s.cur = true) (hrun : (s.mem s.cur).status = THREAD_RUNNING)
    (hnotidle : s.cur ≠ s.idle_thread)
    (hready : ∀ t ∈ s.ready_list, is_thread s t = true ∧ (s.mem t).status = THREAD_READY)
    (hself : ∀ l ∈ (s.mem s.cur).held_locks, s.cur ∉ s.lock_waiters l) :
    ∃ s1, thread_set_priority s p = Result.ok s1 ∧
      (s1.mem s.cur).priority = p ∧
      (s1.mem s.cur).held_locks = (s.mem s.cur).held_locks ∧
      s1.lock_waiters = s.lock_waiters ∧
      (∀ w, w ≠ s.cur → (s1.mem w).tmp_priority = (s.mem w).tmp_priority) ∧
      p ≤ (s1.mem s.cur).tmp_priority ∧
      (∀ l ∈ (s1.mem s.cur).held_locks, ∀ w ∈ s1.lock_waiters l,
        (s1.mem w).tmp_priority ≤ (s1.mem s.cur).tmp_priority) ∧
      ((s1.mem s.cur).tmp_priority = p ∨
        ∃ l ∈ (s1.mem s.cur).held_locks, ∃ w ∈ s1.lock_waiters l,
          (s1.mem s.cur).tmp_priority = (s1.mem w).tmp_priority) ∧
      ((s.mem s.cur).held_locks = [] → (s1.mem s.cur).tmp_priority = p) ∧
      (s1.mem s.cur).priority ≤ (s1.mem s.cur).tmp_priority ∧
      ((∀ t ∈ s.ready_list, (s.mem t).tmp_priority ≤ (s1.mem s.cur).tmp_priority) →
        s1.cur = s.cur) ∧
      (s1.cur = s.cur → thread_get_priority s1 = Result.ok (s1.mem s.cur).tmp_priority) := by
  have hmemd : ∀ (k : Kernel) (ls : List Nat) (w : Nat),
      w ∈ lock_donors k ls ↔ ∃ l ∈ ls, w ∈ k.lock_waiters l := by
    intro k ls w
    induction ls with
    | nil => simp [lock_donors]
    | cons l rest ih => simp [lock_donors, ih]
  have hselfd : s.cur ∉ lock_donors s (s.mem s.cur).held_locks := by
    intro h
    obtain ⟨l, hl, hw⟩ := (hmemd s _ _).1 h
    exact hself l hl hw
  obtain ⟨s2, hs2⟩ : ∃ s2 : Kernel, s2 =
      (s.write s.cur { s.mem s.cur with priority := p }).write s.cur
        { (s.write s.cur { s.mem s.cur with priority := p }).mem s.cur with
          tmp_priority := p } := ⟨_, rfl⟩
  have hmem2o : ∀ u, u ≠ s.cur → s2.mem u = s.mem u := by
    intro u hu
    rw [hs2]; simp [Kernel.write, hu]
  have hmem2t : s2.mem s.cur = { s.mem s.cur with priority := p, tmp_priority := p } := by
    rw [hs2]; simp [Kernel.write]
  have hlw2 : s2.lock_waiters = s.lock_waiters := by rw [hs2]; rfl
  obtain ⟨s3, hs3⟩ : ∃ s3 : Kernel, s3 = update_temp_priority s2 s.cur := ⟨_, rfl⟩
  have hdon2 : lock_donors s2 (s2.mem s.cur).held_locks
      = lock_donors s (s.mem s.cur).held_locks := by
    rw [lock_donors_congr s2 s hlw2, hmem2t]
  obtain ⟨hM1, hM2, hM3⟩ := foldl_max_spec (fun w => (s2.mem w).tmp_priority)
    (lock_donors s (s.mem s.cur).held_locks) p
  have hmem3o : ∀ u, u ≠ s.cur → s3.mem u = s.mem u := by
    intro u hu
    rw [hs3]
    simp [update_temp_priority, Kernel.write, hu, hmem2o u hu]
  have hmem3t : s3.mem s.cur = { s.mem s.cur with
      priority := p,
      tmp_priority := (lock_donors s (s.mem s.cur).held_locks).foldl
        (fun m w => max m (s2.mem w).tmp_priority) p } := by
    rw [hs3]
    simp only [update_temp_priority, Kernel.write, if_true, hdon2]
    rw [hmem2t]
  have hpol3 : s3.thread_mlfqs = false := by rw [hs3, hs2]; exact hpol
  have hctx3 : s3.intr_context = false := by rw [hs3, hs2]; exact hctx
  have hcur3 : s3.cur = s.cur := by rw [hs3, hs2]; rfl
  have hidle3 : s3.idle_thread = s.idle_thread := by rw [hs3, hs2]; rfl
  have hrl3 : s3.ready_list = s.ready_list := by rw [hs3, hs2]; rfl
  have hlw3 : s3.lock_waiters = s.lock_waiters := by rw [hs3, hs2]; rfl
  have hthr3 : is_thread s3 s3.cur = true := by
    have h1 := hcur
    simp only [is_thread, Bool.and_eq_true, decide_eq_true_eq] at h1 ⊢
    rw [hcur3, hmem3t]
    exact h1
  have hrun3 : (s3.mem s3.cur).status = THREAD_RUNNING := by
    rw [hcur3, hmem3t]; exact hrun
  have hrne : ∀ t ∈ s.ready_list, t ≠ s.cur := by
    intro t ht h
    have := (hready t ht).2
    rw [h, hrun] at this
    exact absurd this (by decide)
  obtain ⟨s1, hpre, hcase, hlw1, hfld⟩ := thread_preempt_priority_total s3 hpol3 hctx3 hthr3
    hrun3 (by rw [hcur3, hidle3]; exact hnotidle)
    (by
      intro t ht
      rw [hrl3] at ht
      have hne := hrne t ht
      have h1 := (hready t ht).1
      simp only [is_thread, Bool.and_eq_true, decide_eq_true_eq] at h1 ⊢
      rw [hmem3o t hne]
      exact ⟨h1, (hready t ht).2⟩)
  have hunf : thread_set_priority s p = thread_preempt s3 := by
    unfold thread_set_priority
    rw [if_neg (by simp [hpol]), thread_current_ok s hcur hrun, hs3, hs2]
  have htmp1 : (s1.mem s.cur).tmp_priority
      = (lock_donors s (s.mem s.cur).held_locks).foldl
        (fun m w => max m (s2.mem w).tmp_priority) p := by
    rw [(hfld s.cur).2.1, hmem3t]
  have hheld1 : (s1.mem s.cur).held_locks = (s.mem s.cur).held_locks := by
    rw [(hfld s.cur).2.2.1, hmem3t]
  have hlws : s1.lock_waiters = s.lock_waiters := hlw1.trans hlw3
  have hoth1 : ∀ w, w ≠ s.cur → (s1.mem w).tmp_priority = (s.mem w).tmp_priority := by
    intro w hw
    rw [(hfld w).2.1, hmem3o w hw]
  have htmpw : ∀ w ∈ lock_donors s (s.mem s.cur).held_locks,
      (s1.mem w).tmp_priority = (s2.mem w).tmp_priority := by
    intro w hw
    have hne : w ≠ s.cur := by
      intro h; rw [h] at hw; exact hselfd hw
    rw [hoth1 w hne, hmem2o w hne]
  have hprio1 : (s1.mem s.cur).priority = p := by rw [(hfld s.cur).1, hmem3t]
  refine ⟨s1, by rw [hunf, hpre], hprio1, hheld1, hlws, hoth1, ?_, ?_, ?_, ?_, ?_, ?_, ?_⟩
  · rw [htmp1]; exact hM1
  · intro l hl w hw
    rw [hheld1] at hl
    rw [hlws] at hw
    have hd : w ∈ lock_donors s (s.mem s.cur).held_locks := (hmemd s _ _).2 ⟨l, hl, hw⟩
    rw [htmp1, htmpw w hd]
    exact hM2 w hd
  · rcases hM3 with h | ⟨w, hw, h⟩
    · left; rw [htmp1]; exact h
    · right
      obtain ⟨l, hl, hwl⟩ := (hmemd s _ _).1 hw
      refine ⟨l, by rw [hheld1]; exact hl, w, by rw [hlws]; exact hwl, ?_⟩
      rw [htmp1, htmpw w hw]; exact h
  · intro hnil
    rw [htmp1, hnil]
    rfl
  · rw [hprio1, htmp1]; exact hM1
  · intro hlow
    rcases hcase with h | h
    · rw [h]; exact hcur3
    · exfalso
      apply h
      have hstay : thread_preempt s3 = Result.ok s3 := by
        apply thread_preempt_priority_stay s3 hpol3 hthr3 hrun3
        intro t ht
        rw [hrl3] at ht
        rw [hcur3, hmem3o t (hrne t ht), hmem3t]
        have := hlow t ht
        rw [htmp1] at this
        exact this
      rw [hstay] at hpre
      injection hpre with hpre
      rw [hpre]
  · intro hsame
    rcases hcase with h | h
    · have hcur1 : is_thread s1 s1.cur = true := by rw [h]; exact hthr3
      have hrun1 : (s1.mem s1.cur).status = THREAD_RUNNING := by rw [h]; exact hrun3
      have hpol1 : s1.thread_mlfqs = false := by rw [h]; exact hpol3
      unfold thread_get_priority
      rw [thread_current_ok s1 hcur1 hrun1]
      simp [hpol1, hsame]
    · exact absurd (hsame.trans hcur3.symm) h

/-- C8 at `example_lock_kernel`: `main` (base 31) holds two locks with waiters
of effective priority 45, 20 and 35; after `thread_set_priority 40` its base
priority is 40, its effective priority is 45, the donation of thread 6, it
keeps the CPU, and `thread_get_priority` returns 45. -/
theorem thread_set_priority_spec_witness :
    ∃ s1, thread_set_priority example_lock_kernel 40 = Result.ok s1 ∧
      (s1.mem 1).priority = 40 ∧ (s1.mem 1).tmp_priority = 45 ∧ s1.cur = 1 ∧
      thread_get_priority s1 = Result.ok 45 := by
  obtain ⟨s1, h, hp, hheld, hlw, hoth, hle, hdon, hor, _, _, hstay, hget⟩ :=
    thread_set_priority_spec example_lock_kernel 40 rfl rfl (by decide) (by decide)
      (by decide) (by decide) (by decide)
  have h6 : (s1.mem 6).tmp_priority = 45 := hoth 6 (by decide)
  have h7 : (s1.mem 7).tmp_priority = 20 := hoth 7 (by decide)
  have h8 : (s1.mem 8).tmp_priority = 35 := hoth 8 (by decide)
  have hge : (45 : Int) ≤ (s1.mem 1).tmp_priority := by
    have := hdon 100 (by rw [hheld]; decide) 6 (by rw [hlw]; decide)
    rw [h6] at this
    exact this
  have h45 : (s1.mem 1).tmp_priority = 45 := by
    rcases hor with h0 | ⟨l, hl, w, hw, h0⟩
    · have h1 : (s1.mem 1).tmp_priority = 40 := h0
      omega
    · rw [hheld] at hl
      rw [hlw] at hw
      have hl1 : l = 100 ∨ l = 101 := by
        have hl2 : l ∈ [100, 101] := hl
        simpa using hl2
      rcases hl1 with hl1 | hl1
      · subst hl1
        have hw2 : w ∈ [6, 7] := hw
        have hw1 : w = 6 ∨ w = 7 := by simpa using hw2
        rcases hw1 with hw1 | hw1
        · subst hw1
          exact h0.trans h6
        · subst hw1
          have h1 : (s1.mem 1).tmp_priority = 20 := h0.trans h7
          omega
      · subst hl1
        have hw2 : w ∈ [8] := hw
        have hw1 : w = 8 := by simpa using hw2
        subst hw1
        have h1 : (s1.mem 1).tmp_priority = 35 := h0.trans h8
        omega
  have hc : s1.cur = 1 := by
    apply hstay
    intro t ht
    have ht2 : t ∈ [3] := ht
    have ht1 : t = 3 := by simpa using ht2
    subst ht1
    have h1 : (s1.mem 1).tmp_priority = 45 := h45
    show (31 : Int) ≤ (s1.mem 1).tmp_priority
    omega
  refine ⟨s1, h, hp, h45, hc, ?_⟩
  have := hget hc
  have h1 : (s1.mem 1).tmp_priority = 45 := h45
  rw [this]
  exact congrArg Result.ok h1

theorem thread_set_priority_example :
    ∃ s1, thread_set_priority example_lock_kernel 40 = Result.ok s1 ∧ s1.cur = 1 ∧
      (s1.mem 1).priority = 40 ∧ (s1.mem 1).tmp_priority = 45 ∧
      thread_get_priority s1 = Result.ok 45 :=
  ⟨_, rfl, rfl, rfl, rfl, rfl⟩

theorem recalculate_priority_value_eq (rc n : Int) :
    recalculate_priority_value rc n = spec_mlfqs_priority rc n ∧
    PRI_MIN ≤ recalculate_priority_value rc n ∧ recalculate_priority_value rc n ≤ PRI_MAX := by
  unfold recalculate_priority_value spec_mlfqs_priority
  simp only [PRI_MIN, PRI_MAX, mul_comm n 2]
  generalize ftoi (fp_sub (fp_sub (itof 63) (fp_int_div rc 4)) (itof (2 * n))) = x
  by_cases h1 : x < 0
  · simp only [if_pos h1]
    omega
  · by_cases h2 : x > 63
    · simp only [if_neg h1, if_pos h2]
      omega
    · simp only [if_neg h1, if_neg h2]
      omega

theorem recalculate_priority_facts (s : Kernel) (t : Nat) (ht : is_thread s t = true) :
    ∃ s1, recalculate_priority s t 0 = Result.ok s1 ∧
      s1.idle_thread = s.idle_thread ∧
      (∀ u, (s1.mem u).recent_cpu = (s.mem u).recent_cpu ∧
        (s1.mem u).nice = (s.mem u).nice ∧ (s1.mem u).magic = (s.mem u).magic) ∧
      (∀ u, u ≠ t → (s1.mem u).priority = (s.mem u).priority) ∧
      (t ≠ s.idle_thread → (s1.mem t).priority
        = recalculate_priority_value (s.mem t).recent_cpu (s.mem t).nice) := by
  by_cases hidle : t = s.idle_thread
  · refine ⟨s, ?_, rfl, fun u => ⟨rfl, rfl, rfl⟩, fun u _ => rfl, fun h => absurd hidle h⟩
    unfold recalculate_priority
    rw [if_pos hidle]
  · have hunf : recalculate_priority s t 0 = mlfqs_switch_queue s t
        (recalculate_priority_value (s.mem t).recent_cpu (s.mem t).nice) := by
      unfold recalculate_priority
      rw [if_neg hidle]
      simp
    obtain ⟨_, hlo, hhi⟩ :=
      recalculate_priority_value_eq (s.mem t).recent_cpu (s.mem t).nice
    generalize recalculate_priority_value (s.mem t).recent_cpu (s.mem t).nice = v at *
    by_cases hsame : v = (s.mem t).priority
    · refine ⟨s, ?_, rfl, fun u => ⟨rfl, rfl, rfl⟩, fun u _ => rfl, fun _ => hsame.symm⟩
      rw [hunf]
      unfold mlfqs_switch_queue
      rw [if_pos hsame]
    · by_cases hst : (s.mem t).status = THREAD_READY
      · have hins := mlfqs_insert_ok
          (list_remove_elem (s.write t { s.mem t with priority := v }) t) t
          (by simpa [is_thread, list_remove_elem, Kernel.write] using ht)
          (by simp [list_remove_elem, Kernel.write, hlo, hhi])
        refine ⟨_, Eq.trans ?_ hins, ?_, ?_, ?_, ?_⟩
        · rw [hunf]
          unfold mlfqs_switch_queue
          rw [if_neg hsame]
          simp [Kernel.write, hst]
        · rfl
        · intro u
          by_cases hu : u = t
          · subst hu
            simp [list_remove_elem, Kernel.write]
          · simp [list_remove_elem, Kernel.write, hu]
        · intro u hu
          simp [list_remove_elem, Kernel.write, hu]
        · intro _
          simp [list_remove_elem, Kernel.write]
      · refine ⟨s.write t { s.mem t with priority := v }, ?_, rfl, ?_, ?_, ?_⟩
        · rw [hunf]
          unfold mlfqs_switch_queue
          rw [if_neg hsame]
          simp [Kernel.write, hst]
        · intro u
          by_cases hu : u = t
          · subst hu
            simp [Kernel.write]
          · simp [Kernel.write, hu]
        · intro u hu
          simp [Kernel.write, hu]
        · intro _
          simp [Kernel.write]

theorem recalculate_priorities_from (l : List Nat) :
    ∀ s : Kernel, (∀ t ∈ l, is_thread s t = true) →
      ∃ s1, thread_foreach_from (fun k t => recalculate_priority k t 0) l s = Result.ok s1 ∧
        s1.idle_thread = s.idle_thread ∧
        (∀ u, (s1.mem u).recent_cpu = (s.mem u).recent_cpu ∧
          (s1.mem u).nice = (s.mem u).nice ∧ (s1.mem u).magic = (s.mem u).magic) ∧
        (∀ u, u ∉ l → (s1.mem u).priority = (s.mem u).priority) ∧
        (∀ t ∈ l, t ≠ s.idle_thread → (s1.mem t).priority
          = recalculate_priority_value (s.mem t).recent_cpu (s.mem t).nice) := by
  induction l with
  | nil =>
    intro s _
    exact ⟨s, rfl, rfl, fun u => ⟨rfl, rfl, rfl⟩, fun u _ => rfl,
      fun t ht => absurd ht (List.not_mem_nil t)⟩
  | cons t rest ih =>
    intro s hvalid
    obtain ⟨s1, hstep, hid1, hfld1, hoth1, hval1⟩ :=
      recalculate_priority_facts s t (hvalid t (List.mem_cons_self _ _))
    obtain ⟨s2, hloop, hid2, hfld2, hoth2, hval2⟩ := ih s1 (by
      intro u hu
      have h1 := hvalid u (List.mem_cons_of_mem _ hu)
      simp only [is_thread, Bool.and_eq_true, decide_eq_true_eq] at h1 ⊢
      rw [(hfld1 u).2.2]
      exact h1)
    refine ⟨s2, ?_, hid2.trans hid1, ?_, ?_, ?_⟩
    · simp only [thread_foreach_from, hstep, Result.bind_ok]
      exact hloop
    · intro u
      exact ⟨(hfld2 u).1.trans (hfld1 u).1, (hfld2 u).2.1.trans (hfld1 u).2.1,
        (hfld2 u).2.2.trans (hfld1 u).2.2⟩
    · intro u hu
      have h1 : u ≠ t := fun h => hu (by rw [h]; exact List.mem_cons_self _ _)
      have h2 : u ∉ rest := fun h => hu (List.mem_cons_of_mem _ h)
      rw [hoth2 u h2, hoth1 u h1]
    · intro u hu hidle
      by_cases hin : u ∈ rest
      · rw [hval2 u hin (by rw [hid1]; exact hidle), (hfld1 u).1, (hfld1 u).2.1]
      · have hut : u = t := by
          rcases List.mem_cons.mp hu with h | h
          · exact h
          · exact absurd h hin
        rw [hoth2 u hin, hut]
        exact hval1 (by rw [← hut]; exact hidle)

/-- C9: for a valid thread `t` other than the idle thread,
`recalculate_priority t NULL` returns with `t`'s priority equal to the
specification's `clamp (PRI_MAX - recent_cpu/4 - nice*2, PRI_MIN, PRI_MAX)`
(fixed-point subtraction, conversion to an integer, then the bounds) of `t`'s
unchanged `recent_cpu` and `nice`, a value in `PRI_MIN..PRI_MAX`; and after
`recalculate_priorities` this holds of every such thread on the all-threads
list. -/
theorem recalculate_priority_spec :
    (∀ (s : Kernel) (t : Nat), t ≠ s.idle_thread → is_thread s t = true →
      ∃ s1, recalculate_priority s t 0 = Result.ok s1 ∧
        (s1.mem t).priority = spec_mlfqs_priority (s1.mem t).recent_cpu (s1.mem t).nice ∧
        (s1.mem t).recent_cpu = (s.mem t).recent_cpu ∧ (s1.mem t).nice = (s.mem t).nice ∧
        PRI_MIN ≤ (s1.mem t).priority ∧ (s1.mem t).priority ≤ PRI_MAX) ∧
    (∀ s : Kernel, (∀ t ∈ s.all_list, is_thread s t = true) →
      ∃ s1, recalculate_priorities s = Result.ok s1 ∧
        ∀ t ∈ s.all_list, t ≠ s.idle_thread →
          (s1.mem t).priority = spec_mlfqs_priority (s1.mem t).recent_cpu (s1.mem t).nice ∧
          (s1.mem t).recent_cpu = (s.mem t).recent_cpu ∧ (s1.mem t).nice = (s.mem t).nice ∧
          PRI_MIN ≤ (s1.mem t).priority ∧ (s1.mem t).priority ≤ PRI_MAX) := by
  constructor
  · intro s t hidle ht
    obtain ⟨s1, hstep, _, hfld, _, hval⟩ := recalculate_priority_facts s t ht
    obtain ⟨heq, hlo, hhi⟩ :=
      recalculate_priority_value_eq (s.mem t).recent_cpu (s.mem t).nice
    refine ⟨s1, hstep, ?_, (hfld t).1, (hfld t).2.1, ?_, ?_⟩
    · rw [hval hidle, (hfld t).1, (hfld t).2.1]; exact heq
    · rw [hval hidle]; exact hlo
    · rw [hval hidle]; exact hhi
  · intro s hvalid
    obtain ⟨s1, hloop, _, hfld, _, hval⟩ := recalculate_priorities_from s.all_list s hvalid
    refine ⟨s1, hloop, ?_⟩
    intro t ht hidle
    obtain ⟨heq, hlo, hhi⟩ :=
      recalculate_priority_value_eq (s.mem t).recent_cpu (s.mem t).nice
    refine ⟨?_, (hfld t).1, (hfld t).2.1, ?_, ?_⟩
    · rw [hval t ht hidle, (hfld t).1, (hfld t).2.1]; exact heq
    · rw [hval t ht hidle]; exact hlo
    · rw [hval t ht hidle]; exact hhi

/-- C9 at `example_decay_kernel`: thread 3 with `recent_cpu` 40.0 and `nice` 5
gets priority `63 - 10 - 10 = 43`. -/
theorem recalculate_priority_spec_witness :
    ∃ s1, recalculate_priorities example_decay_kernel = Result.ok s1 ∧
      (s1.mem 3).priority = 43 ∧ (s1.mem 4).priority = 63 :=
  match recalculate_priority_spec.2 example_decay_kernel (by decide) with
  | ⟨s1, h, hall⟩ =>
    ⟨s1, h,
      by
        have h3 := hall 3 (by decide) (by decide)
        rw [h3.1, h3.2.1, h3.2.2.1]
        decide,
      by
        have h4 := hall 4 (by decide) (by decide)
        rw [h4.1, h4.2.1, h4.2.2.1]
        decide⟩

theorem recalculate_priorities_example :
    ∃ s1, recalculate_priorities example_decay_kernel = Result.ok s1 ∧
      s1.mlfqs_queue 31 = [] ∧ s1.mlfqs_queue 40 = [] ∧ s1.mlfqs_queue 43 = [3] ∧
      s1.mlfqs_queue 63 = [4, 5] ∧ (s1.mem 1).priority = 63 :=
  ⟨_, rfl, rfl, rfl, rfl, rfl, rfl⟩

theorem recalculate_priority_no_switch (s : Kernel) (t : Nat) :
    recalculate_priority s t NO_SWITCH = Result.ok s := by
  unfold recalculate_priority
  by_cases h : t = s.idle_thread
  · rw [if_pos h]
  · rw [if_neg h]
    simp [NO_SWITCH]

/-- C10 (the code departs from the claim): at `example_mlfqs_kernel` the
running thread 1 has `recent_cpu` 0 and priority 63; `thread_set_nice 20`
stores `nice = 20` and returns with thread 1 still running, but its priority
is still 63, whereas the specification's formula gives `63 - 0 - 40 = 23`
(below the threads waiting in queue 40). -/
theorem thread_set_nice_priority_not_recomputed :
    ∃ s1, thread_set_nice example_mlfqs_kernel 20 = Result.ok s1 ∧
      s1.cur = 1 ∧ (s1.mem 1).nice = 20 ∧ (s1.mem 1).recent_cpu = 0 ∧
      (s1.mem 1).priority = 63 ∧
      spec_mlfqs_priority (s1.mem 1).recent_cpu (s1.mem 1).nice = 23 ∧
      s1.mlfqs_queue 40 = [4, 5] :=
  ⟨_, rfl, rfl, rfl, rfl, rfl, by decide, rfl⟩

theorem thread_create_example :
    ∃ s1, thread_create example_main_kernel 6 true 1 20 1 = Result.ok (6, s1) ∧
      s1.cur = 1 ∧ (s1.mem 1).status = THREAD_RUNNING ∧
      (s1.mem 6).status = THREAD_READY ∧ s1.ready_list = [3, 6] ∧
      s1.all_list = [1, 2, 3, 4, 5, 6] ∧ s1.next_tid = 7 :=
  ⟨_, rfl, rfl, rfl, rfl, rfl, rfl, rfl⟩

theorem thread_tick_eq (s : Kernel) (b : Bool) (hcur : is_thread s s.cur = true)
    (hrun : (s.mem s.cur).status = THREAD_RUNNING) :
    thread_tick s b = Result.ok { s with
      yield_on_return :=
        (decide ((s.thread_ticks + 1) % 4294967296 ≥ TIME_SLICE) || s.yield_on_return),
      thread_ticks := (s.thread_ticks + 1) % 4294967296,
      idle_ticks := if s.cur = s.idle_thread then s.idle_ticks + 1 else s.idle_ticks,
      user_ticks :=
        if s.cur ≠ s.idle_thread ∧ b = true then s.user_ticks + 1 else s.user_ticks,
      kernel_ticks :=
        if s.cur ≠ s.idle_thread ∧ b = false then s.kernel_ticks + 1 else s.kernel_ticks,
      mem := fun p =>
        if p = s.cur ∧ s.thread_mlfqs = true then
          { s.mem p with recent_cpu := (s.mem p).recent_cpu + 16384 }
        else s.mem p } := by
  unfold thread_tick
  rw [thread_current_ok s hcur hrun]
  by_cases h1 : s.cur = s.idle_thread <;> by_cases h2 : b = true <;>
    cases hp : s.thread_mlfqs <;>
    by_cases hts : (s.thread_ticks + 1) % 4294967296 ≥ TIME_SLICE <;>
    simp [h1, h2, hp, hts, Kernel.write, intr_yield_on_return, fp_add, itof, FP_SCALE]
  all_goals (funext p; split <;> simp_all)

/-- C12 (amended): under MLFQS every call of `thread_tick` by a valid running
thread adds exactly 1.0 (`2^14` in fixed point) to the `recent_cpu` of the
running thread, whether or not it is the idle thread, and leaves every other
thread block as it was. -/
theorem thread_tick_recent_cpu (s : Kernel) (b : Bool) (hpol : s.thread_mlfqs = true)
    (hcur : is_thread s s.cur = true) (hrun : (s.mem s.cur).status = THREAD_RUNNING) :
    ∃ s1, thread_tick s b = Result.ok s1 ∧
      (s1.mem s.cur).recent_cpu = (s.mem s.cur).recent_cpu + 16384 ∧
      itof 1 = 16384 ∧
      (∀ u, u ≠ s.cur → s1.mem u = s.mem u) ∧ s1.cur = s.cur := by
  refine ⟨_, thread_tick_eq s b hcur hrun, ?_, rfl, ?_, rfl⟩
  · simp [hpol]
  · intro u hu
    simp [hu]

/-- C12, the claim as stated fails: at `example_idle_kernel` the idle thread
(address 2) is running under MLFQS, and one `thread_tick` raises the idle
thread's `recent_cpu` from 0 to 16384. -/
theorem thread_tick_idle_counterexample :
    example_idle_kernel.cur = example_idle_kernel.idle_thread ∧
    (example_idle_kernel.mem 2).recent_cpu = 0 ∧
    ∃ s1, thread_tick example_idle_kernel false = Result.ok s1 ∧
      (s1.mem 2).recent_cpu = 16384 :=
  ⟨rfl, rfl, _, rfl, rfl⟩

/-- C12 (amended) at `example_mlfqs_kernel`: the running thread 1 goes from
`recent_cpu` 0 to 16384, thread 4 keeps its block. -/
theorem thread_tick_recent_cpu_witness :
    ∃ s1, thread_tick example_mlfqs_kernel false = Result.ok s1 ∧
      (s1.mem 1).recent_cpu = 16384 ∧ s1.mem 4 = example_mlfqs_kernel.mem 4 :=
  match thread_tick_recent_cpu example_mlfqs_kernel false rfl (by decide) (by decide) with
  | ⟨s1, h, hrc, _, hoth, _⟩ => ⟨s1, h, hrc, hoth 4 (by decide)⟩

theorem thread_tick_times_facts (b : Bool) (k : Nat) :
    ∀ s : Kernel, s.thread_ticks = 0 → is_thread s s.cur = true →
      (s.mem s.cur).status = THREAD_RUNNING → k < 4294967296 →
      ∃ s1, thread_tick_times b k s = Result.ok s1 ∧ s1.thread_ticks = k ∧
        s1.cur = s.cur ∧ is_thread s1 s1.cur = true ∧
        (s1.mem s1.cur).status = THREAD_RUNNING ∧
        (1 ≤ k → (s1.yield_on_return = true ↔ k ≥ TIME_SLICE)) := by
  induction k with
  | zero =>
    intro s h0 hcur hrun _
    exact ⟨s, rfl, h0, rfl, hcur, hrun, fun h => absurd h (by decide)⟩
  | succ n ih =>
    intro s h0 hcur hrun hlt
    obtain ⟨s1, hn, hticks, hc1, hcur1, hrun1, _⟩ := ih s h0 hcur hrun (by omega)
    have htick := thread_tick_eq { s1 with yield_on_return := false } b hcur1 hrun1
    have hmod : (n + 1) % 4294967296 = n + 1 := Nat.mod_eq_of_lt hlt
    refine ⟨_, Eq.trans ?_ htick, ?_, ?_, ?_, ?_, ?_⟩
    · simp only [thread_tick_times, hn, Result.bind_ok]
    · show (s1.thread_ticks + 1) % 4294967296 = n + 1
      rw [hticks, hmod]
    · exact hc1
    · have h1 := hcur1
      simp only [is_thread, Bool.and_eq_true, decide_eq_true_eq] at h1 ⊢
      refine ⟨h1.1, ?_⟩
      split <;> exact h1.2
    · show ((if s1.cur = s1.cur ∧ s1.thread_mlfqs = true then
          { s1.mem s1.cur with recent_cpu := (s1.mem s1.cur).recent_cpu + 16384 }
        else s1.mem s1.cur) : thread).status = THREAD_RUNNING
      split
      · exact hrun1
      · exact hrun1
    · intro _
      show ((decide ((s1.thread_ticks + 1) % 4294967296 ≥ TIME_SLICE) || false) = true) ↔ _
      rw [hticks, hmod]
      simp

/-- C13: starting from a slice counter of 0, the `k`-th consecutive call of
`thread_tick` (each in its own timer interrupt, which starts with no yield
requested; `1 ≤ k < 2^32`, the counter being a 32-bit unsigned) leaves the
counter at `k` and requests a yield on return exactly when `k ≥ TIME_SLICE`,
so not at ticks 1, 2, 3 and always at tick 4; and `thread_schedule_tail`
leaves the counter at 0. -/
theorem thread_tick_time_slice (s : Kernel) (b : Bool) (k : Nat)
    (h0 : s.thread_ticks = 0) (hcur : is_thread s s.cur = true)
    (hrun : (s.mem s.cur).status = THREAD_RUNNING) (hk : 1 ≤ k) (hk32 : k < 4294967296) :
    (∃ s1, thread_tick_times b k s = Result.ok s1 ∧ s1.thread_ticks = k ∧
      (s1.yield_on_return = true ↔ k ≥ TIME_SLICE)) ∧
    TIME_SLICE = 4 ∧
    (∀ (k0 : Kernel) (prev : Nat) (k1 : Kernel),
      thread_schedule_tail k0 prev = Result.ok k1 → k1.thread_ticks = 0) := by
  refine ⟨?_, rfl, ?_⟩
  · obtain ⟨s1, h, hticks, _, _, _, hy⟩ := thread_tick_times_facts b k s h0 hcur hrun hk32
    exact ⟨s1, h, hticks, hy hk⟩
  · intro k0 prev k1 h
    unfold thread_schedule_tail at h
    dsimp only at h
    split at h
    · cases h
    · split at h
      · split at h
        · cases h
        · injection h with h
          rw [← h]
      · injection h with h
        rw [← h]

/-- C13 at `example_priority_kernel`: tick 3 requests nothing, tick 4 requests
a yield. -/
theorem thread_tick_time_slice_witness :
    (∃ s1, thread_tick_times false 3 example_priority_kernel = Result.ok s1 ∧
      s1.thread_ticks = 3 ∧ (s1.yield_on_return = true ↔ 3 ≥ TIME_SLICE)) ∧
    (∃ s1, thread_tick_times false 4 example_priority_kernel = Result.ok s1 ∧
      s1.thread_ticks = 4 ∧ (s1.yield_on_return = true ↔ 4 ≥ TIME_SLICE)) :=
  ⟨(thread_tick_time_slice example_priority_kernel false 3 rfl (by decide) (by decide)
      (by decide) (by decide)).1,
    (thread_tick_time_slice example_priority_kernel false 4 rfl (by decide) (by decide)
      (by decide) (by decide)).1⟩

theorem thread_tick_times_example :
    (∃ s1, thread_tick_times false 1 example_priority_kernel = Result.ok s1 ∧
      s1.yield_on_return = false ∧ s1.kernel_ticks = 1) ∧
    (∃ s1, thread_tick_times false 3 example_priority_kernel = Result.ok s1 ∧
      s1.yield_on_return = false ∧ s1.thread_ticks = 3) ∧
    (∃ s1, thread_tick_times false 4 example_priority_kernel = Result.ok s1 ∧
      s1.yield_on_return = true ∧ s1.thread_ticks = 4) ∧
    (∃ s1, thread_tick_times false 5 example_priority_kernel = Result.ok s1 ∧
      s1.yield_on_return = true ∧ s1.thread_ticks = 5) :=
  ⟨⟨_, rfl, rfl, rfl⟩, ⟨_, rfl, rfl, rfl⟩, ⟨_, rfl, rfl, rfl⟩, ⟨_, rfl, rfl, rfl⟩⟩

/-- The counting pass over a list adds the number of its threads that are
RUNNING or READY and not the idle thread. -/
theorem count_fold_eq (s : Kernel) (l : List Nat) (a : Int) :
    l.foldl (fun count t => count_thread_if_ready s t count) a
      = a + ((l.filter (counts_as_ready s)).length : Int) := by
  induction l generalizing a with
  | nil => simp
  | cons t rest ih =>
    rw [List.foldl_cons, ih]
    by_cases h : counts_as_ready s t = true
    · have h2 : t ≠ s.idle_thread ∧
          ((s.mem t).status = THREAD_RUNNING ∨ (s.mem t).status = THREAD_READY) := by
        simpa [counts_as_ready] using h
      rw [List.filter_cons_of_pos h]
      unfold count_thread_if_ready
      rw [if_pos h2]
      simp only [List.length_cons]
      push_cast
      ring
    · have h2 : ¬ (t ≠ s.idle_thread ∧
          ((s.mem t).status = THREAD_RUNNING ∨ (s.mem t).status = THREAD_READY)) := by
        simpa [counts_as_ready] using h
      rw [List.filter_cons_of_neg h]
      unfold count_thread_if_ready
      rw [if_neg h2]

/-- The function `count_ready_threads` returns the number of threads on the
all-threads list that are RUNNING or READY and not the idle thread. -/
theorem count_ready_threads_eq (s : Kernel) :
    count_ready_threads s = ((s.all_list.filter (counts_as_ready s)).length : Int) := by
  unfold count_ready_threads thread_foreach_count
  rw [count_fold_eq]
  simp

/-- The ready count is never negative. -/
theorem count_ready_threads_nonneg (s : Kernel) : 0 ≤ count_ready_threads s := by
  rw [count_ready_threads_eq]
  exact Int.ofNat_nonneg _

/-- The function `recalculate_loads` computes the specification's formula. -/
theorem recalculate_loads_eq (s : Kernel) :
    recalculate_loads s
      = { s with load_avg := spec_load_avg s.load_avg (count_ready_threads s) } := by
  unfold recalculate_loads spec_load_avg fp_add fp_mult fp_div itof FP_SCALE
  rfl

/-- The coefficient `59/60` in fixed point is 16110, and the formula is
evaluated with two truncating divisions. -/
theorem spec_load_avg_eq (L n : Int) :
    spec_load_avg L n = Int.tdiv (16110 * L) 16384 + Int.tdiv (n * 268435456) 983040 := by
  unfold spec_load_avg
  have h : Int.tdiv (59 * 16384 * 16384) (60 * 16384) = 16110 := by decide
  rw [h]
  have h2 : n * 16384 * 16384 = n * 268435456 := by ring
  rw [h2]
  rfl

/-- The load-average formula keeps a load average between 0 and the ready
count inside that range. -/
theorem spec_load_avg_bounds (L n : Int) (h0 : 0 ≤ L) (h1 : L ≤ n * 16384) :
    0 ≤ spec_load_avg L n ∧ spec_load_avg L n ≤ n * 16384 := by
  rw [spec_load_avg_eq]
  have hn : 0 ≤ n := by omega
  rw [Int.tdiv_eq_ediv (by omega) (by decide), Int.tdiv_eq_ediv (by omega) (by decide)]
  constructor <;> omega

/-- The load-average formula maps a non-negative load average and a
non-negative ready count to a non-negative load average. -/
theorem spec_load_avg_nonneg (L n : Int) (h0 : 0 ≤ L) (hn : 0 ≤ n) :
    0 ≤ spec_load_avg L n := by
  rw [spec_load_avg_eq]
  rw [Int.tdiv_eq_ediv (by omega) (by decide), Int.tdiv_eq_ediv (by omega) (by decide)]
  omega

/-- C14: `recalculate_loads` replaces `load_avg` by
`(59/60)*load_avg + (1/60)*ready_count` in 17.14 fixed point, every division
truncating toward zero and nothing else changed; the coefficient is 16110 and
its product with a 32-bit load average fits a 64-bit intermediate; for a ready
count `n` and `0 ≤ load_avg ≤ n` (as fixed point) the new load average again
lies between 0 and `n`, and it stays 0 when both are 0. -/
theorem recalculate_loads_spec (s : Kernel) :
    recalculate_loads s
      = { s with load_avg := spec_load_avg s.load_avg (count_ready_threads s) } ∧
    0 ≤ count_ready_threads s ∧
    fp_div (itof 59) (itof 60) = 16110 ∧
    (-2147483648 ≤ s.load_avg ∧ s.load_avg < 2147483648 →
      -9223372036854775808 ≤ fp_div (itof 59) (itof 60) * s.load_avg ∧
      fp_div (itof 59) (itof 60) * s.load_avg < 9223372036854775808) ∧
    (0 ≤ s.load_avg ∧ s.load_avg ≤ itof (count_ready_threads s) →
      0 ≤ (recalculate_loads s).load_avg ∧
      (recalculate_loads s).load_avg ≤ itof (count_ready_threads s)) ∧
    (s.load_avg = 0 ∧ count_ready_threads s = 0 → (recalculate_loads s).load_avg = 0) := by
  have hc : fp_div (itof 59) (itof 60) = 16110 := by decide
  refine ⟨recalculate_loads_eq s, count_ready_threads_nonneg s, hc, ?_, ?_, ?_⟩
  · intro h
    rw [hc]
    constructor <;> omega
  · intro h
    rw [recalculate_loads_eq]
    exact spec_load_avg_bounds _ _ h.1 h.2
  · intro h
    rw [recalculate_loads_eq]
    show spec_load_avg s.load_avg (count_ready_threads s) = 0
    rw [h.1, h.2]
    decide

/-- C14 at concrete kernels: with `main` and three ready threads (count 4) a
load average of 1.0 becomes 17202 (about 1.05), inside `[0, 4]`; on a kernel
where only the idle thread runs a load average of 0 stays 0. -/
theorem recalculate_loads_spec_witness :
    (recalculate_loads { example_priority_kernel with load_avg := 16384 }).load_avg = 17202 ∧
    count_ready_threads { example_priority_kernel with load_avg := 16384 } = 4 ∧
    (0 ≤ (recalculate_loads { example_priority_kernel with load_avg := 16384 }).load_avg ∧
      (recalculate_loads { example_priority_kernel with load_avg := 16384 }).load_avg
        ≤ itof (count_ready_threads { example_priority_kernel with load_avg := 16384 })) ∧
    (recalculate_loads example_idle_kernel).load_avg = 0 :=
  ⟨by decide, by decide,
    (recalculate_loads_spec { example_priority_kernel with load_avg := 16384 }).2.2.2.2.1
      ⟨by decide, by decide⟩,
    (recalculate_loads_spec example_idle_kernel).2.2.2.2.2 ⟨by decide, by decide⟩⟩

/-- The function `recalculate_recent_cpu` computes the specification's
formula. -/
theorem recalculate_recent_cpu_eq (s : Kernel) (t : Nat) :
    recalculate_recent_cpu s t
      = s.write t { s.mem t with
          recent_cpu := spec_recent_cpu s.load_avg (s.mem t).recent_cpu (s.mem t).nice } := by
  unfold recalculate_recent_cpu spec_recent_cpu fp_int_add fp_int_mult fp_mult fp_div FP_SCALE
  simp only [one_mul]
  have h : s.load_avg * 2 = 2 * s.load_avg := by ring
  rw [h]

/-- The coefficient `(2*load_avg)/(2*load_avg + 1)` of a non-negative load
average lies in `[0, 1)` as fixed point. -/
theorem decay_coefficient_bounds (L : Int) (h0 : 0 ≤ L) :
    0 ≤ Int.tdiv (2 * L * 16384) (2 * L + 16384) ∧
    Int.tdiv (2 * L * 16384) (2 * L + 16384) < 16384 := by
  rw [Int.tdiv_eq_ediv (by omega) (by omega)]
  constructor
  · exact Int.ediv_nonneg (by omega) (by omega)
  · apply Int.ediv_lt_of_lt_mul (by omega)
    nlinarith

/-- The scaled product of a coefficient in `[0, 1]` with a fixed-point number
has the sign of that number and is no larger in magnitude. -/
theorem fp_mult_sign (c x : Int) (hc0 : 0 ≤ c) (hc1 : c ≤ 16384) :
    (0 ≤ x → 0 ≤ fp_mult c x ∧ fp_mult c x ≤ x) ∧
    (x ≤ 0 → x ≤ fp_mult c x ∧ fp_mult c x ≤ 0) := by
  have key : ∀ y : Int, 0 ≤ y → 0 ≤ Int.tdiv (c * y) 16384 ∧ Int.tdiv (c * y) 16384 ≤ y := by
    intro y hy
    have hcy : 0 ≤ c * y := Int.mul_nonneg hc0 hy
    rw [Int.tdiv_eq_ediv hcy (by decide)]
    constructor
    · exact Int.ediv_nonneg hcy (by decide)
    · apply Int.ediv_le_of_le_mul (by decide)
      nlinarith
  unfold fp_mult FP_SCALE
  constructor
  · intro hx
    exact key x hx
  · intro hx
    have h := key (-x) (by omega)
    have e : c * -x = -(c * x) := by ring
    rw [e, Int.neg_tdiv] at h
    constructor <;> omega

/-- C15: for every thread `t`, `recalculate_recent_cpu` sets `recent_cpu(t)` to
`(2*load_avg)/(2*load_avg + 1) * recent_cpu(t) + nice(t)` in 17.14 fixed point
and changes nothing else; for `load_avg ≥ 0` the divisor is positive, the
coefficient lies in `[0, 1)` and the product keeps the sign of `recent_cpu(t)`
(a negative `recent_cpu` gives a product that is not positive); with
`load_avg = 0` the result is exactly `nice(t)`. -/
theorem recalculate_recent_cpu_spec (s : Kernel) (t : Nat) (h0 : 0 ≤ s.load_avg) :
    recalculate_recent_cpu s t
      = s.write t { s.mem t with
          recent_cpu := spec_recent_cpu s.load_avg (s.mem t).recent_cpu (s.mem t).nice } ∧
    0 < fp_int_add (fp_int_mult s.load_avg 2) 1 ∧
    0 ≤ fp_div (fp_int_mult s.load_avg 2) (fp_int_add (fp_int_mult s.load_avg 2) 1) ∧
    fp_div (fp_int_mult s.load_avg 2) (fp_int_add (fp_int_mult s.load_avg 2) 1) < itof 1 ∧
    ((s.mem t).recent_cpu < 0 →
      (s.mem t).recent_cpu ≤
        fp_mult (fp_div (fp_int_mult s.load_avg 2) (fp_int_add (fp_int_mult s.load_avg 2) 1))
          (s.mem t).recent_cpu ∧
      fp_mult (fp_div (fp_int_mult s.load_avg 2) (fp_int_add (fp_int_mult s.load_avg 2) 1))
          (s.mem t).recent_cpu ≤ 0) ∧
    (0 ≤ (s.mem t).recent_cpu →
      0 ≤ fp_mult (fp_div (fp_int_mult s.load_avg 2) (fp_int_add (fp_int_mult s.load_avg 2) 1))
          (s.mem t).recent_cpu ∧
      fp_mult (fp_div (fp_int_mult s.load_avg 2) (fp_int_add (fp_int_mult s.load_avg 2) 1))
          (s.mem t).recent_cpu ≤ (s.mem t).recent_cpu) ∧
    (s.load_avg = 0 →
      ((recalculate_recent_cpu s t).mem t).recent_cpu = itof (s.mem t).nice) := by
  have hcoef : fp_div (fp_int_mult s.load_avg 2) (fp_int_add (fp_int_mult s.load_avg 2) 1)
      = Int.tdiv (2 * s.load_avg * 16384) (2 * s.load_avg + 16384) := by
    unfold fp_div fp_int_mult fp_int_add FP_SCALE
    have h : s.load_avg * 2 = 2 * s.load_avg := by ring
    rw [h, one_mul]
  have hb := decay_coefficient_bounds s.load_avg h0
  have hs := fp_mult_sign _ (s.mem t).recent_cpu hb.1 (le_of_lt hb.2)
  refine ⟨recalculate_recent_cpu_eq s t, ?_, ?_, ?_, ?_, ?_, ?_⟩
  · unfold fp_int_add fp_int_mult FP_SCALE
    omega
  · rw [hcoef]; exact hb.1
  · rw [hcoef]; exact hb.2
  · intro hx
    rw [hcoef]
    exact hs.2 (le_of_lt hx)
  · intro hx
    rw [hcoef]
    exact hs.1 hx
  · intro hz
    rw [recalculate_recent_cpu_eq]
    unfold Kernel.write
    simp only [if_true]
    unfold spec_recent_cpu itof FP_SCALE
    rw [hz]
    simp

/-- C15 at a concrete kernel: with load average 1.0, thread 3 of
`example_decay_kernel` (`recent_cpu` 40.0, `nice` 5) gets
`recent_cpu = 518800` (two thirds of 40.0, plus 5.0), and with load average 0
it gets exactly 5.0. -/
theorem recalculate_recent_cpu_spec_witness :
    ((recalculate_recent_cpu { example_decay_kernel with load_avg := 16384 } 3).mem 3).recent_cpu
      = 518800 ∧
    ((recalculate_recent_cpu example_decay_kernel 3).mem 3).recent_cpu = itof 5 :=
  ⟨by decide,
    (recalculate_recent_cpu_spec example_decay_kernel 3 (by decide)).2.2.2.2.2.2 (by decide)⟩

/-- The counting predicate does not look at the status of the idle thread. -/
theorem counts_as_ready_set_idle (s : Kernel) (st : thread_status) (t : Nat) :
    counts_as_ready (s.set_status s.idle_thread st) t = counts_as_ready s t := by
  unfold counts_as_ready Kernel.set_status Kernel.write
  by_cases h : t = s.idle_thread
  · simp [h]
  · simp [h]

/-- C23: `count_ready_threads` returns exactly the number of threads on the
all-threads list whose status is RUNNING or READY and that are not the idle
thread; so a running thread on the list that is not the idle thread is counted,
and the result does not depend on the status of the idle thread.  The routine
only writes the counter behind `aux`: it yields an integer and no state. -/
theorem count_ready_threads_spec (s : Kernel) :
    count_ready_threads s
      = ((s.all_list.filter (fun t => decide (t ≠ s.idle_thread ∧
          ((s.mem t).status = THREAD_RUNNING ∨ (s.mem t).status = THREAD_READY)))).length : Int) ∧
    (s.cur ∈ s.all_list ∧ s.cur ≠ s.idle_thread ∧ (s.mem s.cur).status = THREAD_RUNNING →
      s.cur ∈ s.all_list.filter (fun t => decide (t ≠ s.idle_thread ∧
          ((s.mem t).status = THREAD_RUNNING ∨ (s.mem t).status = THREAD_READY))) ∧
      1 ≤ count_ready_threads s) ∧
    (s.idle_thread ∉ s.all_list.filter (fun t => decide (t ≠ s.idle_thread ∧
          ((s.mem t).status = THREAD_RUNNING ∨ (s.mem t).status = THREAD_READY)))) ∧
    (∀ st, count_ready_threads (s.set_status s.idle_thread st) = count_ready_threads s) := by
  have hp : (fun t => decide (t ≠ s.idle_thread ∧
      ((s.mem t).status = THREAD_RUNNING ∨ (s.mem t).status = THREAD_READY)))
      = counts_as_ready s := by
    funext t
    simp [counts_as_ready]
  rw [hp]
  refine ⟨count_ready_threads_eq s, ?_, ?_, ?_⟩
  · intro h
    have hm : s.cur ∈ s.all_list.filter (counts_as_ready s) := by
      rw [List.mem_filter]
      refine ⟨h.1, ?_⟩
      simp [counts_as_ready, h.2.1, h.2.2]
    refine ⟨hm, ?_⟩
    rw [count_ready_threads_eq]
    have := List.length_pos_of_mem hm
    omega
  · intro hm
    rw [List.mem_filter] at hm
    simp [counts_as_ready] at hm
  · intro st
    rw [count_ready_threads_eq, count_ready_threads_eq]
    have e : counts_as_ready (s.set_status s.idle_thread st) = counts_as_ready s := by
      funext t
      exact counts_as_ready_set_idle s st t
    rw [e]
    rfl

/-- C23 at concrete kernels: `main` running and three ready threads count 4
(the blocked idle thread is not counted); when only the idle thread runs the
count is 0. -/
theorem count_ready_threads_spec_witness :
    (example_priority_kernel.cur ∈ example_priority_kernel.all_list.filter
        (fun t => decide (t ≠ example_priority_kernel.idle_thread ∧
          ((example_priority_kernel.mem t).status = THREAD_RUNNING ∨
            (example_priority_kernel.mem t).status = THREAD_READY))) ∧
      1 ≤ count_ready_threads example_priority_kernel) ∧
    count_ready_threads example_priority_kernel = 4 ∧
    count_ready_threads example_idle_kernel = 0 :=
  ⟨(count_ready_threads_spec example_priority_kernel).2.1 ⟨by decide, by decide, by decide⟩,
    by decide, by decide⟩

/-- C16 (the code departs from the claim): when the page allocator returns
`NULL`, `thread_create` returns `TID_ERROR` in the unchanged state; but when
process allocation or `initialize_process` fails (USERPROG build) it returns
`TID_ERROR` after `init_thread` and `allocate_tid` have run: the new thread
block stays on the all-threads list as a valid BLOCKED thread and the next
thread id has been consumed. -/
theorem thread_create_error_state (s : Kernel) (page name function : Nat) (p : Int)
    (hfun : function ≠ 0) (hname : name ≠ 0) (hpage : page ≠ 0)
    (hp : s.thread_mlfqs = false → PRI_MIN ≤ p ∧ p ≤ PRI_MAX) :
    thread_create s 0 true name p function = Result.ok (TID_ERROR, s) ∧
    thread_create s 0 false name p function = Result.ok (TID_ERROR, s) ∧
    ∃ s1, thread_create s page false name p function = Result.ok (TID_ERROR, s1) ∧
      s1.all_list = s.all_list ++ [page] ∧ s1.next_tid = s.next_tid + 1 ∧
      is_thread s1 page = true ∧ (s1.mem page).status = THREAD_BLOCKED ∧
      (s1.mem page).tid = s.next_tid ∧
      s1.ready_list = s.ready_list ∧ s1.mlfqs_queue = s.mlfqs_queue ∧ s1.cur = s.cur ∧
      s1.freed = s.freed := by
  have hp2 : PRI_MIN ≤ (if s.thread_mlfqs = true then PRI_MAX else p) ∧
      (if s.thread_mlfqs = true then PRI_MAX else p) ≤ PRI_MAX := by
    by_cases hm : s.thread_mlfqs = true
    · rw [if_pos hm]; decide
    · rw [if_neg hm]; exact hp (by simpa using hm)
  refine ⟨?_, ?_, ?_⟩
  · unfold thread_create
    rw [if_neg hfun, if_pos rfl]
  · unfold thread_create
    rw [if_neg hfun, if_pos rfl]
  · by_cases hm : s.thread_mlfqs = true
    · unfold thread_create init_thread
      simp only []
      rw [if_neg hfun, if_neg hpage, if_neg hpage, if_neg (by simp [hp2.1, hp2.2]),
        if_neg hname]
      refine ⟨_, rfl, ?_, ?_, ?_, ?_, ?_, ?_, ?_, ?_, ?_⟩ <;>
        simp [allocate_tid, Kernel.write, list_push_back, is_thread, hpage, hm]
    · unfold thread_create init_thread
      simp only []
      rw [if_neg hfun, if_neg hpage, if_neg hpage, if_neg (by simp [hp2.1, hp2.2]),
        if_neg hname]
      refine ⟨_, rfl, ?_, ?_, ?_, ?_, ?_, ?_, ?_, ?_, ?_⟩ <;>
        simp [allocate_tid, Kernel.write, list_push_back, is_thread, hpage, hm]

/-- C16 at `example_main_kernel`: a `thread_create` on page 9 whose process
initialisation fails returns `TID_ERROR`, yet page 9 is now on the all-threads
list and the next thread id went from 6 to 7. -/
theorem thread_create_error_state_witness :
    ∃ s1, thread_create example_main_kernel 9 false 7 31 8 = Result.ok (TID_ERROR, s1) ∧
      s1.all_list = [1, 2, 3, 4, 5, 9] ∧ example_main_kernel.all_list = [1, 2, 3, 4, 5] ∧
      s1.next_tid = 7 ∧ example_main_kernel.next_tid = 6 :=
  match (thread_create_error_state example_main_kernel 9 7 8 31 (by decide) (by decide)
    (by decide) (fun _ => by decide)).2.2 with
  | ⟨s1, h, hall, hnext, _⟩ => ⟨s1, h, by rw [hall]; rfl, rfl, by rw [hnext]; rfl, rfl⟩

/-- The function `init_thread` on valid arguments: the thread block is zeroed
and filled in, and the thread is appended to the all-threads list. -/
theorem init_thread_eq (s : Kernel) (t name : Nat) (p : Int) (ht : t ≠ 0) (hn : name ≠ 0)
    (hp : PRI_MIN ≤ p ∧ p ≤ PRI_MAX) :
    init_thread s t name p = Result.ok { s with
      all_list := s.all_list ++ [t]
      mem := (fun q => if q = t then
        { thread.zeroed with
          status := THREAD_BLOCKED, priority := p, magic := THREAD_MAGIC,
          tmp_priority := (if s.thread_mlfqs = true then 0 else p),
          recent_cpu := (if s.thread_mlfqs = true then
            (if s.cur = t then 0 else (s.mem s.cur).recent_cpu) else 0),
          nice := (if s.thread_mlfqs = true then
            (if s.cur = t then 0 else (s.mem s.cur).nice) else 0) }
        else s.mem q) } := by
  unfold init_thread
  rw [if_neg ht, if_neg (by simp [hp.1, hp.2]), if_neg hn]
  by_cases hm : s.thread_mlfqs = true
  · by_cases hc : s.cur = t
    · simp only [Kernel.write, running_thread, hm, hc, if_true, list_push_back]
      congr 2
      funext q
      by_cases hq : q = t <;> simp [hq, thread.zeroed]
    · simp only [Kernel.write, running_thread, hm, hc, if_true, if_false, list_push_back]
      congr 2
      funext q
      by_cases hq : q = t <;> simp [hq, thread.zeroed]
  · simp only [Kernel.write, running_thread, hm, if_false, list_push_back]
    congr 2
    funext q
    by_cases hq : q = t <;> simp [hq, thread.zeroed]

/-- C17 (counterexample): under MLFQS `thread_create` with priority 100
succeeds, the new thread gets priority 63, and `thread_set_priority (100)`
returns without an assertion; under the priority policy
`thread_set_priority (100)` stores 100 as the base priority of the running
thread. -/
theorem invalid_priority_counterexample :
    (∃ s1, thread_create example_mlfqs_kernel 9 true 7 100 8 = Result.ok (6, s1) ∧
      (s1.mem 9).priority = 63) ∧
    thread_set_priority example_mlfqs_kernel 100 = Result.ok example_mlfqs_kernel ∧
    (∃ s1, thread_set_priority example_quiet_kernel 100 = Result.ok s1 ∧
      (s1.mem 1).priority = 100) :=
  ⟨⟨_, rfl, rfl⟩, rfl, ⟨_, rfl, rfl⟩⟩

/-- C17 (amended): for a priority `p` outside `[PRI_MIN, PRI_MAX]`, under the
priority policy `thread_create` with an allocated page stops at the range
assertion of `init_thread` before anything is stored (the kernel stops in the
state of the call); with no page it returns `TID_ERROR`; under MLFQS
`thread_create` ignores `p` (it behaves as with `PRI_MAX`) and
`thread_set_priority` returns without changing anything. -/
theorem invalid_priority_handling (s : Kernel) (page name function : Nat) (b : Bool)
    (p : Int) (hp : p < PRI_MIN ∨ PRI_MAX < p) (hfun : function ≠ 0) (hpage : page ≠ 0) :
    (s.thread_mlfqs = false →
      thread_create s page b name p function = Result.panic s ∧
      thread_create s 0 b name p function = Result.ok (TID_ERROR, s)) ∧
    (s.thread_mlfqs = true →
      thread_create s page b name p function = thread_create s page b name PRI_MAX function ∧
      thread_set_priority s p = Result.ok s) := by
  constructor
  · intro hpol
    constructor
    · unfold thread_create init_thread
      simp only [hpol, Bool.false_eq_true, if_false]
      rw [if_neg hfun, if_neg hpage, if_neg hpage, if_pos (by omega)]
    · unfold thread_create
      rw [if_neg hfun, if_pos rfl]
  · intro hpol
    constructor
    · unfold thread_create
      simp only [hpol, if_true]
    · unfold thread_set_priority
      rw [if_pos hpol]

/-- C17 at concrete kernels: `thread_create` with priority 100 stops the
priority-policy kernel in its initial state, and under MLFQS it is the call
with `PRI_MAX`. -/
theorem invalid_priority_handling_witness :
    (thread_create example_main_kernel 9 true 7 100 8 = Result.panic example_main_kernel ∧
      thread_create example_main_kernel 0 true 7 100 8
        = Result.ok (TID_ERROR, example_main_kernel)) ∧
    (thread_create example_mlfqs_kernel 9 true 7 100 8
        = thread_create example_mlfqs_kernel 9 true 7 PRI_MAX 8 ∧
      thread_set_priority example_mlfqs_kernel 100 = Result.ok example_mlfqs_kernel) :=
  ⟨(invalid_priority_handling example_main_kernel 9 7 8 true 100 (Or.inr (by decide))
      (by decide) (by decide)).1 rfl,
    (invalid_priority_handling example_mlfqs_kernel 9 7 8 true 100 (Or.inr (by decide))
      (by decide) (by decide)).2 rfl⟩

/-- The `k+1`-th call of `allocate_tid` returns `next_tid + k` and leaves
`next_tid + k + 1` as the next id, changing nothing else. -/
theorem allocate_tid_nth_eq (k : Nat) (s : Kernel) :
    allocate_tid_nth k s = (s.next_tid + k, { s with next_tid := s.next_tid + k + 1 }) := by
  induction k generalizing s with
  | zero => simp [allocate_tid_nth, allocate_tid]
  | succ k ih =>
    rw [allocate_tid_nth, ih]
    simp only [allocate_tid, Nat.cast_add, Nat.cast_one]
    refine Prod.ext ?_ ?_
    · show s.next_tid + 1 + (k : Int) = s.next_tid + ((k : Int) + 1)
      ring
    · show ({ s with next_tid := s.next_tid + 1 + (k : Int) + 1 } : Kernel)
        = { s with next_tid := s.next_tid + ((k : Int) + 1) + 1 }
      have e : s.next_tid + 1 + (k : Int) + 1 = s.next_tid + ((k : Int) + 1) + 1 := by ring
      rw [e]

/-- The function `thread_init` on the state the loader leaves: the boot stack
page becomes the initial thread, RUNNING, with id 1, alone on the all-threads
list. -/
theorem thread_init_facts (s : Kernel) (h : s.next_tid = 1) (hcur : s.cur ≠ 0) :
    ∃ s1, thread_init s = Result.ok s1 ∧ s1.initial_thread = s.cur ∧
      (s1.mem s1.initial_thread).tid = 1 ∧ s1.next_tid = 2 ∧
      (s1.mem s1.initial_thread).status = THREAD_RUNNING ∧ s1.all_list = [s.cur] := by
  rcases s with ⟨m, ic, mem, lw, rl, mq, sl, al, idle, ini, cur, la, tt, nt, fr, it, kt, ut, yr⟩
  simp only at h hcur
  subst h
  cases m <;>
    simp [thread_init, init_thread, running_thread, allocate_tid, Kernel.write,
      Kernel.set_status, list_push_back, mlfqs_init, hcur, PRI_MIN, PRI_DEFAULT, PRI_MAX,
      STR_MAIN]

/-- C20: starting from `next_tid = 1` (the initial value of the `static`), the
`k`-th call of `allocate_tid` returns `k` (overflow ignored: ids are unbounded
integers), so every id is at least 1 and two different calls return different
ids; `allocate_tid` changes nothing but `next_tid`; and `thread_init`, which
makes the first call, gives the initial thread the id 1. -/
theorem allocate_tid_spec (s : Kernel) (h : s.next_tid = 1) (hcur : s.cur ≠ 0) :
    (∀ k : Nat, (allocate_tid_nth k s).1 = (k : Int) + 1 ∧
      (allocate_tid_nth k s).2 = { s with next_tid := (k : Int) + 2 }) ∧
    (∀ k : Nat, 1 ≤ (allocate_tid_nth k s).1) ∧
    (∀ j k : Nat, j < k → (allocate_tid_nth j s).1 < (allocate_tid_nth k s).1) ∧
    (∀ j k : Nat, j ≠ k → (allocate_tid_nth j s).1 ≠ (allocate_tid_nth k s).1) ∧
    (∃ s1, thread_init s = Result.ok s1 ∧ s1.initial_thread = s.cur ∧
      (s1.mem s1.initial_thread).tid = 1 ∧ s1.next_tid = 2 ∧
      (s1.mem s1.initial_thread).status = THREAD_RUNNING ∧ s1.all_list = [s.cur]) := by
  have key : ∀ k : Nat, (allocate_tid_nth k s).1 = (k : Int) + 1 := by
    intro k
    rw [allocate_tid_nth_eq, h]
    show (1 : Int) + k = k + 1
    ring
  refine ⟨?_, ?_, ?_, ?_, ?_⟩
  · intro k
    refine ⟨key k, ?_⟩
    rw [allocate_tid_nth_eq, h]
    show ({ s with next_tid := 1 + (k : Int) + 1 } : Kernel) = { s with next_tid := (k : Int) + 2 }
    have e : 1 + (k : Int) + 1 = (k : Int) + 2 := by ring
    rw [e]
  · intro k
    rw [key]
    omega
  · intro j k hjk
    rw [key, key]
    omega
  · intro j k hjk
    rw [key, key]
    omega
  · exact thread_init_facts s h hcur

/-- C20 on the kernel without threads whose boot stack is page 1: the first
three calls of `allocate_tid` return 1, 2, 3, and `thread_init` gives the
initial thread the id 1. -/
theorem allocate_tid_spec_witness :
    ((allocate_tid_nth 0 { Kernel.blank with cur := 1 }).1 = 1 ∧
      (allocate_tid_nth 1 { Kernel.blank with cur := 1 }).1 = 2 ∧
      (allocate_tid_nth 2 { Kernel.blank with cur := 1 }).1 = 3) ∧
    ∃ s1, thread_init { Kernel.blank with cur := 1 } = Result.ok s1 ∧
      s1.initial_thread = 1 ∧ (s1.mem s1.initial_thread).tid = 1 ∧ s1.next_tid = 2 ∧
      (s1.mem s1.initial_thread).status = THREAD_RUNNING ∧ s1.all_list = [1] :=
  ⟨⟨by decide, by decide, by decide⟩,
    (allocate_tid_spec { Kernel.blank with cur := 1 } rfl (by decide)).2.2.2.2⟩

/-- The function `thread_create` on valid arguments, both policies: the thread
is initialised (with `PRI_MAX` under MLFQS), gets the next id, and is handed
to `thread_unblock` and then `thread_preempt`; when the process
initialisation fails the call returns right after the initialisation. -/
theorem thread_create_unfold (s : Kernel) (page name function : Nat) (b : Bool) (p : Int)
    (hfun : function ≠ 0) (hname : name ≠ 0) (hpage : page ≠ 0)
    (hp : s.thread_mlfqs = false → PRI_MIN ≤ p ∧ p ≤ PRI_MAX) :
    thread_create s page b name p function
      = if b = false then
          Result.ok (TID_ERROR,
            created_state s page (if s.thread_mlfqs = true then PRI_MAX else p))
        else
          Result.bind
            (thread_unblock
              (created_state s page (if s.thread_mlfqs = true then PRI_MAX else p)) page)
            (fun s4 => Result.bind (thread_preempt s4)
              (fun s5 => Result.ok (s.next_tid, s5))) := by
  have hp2 : PRI_MIN ≤ (if s.thread_mlfqs = true then PRI_MAX else p) ∧
      (if s.thread_mlfqs = true then PRI_MAX else p) ≤ PRI_MAX := by
    by_cases hm : s.thread_mlfqs = true
    · rw [if_pos hm]; decide
    · rw [if_neg hm]; exact hp (by simpa using hm)
  have hi := init_thread_eq s page name _ hpage hname hp2
  generalize hS : ({ s with
      all_list := s.all_list ++ [page]
      mem := (fun q => if q = page then
        { thread.zeroed with
          status := THREAD_BLOCKED, priority := (if s.thread_mlfqs = true then PRI_MAX else p),
          magic := THREAD_MAGIC,
          tmp_priority := (if s.thread_mlfqs = true then 0
            else (if s.thread_mlfqs = true then PRI_MAX else p)),
          recent_cpu := (if s.thread_mlfqs = true then
            (if s.cur = page then 0 else (s.mem s.cur).recent_cpu) else 0),
          nice := (if s.thread_mlfqs = true then
            (if s.cur = page then 0 else (s.mem s.cur).nice) else 0) }
        else s.mem q) } : Kernel) = S at hi
  have hs : (allocate_tid S).2.write page
      { (allocate_tid S).2.mem page with tid := (allocate_tid S).1 }
      = created_state s page (if s.thread_mlfqs = true then PRI_MAX else p) := by
    subst hS
    unfold created_state allocate_tid Kernel.write
    simp only []
    congr 1
    funext q
    by_cases hq : q = page
    · by_cases hm : s.thread_mlfqs = true <;> simp [hq, hm]
    · simp [hq]
  have ht : (allocate_tid S).1 = s.next_tid := by
    subst hS
    rfl
  unfold thread_create
  simp only []
  rw [if_neg hfun, if_neg hpage, hi]
  simp only []
  rw [hs, ht]
  cases b
  · rfl
  · simp only [Bool.not_true, Bool.false_eq_true, Bool.true_eq_false, if_false]
    cases thread_unblock
      (created_state s page (if s.thread_mlfqs = true then PRI_MAX else p)) page with
    | panic k => rfl
    | ok s4 =>
      dsimp only [Result.bind]
      cases thread_preempt s4 <;> rfl

/-- C11 (counterexample): under MLFQS the running thread of
`example_nice_kernel` (`nice` 5, `recent_cpu` 0) creates a thread on page 9.
The new thread inherits `nice` 5 and `recent_cpu` 0, for which the formula
gives priority 53, but it has priority 63 and waits in queue 63; queue 53 is
empty. -/
theorem thread_create_mlfqs_counterexample :
    ∃ s1, thread_create example_nice_kernel 9 true 7 20 8 = Result.ok (6, s1) ∧
      (s1.mem 9).status = THREAD_READY ∧ (s1.mem 9).nice = 5 ∧ (s1.mem 9).recent_cpu = 0 ∧
      spec_mlfqs_priority (s1.mem 9).recent_cpu (s1.mem 9).nice = 53 ∧
      (s1.mem 9).priority = 63 ∧ s1.mlfqs_queue 63 = [9] ∧ s1.mlfqs_queue 53 = [] :=
  ⟨_, rfl, rfl, rfl, rfl, by decide, rfl, rfl, rfl⟩

/-- C11 (amended): under MLFQS `thread_create` ignores the priority argument:
the new thread gets priority `PRI_MAX` and the `recent_cpu` and `nice` of its
creator, and `thread_unblock` appends it at the tail of queue 63, READY, before
`thread_preempt` is called; its priority is not recomputed from the inherited
values. -/
theorem thread_create_mlfqs_spec (s : Kernel) (page name function : Nat) (p : Int)
    (hpol : s.thread_mlfqs = true) (hfun : function ≠ 0) (hname : name ≠ 0)
    (hpage : page ≠ 0) (hcur : s.cur ≠ page) :
    thread_create s page true name p function
      = thread_create s page true name PRI_MAX function ∧
    ∃ s4, thread_create s page true name p function
        = Result.bind (thread_preempt s4) (fun s5 => Result.ok (s.next_tid, s5)) ∧
      s4.mlfqs_queue
        = (fun j => if j = 63 then s.mlfqs_queue 63 ++ [page] else s.mlfqs_queue j) ∧
      (s4.mem page).priority = PRI_MAX ∧ (s4.mem page).status = THREAD_READY ∧
      (s4.mem page).nice = (s.mem s.cur).nice ∧
      (s4.mem page).recent_cpu = (s.mem s.cur).recent_cpu ∧
      ∀ q, q ≠ page → s4.mem q = s.mem q := by
  constructor
  · unfold thread_create
    simp only [hpol, if_true]
  · have hu := thread_create_unfold s page name function true p hfun hname hpage
      (fun h => absurd hpol (by simp [h]))
    rw [if_neg (by decide), if_pos hpol] at hu
    have hunb := thread_unblock_mlfqs_ok (created_state s page PRI_MAX) page hpol
      (by simp [is_thread, created_state, hpage])
      (by simp [created_state])
      (by simp [created_state, PRI_MIN, PRI_MAX])
    rw [hunb] at hu
    refine ⟨_, hu, ?_, ?_, ?_, ?_, ?_, ?_⟩
    · funext j
      by_cases hj : j = 63
      · subst hj
        simp [created_state, Kernel.set_status, Kernel.write, PRI_MAX]
      · simp [created_state, Kernel.set_status, Kernel.write, PRI_MAX, hj]
    · simp [created_state, Kernel.set_status, Kernel.write]
    · simp [created_state, Kernel.set_status, Kernel.write]
    · simp [created_state, Kernel.set_status, Kernel.write, hpol, hcur]
    · simp [created_state, Kernel.set_status, Kernel.write, hpol, hcur]
    · intro q hq
      simp [created_state, Kernel.set_status, Kernel.write, hq]

/-- C11 at `example_nice_kernel`: whatever priority is asked for, the thread
created on page 9 is queued at the tail of queue 63 with priority 63, `nice`
5 and `recent_cpu` 0. -/
theorem thread_create_mlfqs_spec_witness :
    thread_create example_nice_kernel 9 true 7 20 8
      = thread_create example_nice_kernel 9 true 7 PRI_MAX 8 ∧
    ∃ s4, thread_create example_nice_kernel 9 true 7 20 8
        = Result.bind (thread_preempt s4) (fun s5 => Result.ok (6, s5)) ∧
      s4.mlfqs_queue 63 = [9] ∧ (s4.mem 9).priority = 63 ∧ (s4.mem 9).nice = 5 :=
  match thread_create_mlfqs_spec example_nice_kernel 9 7 8 20 rfl (by decide) (by decide)
    (by decide) (by decide) with
  | ⟨h1, s4, h, hq, hp, _, hn, _⟩ =>
    ⟨h1, s4, h, by rw [hq]; rfl, by rw [hp]; rfl, by rw [hn]; rfl⟩

/-- Erasing a node from a list that does not hold it changes nothing, and
erasing it from a list that holds it once unlinks it. -/
theorem erase_split (A B : List Nat) (t : Nat) (hA : t ∉ A) :
    (A ++ t :: B).erase t = A ++ B := by
  induction A with
  | nil => simp
  | cons a A ih =>
    have hne : a ≠ t := fun h => hA (by simp [h])
    have hA2 : t ∉ A := fun h => hA (List.mem_cons_of_mem _ h)
    simp [List.erase_cons_tail, hne, ih hA2]

/-- The function `mlfqs_switch_queue` on a valid thread and a priority in
range, as an explicit result. -/
theorem mlfqs_switch_queue_eq (s : Kernel) (t : Nat) (q : Int) (ht : is_thread s t = true)
    (hq : PRI_MIN ≤ q ∧ q ≤ PRI_MAX) :
    mlfqs_switch_queue s t q
      = if q = (s.mem t).priority then Result.ok s
        else if (s.mem t).status = THREAD_READY then
          Result.ok { list_remove_elem (s.write t { s.mem t with priority := q }) t with
            mlfqs_queue := (fun j =>
              if j = q.toNat then (s.mlfqs_queue j).erase t ++ [t]
              else (s.mlfqs_queue j).erase t) }
        else Result.ok (s.write t { s.mem t with priority := q }) := by
  unfold mlfqs_switch_queue
  by_cases hsame : q = (s.mem t).priority
  · rw [if_pos hsame, if_pos hsame]
  · rw [if_neg hsame, if_neg hsame]
    by_cases hst : (s.mem t).status = THREAD_READY
    · have hins := mlfqs_insert_ok
        (list_remove_elem (s.write t { s.mem t with priority := q }) t) t
        (by simpa [is_thread, list_remove_elem, Kernel.write] using ht)
        (by simp [list_remove_elem, Kernel.write, hq.1, hq.2])
      rw [if_pos hst]
      simp only []
      rw [if_pos (by simp [Kernel.write, hst]), hins]
      congr 2
      funext j
      simp [list_remove_elem, Kernel.write, list_remove, list_push_back]
    · rw [if_neg hst]
      simp only []
      rw [if_neg (by simp [Kernel.write, hst])]

/-- C22: for a valid thread `t` and a priority `q` in `[PRI_MIN, PRI_MAX]`
(which `mlfqs_insert` asserts), `mlfqs_switch_queue (t, q)` changes nothing when
`q` is `t`'s priority; otherwise `t`'s priority becomes `q`, no other thread
block changes, and if `t` is not READY no queue changes, while if `t` is READY
and linked once, in queue `i`, it is unlinked from queue `i` and appended at
the tail of queue `q`, every queue keeping the order of its other threads. -/
theorem mlfqs_switch_queue_spec (s : Kernel) (t : Nat) (q : Int) (ht : is_thread s t = true)
    (hq : PRI_MIN ≤ q ∧ q ≤ PRI_MAX) :
    (q = (s.mem t).priority → mlfqs_switch_queue s t q = Result.ok s) ∧
    (q ≠ (s.mem t).priority →
      ∃ s1, mlfqs_switch_queue s t q = Result.ok s1 ∧
        s1.mem t = { s.mem t with priority := q } ∧ (∀ u, u ≠ t → s1.mem u = s.mem u) ∧
        s1.all_list = s.all_list ∧ s1.cur = s.cur ∧
        ((s.mem t).status ≠ THREAD_READY →
          s1.mlfqs_queue = s.mlfqs_queue ∧ s1.ready_list = s.ready_list) ∧
        ((s.mem t).status = THREAD_READY →
          ∀ (i : Nat) (A B : List Nat), s.mlfqs_queue i = A ++ t :: B → t ∉ A → t ∉ B →
            (∀ j, j ≠ i → t ∉ s.mlfqs_queue j) →
            s1.mlfqs_queue = (fun j =>
              (if j = i then A ++ B else s.mlfqs_queue j)
                ++ (if j = q.toNat then [t] else [])))) := by
  have he := mlfqs_switch_queue_eq s t q ht hq
  constructor
  · intro hsame
    rw [he, if_pos hsame]
  · intro hsame
    rw [if_neg hsame] at he
    by_cases hst : (s.mem t).status = THREAD_READY
    · rw [if_pos hst] at he
      refine ⟨_, he, ?_, ?_, rfl, rfl, fun h => absurd hst h, ?_⟩
      · simp [list_remove_elem, Kernel.write]
      · intro u hu
        simp [list_remove_elem, Kernel.write, hu]
      · intro _ i A B hi hA hB hoth
        funext j
        have hj : (s.mlfqs_queue j).erase t = if j = i then A ++ B else s.mlfqs_queue j := by
          by_cases hji : j = i
          · rw [if_pos hji, hji, hi]
            exact erase_split A B t hA
          · rw [if_neg hji]
            exact List.erase_of_not_mem (hoth j hji)
        show (if j = q.toNat then (s.mlfqs_queue j).erase t ++ [t]
          else (s.mlfqs_queue j).erase t) = _
        rw [hj]
        by_cases hjq : j = q.toNat
        · rw [if_pos hjq, if_pos hjq]
        · rw [if_neg hjq, if_neg hjq, List.append_nil]
    · rw [if_neg hst] at he
      refine ⟨_, he, ?_, ?_, rfl, rfl, fun _ => ⟨rfl, rfl⟩, fun h => absurd h hst⟩
      · simp [Kernel.write]
      · intro u hu
        simp [Kernel.write, hu]

/-- C22 at `example_mlfqs_kernel` (queue 40 holds 4, 5; queue 31 holds 3):
moving the READY thread 4 to priority 31 leaves queue 40 with thread 5 and
appends 4 behind thread 3 in queue 31; asking for its own priority 40 changes
nothing. -/
theorem mlfqs_switch_queue_spec_witness :
    mlfqs_switch_queue example_mlfqs_kernel 4 40 = Result.ok example_mlfqs_kernel ∧
    ∃ s1, mlfqs_switch_queue example_mlfqs_kernel 4 31 = Result.ok s1 ∧
      (s1.mem 4).priority = 31 ∧ s1.mlfqs_queue 40 = [5] ∧ s1.mlfqs_queue 31 = [3, 4] :=
  ⟨(mlfqs_switch_queue_spec example_mlfqs_kernel 4 40 (by decide) (by decide)).1 (by decide),
    match (mlfqs_switch_queue_spec example_mlfqs_kernel 4 31 (by decide) (by decide)).2
      (by decide) with
    | ⟨s1, h, hm, _, _, _, _, hr⟩ =>
      ⟨s1, h, by rw [hm],
        by
          rw [hr (by decide) 40 [] [5] rfl (by simp) (by simp)
            (fun j hj => by
              by_cases h31 : j = 31
              · subst h31; decide
              · simp [example_mlfqs_kernel, hj, h31])]
          rfl,
        by
          rw [hr (by decide) 40 [] [5] rfl (by simp) (by simp)
            (fun j hj => by
              by_cases h31 : j = 31
              · subst h31; decide
              · simp [example_mlfqs_kernel, hj, h31])]
          rfl⟩⟩

theorem dir_scan_eq (str : List Char) (hnul : NUL ∉ str) (hlen : str.length < 4294967296) :
    ∀ (fuel c l : Nat), c ≤ str.length → str.length - c < fuel →
      dir_scan (str ++ [NUL]) fuel l c
        = some (last_slash_from (str.drop c) l c, str.length) := by
  intro fuel
  induction fuel with
  | zero => intro c l _ h; omega
  | succ fuel ih =>
    intro c l hc hf
    rcases Nat.lt_or_eq_of_le hc with hlt | heq
    · have hget : char_at (str ++ [NUL]) c = str.get ⟨c, hlt⟩ := by
        unfold char_at
        rw [List.getD_eq_getElem?_getD, List.getElem?_append_left hlt,
          List.getElem?_eq_getElem hlt]
        rfl
      have hne : char_at (str ++ [NUL]) c ≠ NUL := by
        rw [hget]
        intro h
        exact hnul (h ▸ List.get_mem str c hlt)
      have hdrop : str.drop c = str.get ⟨c, hlt⟩ :: str.drop (c + 1) := by
        exact List.drop_eq_getElem_cons hlt
      unfold dir_scan
      rw [if_pos hne, Nat.mod_eq_of_lt (by omega), ih (c + 1) _ hlt (by omega), hdrop, hget]
      rfl
    · have hget : char_at (str ++ [NUL]) c = NUL := by
        unfold char_at
        rw [heq, List.getD_eq_getElem?_getD]
        simp
      unfold dir_scan
      rw [if_neg (by simp [hget]), heq, List.drop_length]
      rfl

theorem last_slash_from_spec (r : List Char) :
    ∀ l c : Nat, ('/' ∉ r ∧ last_slash_from r l c = l) ∨
      ∃ A B, r = A ++ '/' :: B ∧ '/' ∉ B ∧ last_slash_from r l c = c + A.length := by
  induction r with
  | nil => intro l c; left; exact ⟨List.not_mem_nil _, rfl⟩
  | cons ch rest ih =>
    intro l c
    rcases ih (if ch = '/' then c else l) (c + 1) with ⟨hno, he⟩ | ⟨A, B, hr, hB, he⟩
    · by_cases hch : ch = '/'
      · right
        refine ⟨[], rest, by simp [hch], hno, ?_⟩
        rw [last_slash_from, he, if_pos hch]
        rfl
      · left
        refine ⟨?_, ?_⟩
        · intro hm
          rcases List.mem_cons.mp hm with h | h
          · exact hch h.symm
          · exact hno h
        · rw [last_slash_from, he, if_neg hch]
    · right
      refine ⟨ch :: A, B, by simp [hr], hB, ?_⟩
      rw [last_slash_from, he]
      simp only [List.length_cons]
      omega

theorem takeWhile_until_nul (X Y : List Char) (h : NUL ∉ X) :
    (X ++ NUL :: Y).takeWhile (fun c => decide (c ≠ NUL)) = X := by
  induction X with
  | nil => simp
  | cons x X ih =>
    have hx : x ≠ NUL := fun e => h (by simp [e])
    have hX : NUL ∉ X := fun e => h (List.mem_cons_of_mem _ e)
    simpa [List.takeWhile_cons, hx] using ih hX

theorem c_string_at (P X Y : List Char) (h : NUL ∉ X) :
    c_string (P ++ (X ++ NUL :: Y)) P.length = X := by
  unfold c_string
  rw [List.drop_left]
  exact takeWhile_until_nul X Y h

/-- The function `dir_path_and_leaf` on the buffer of a C string `str`
(shorter than `2^32`), by the position of the last `'/'`: none at all, only at
the front, or behind a non-empty part `A`. -/
theorem dir_path_and_leaf_cases (str : List Char) (fuel : Nat) (hnul : NUL ∉ str)
    (hlen : str.length < 4294967296) (hfuel : str.length < fuel) :
    ∃ r, dir_path_and_leaf fuel (str ++ [NUL]) = some r ∧
      (('/' ∉ str ∧ r.is_relative = 1 ∧ r.path = none ∧ r.buffer = str ++ [NUL] ∧
          r.leaf = if str = [] then none else some 0) ∨
        (∃ B, str = '/' :: B ∧ '/' ∉ B ∧ r.is_relative = 0 ∧ r.path = none ∧
          r.buffer = str ++ [NUL] ∧ r.leaf = some (if B = [] then 0 else 1)) ∨
        (∃ A B, A ≠ [] ∧ str = A ++ '/' :: B ∧ '/' ∉ B ∧
          r.is_relative = (if A.head? = some '/' then 0 else 1) ∧ r.path = some 0 ∧
          r.buffer = A ++ (NUL :: (B ++ [NUL])) ∧
          r.leaf = if B = [] then none else some (A.length + 1))) := by
  have hscan := dir_scan_eq str hnul hlen fuel 0 0 (Nat.zero_le _) (by omega)
  rw [List.drop_zero] at hscan
  have hslash : ('/' : Char) ≠ NUL := by decide
  rcases last_slash_from_spec str 0 0 with ⟨hno, he⟩ | ⟨A, B, hs, hB, he⟩
  · rw [he] at hscan
    have h0 : char_at (str ++ [NUL]) 0 ≠ '/' := by
      cases str with
      | nil => decide
      | cons x X =>
        intro h
        apply hno
        have : x = '/' := h
        simp [this]
    unfold dir_path_and_leaf
    rw [hscan]
    simp only [if_neg h0, if_true]
    by_cases hemp : str = []
    · subst hemp
      exact ⟨_, rfl, Or.inl ⟨hno, rfl, rfl, rfl, rfl⟩⟩
    · have hn0 : char_at (str ++ [NUL]) 0 ≠ NUL := by
        cases str with
        | nil => exact absurd rfl hemp
        | cons x X =>
          intro h
          apply hnul
          have : x = NUL := h
          simp [this]
      rw [if_neg hn0]
      exact ⟨_, rfl, Or.inl ⟨hno, rfl, rfl, rfl, by rw [if_neg hemp]⟩⟩
  · have hnA : NUL ∉ A := fun h => hnul (by rw [hs]; simp [h])
    have hnB : NUL ∉ B := fun h => hnul (by rw [hs]; simp [h])
    rw [he, Nat.zero_add] at hscan
    by_cases hA : A = []
    · subst hA
      simp only [List.nil_append] at hs
      subst hs
      have h0 : char_at ('/' :: B ++ [NUL]) 0 = '/' := rfl
      unfold dir_path_and_leaf
      rw [hscan]
      simp only [if_pos h0, List.length_nil, if_true]
      by_cases hBe : B = []
      · subst hBe
        exact ⟨_, rfl, Or.inr (Or.inl ⟨[], rfl, hB, rfl, rfl, rfl, rfl⟩)⟩
      · have hlen1 : ('/' :: B).length ≠ 1 := by
          cases B with
          | nil => exact absurd rfl hBe
          | cons b B => simp
        rw [if_neg hlen1]
        have hn1 : char_at ('/' :: B ++ [NUL]) 1 ≠ NUL := by
          cases B with
          | nil => exact absurd rfl hBe
          | cons b B =>
            intro h
            apply hnB
            have : b = NUL := h
            simp [this]
        simp only []
        rw [if_neg hn1]
        exact ⟨_, rfl, Or.inr (Or.inl ⟨B, rfl, hB, rfl, rfl, rfl, by rw [if_neg hBe]⟩)⟩
    · have hpos : A.length ≠ 0 := fun h => hA (List.length_eq_zero.mp h)
      have hset : (str ++ [NUL]).set A.length NUL = A ++ (NUL :: (B ++ [NUL])) := by
        rw [hs]
        simp [List.set_append]
      have hleafc : char_at (A ++ (NUL :: (B ++ [NUL]))) (A.length + 1)
          = char_at (B ++ [NUL]) 0 := by
        unfold char_at
        rw [List.getD_eq_getElem?_getD, List.getD_eq_getElem?_getD,
          List.getElem?_append_right (by omega)]
        have e : A.length + 1 - A.length = 1 := by omega
        rw [e, List.getElem?_cons_succ]
      have hhead : (char_at (str ++ [NUL]) 0 = '/') ↔ A.head? = some '/' := by
        rw [hs]
        cases A with
        | nil => exact absurd rfl hA
        | cons a A =>
          show a = '/' ↔ _
          simp
      unfold dir_path_and_leaf
      rw [hscan]
      simp only [if_neg hpos, hset]
      by_cases hh : char_at (str ++ [NUL]) 0 = '/'
      · simp only [if_pos hh, hleafc]
        by_cases hBe : B = []
        · subst hBe
          rw [if_pos (show char_at (([] : List Char) ++ [NUL]) 0 = NUL from rfl)]
          exact ⟨_, rfl, Or.inr (Or.inr ⟨A, [], hA, hs, hB,
            by rw [if_pos (hhead.mp hh)], rfl, rfl, rfl⟩)⟩
        · have hn1 : char_at (B ++ [NUL]) 0 ≠ NUL := by
            cases B with
            | nil => exact absurd rfl hBe
            | cons b B =>
              intro h
              apply hnB
              have : b = NUL := h
              simp [this]
          rw [if_neg hn1]
          exact ⟨_, rfl, Or.inr (Or.inr ⟨A, B, hA, hs, hB,
            by rw [if_pos (hhead.mp hh)], rfl, rfl, by rw [if_neg hBe]⟩)⟩
      · simp only [if_neg hh, hleafc]
        by_cases hBe : B = []
        · subst hBe
          rw [if_pos (show char_at (([] : List Char) ++ [NUL]) 0 = NUL from rfl)]
          exact ⟨_, rfl, Or.inr (Or.inr ⟨A, [], hA, hs, hB,
            by rw [if_neg (fun h => hh (hhead.mpr h))], rfl, rfl, rfl⟩)⟩
        · have hn1 : char_at (B ++ [NUL]) 0 ≠ NUL := by
            cases B with
            | nil => exact absurd rfl hBe
            | cons b B =>
              intro h
              apply hnB
              have : b = NUL := h
              simp [this]
          rw [if_neg hn1]
          exact ⟨_, rfl, Or.inr (Or.inr ⟨A, B, hA, hs, hB,
            by rw [if_neg (fun h => hh (hhead.mpr h))], rfl, rfl, by rw [if_neg hBe]⟩)⟩


/-- The C string at the front of a buffer. -/
theorem c_string_zero (X Y : List Char) (h : NUL ∉ X) : c_string (X ++ NUL :: Y) 0 = X :=
  c_string_at [] X Y h

/-- The C string behind the `'\0'` that was written over the last `'/'`. -/
theorem c_string_after (A B : List Char) (h : NUL ∉ B) :
    c_string (A ++ (NUL :: (B ++ [NUL]))) (A.length + 1) = B := by
  have e : A ++ (NUL :: (B ++ [NUL])) = (A ++ [NUL]) ++ (B ++ NUL :: []) := by simp
  have l : A.length + 1 = (A ++ [NUL]).length := by simp
  rw [e, l]
  exact c_string_at (A ++ [NUL]) B [] h

/-- C24: for the buffer of a C string `str` (shorter than `2^32`, so that the
`uint32_t` counters do not wrap) `dir_path_and_leaf` returns, and it splits
`str` at its last `'/'`: when `str` has a `'/'` at an index greater than 0 the
path is set and `str` is path, `'/'`, leaf (a `NULL` leaf read as the empty
string), the leaf containing no `'/'`; otherwise the path is `NULL` and the
leaf is `str` without its leading `'/'` (all of `str` when it is relative),
except for `"/"` whose leaf is `"/"` itself. -/
theorem dir_path_and_leaf_split (str : List Char) (fuel : Nat) (hnul : NUL ∉ str)
    (hlen : str.length < 4294967296) (hfuel : str.length < fuel) :
    ∃ r, dir_path_and_leaf fuel (str ++ [NUL]) = some r ∧
      ('/' ∈ str.tail →
        r.path = some 0 ∧ str = path_string r ++ '/' :: leaf_string r ∧
        '/' ∉ leaf_string r) ∧
      ('/' ∉ str.tail →
        r.path = none ∧
        leaf_string r
          = if str = ['/'] then ['/'] else if str.head? = some '/' then str.tail else str) := by
  obtain ⟨r, hr, hcases⟩ := dir_path_and_leaf_cases str fuel hnul hlen hfuel
  refine ⟨r, hr, ?_, ?_⟩
  · intro hin
    rcases hcases with ⟨hno, _⟩ | ⟨B, hs, hB, _⟩ | ⟨A, B, hA, hs, hB, _, hp, hb, hl⟩
    · exact absurd (List.mem_of_mem_tail hin) hno
    · rw [hs] at hin
      exact absurd hin hB
    · have hnA : NUL ∉ A := fun h => hnul (by rw [hs]; simp [h])
      have hnB : NUL ∉ B := fun h => hnul (by rw [hs]; simp [h])
      have hps : path_string r = A := by
        unfold path_string
        rw [hp]
        simp only []
        rw [hb]
        exact c_string_zero A _ hnA
      have hls : leaf_string r = B := by
        unfold leaf_string
        rw [hl]
        by_cases hBe : B = []
        · rw [if_pos hBe, hBe]
        · rw [if_neg hBe]
          simp only []
          rw [hb]
          exact c_string_after A B hnB
      rw [hps, hls]
      exact ⟨hp, hs, hB⟩
  · intro hnot
    rcases hcases with ⟨hno, _, hp, hb, hl⟩ | ⟨B, hs, hB, _, hp, hb, hl⟩ |
      ⟨A, B, hA, hs, hB, _⟩
    · refine ⟨hp, ?_⟩
      have h1 : str ≠ ['/'] := fun h => hno (by rw [h]; simp)
      have h2 : str.head? ≠ some '/' := by
        intro h
        exact hno (List.mem_of_mem_head? h)
      rw [if_neg h1, if_neg h2]
      unfold leaf_string
      rw [hl]
      by_cases hemp : str = []
      · rw [if_pos hemp, hemp]
      · rw [if_neg hemp]
        simp only []
        rw [hb]
        exact c_string_zero str [] hnul
    · refine ⟨hp, ?_⟩
      have hnB : NUL ∉ B := fun h => hnul (by rw [hs]; simp [h])
      unfold leaf_string
      rw [hl]
      simp only []
      rw [hb]
      by_cases hBe : B = []
      · subst hBe
        subst hs
        rfl
      · have h1 : str ≠ ['/'] := by
          rw [hs]
          intro h
          exact hBe (List.cons.inj h).2
        have h2 : str.head? = some '/' := by rw [hs]; rfl
        rw [if_neg h1, if_pos h2, if_neg hBe, hs]
        exact c_string_at ['/'] B [] hnB
    · exfalso
      apply hnot
      rw [hs]
      cases A with
      | nil => exact absurd rfl hA
      | cons a A => simp

/-- C24 on the inputs of the test program: `"/root/stuff/leaf"` splits into
`"/root/stuff"` and `"leaf"`, `"helloWorld/relative/leaf"` into
`"helloWorld/relative"` and `"leaf"`, and `"leaf"` has no path. -/
theorem dir_path_and_leaf_split_witness :
    (∃ r, dir_path_and_leaf 17 ("/root/stuff/leaf".toList ++ [NUL]) = some r ∧
      r.path = some 0 ∧
      "/root/stuff/leaf".toList = path_string r ++ '/' :: leaf_string r ∧
      '/' ∉ leaf_string r) ∧
    (∃ r, dir_path_and_leaf 5 ("leaf".toList ++ [NUL]) = some r ∧
      r.path = none ∧ leaf_string r = "leaf".toList) :=
  ⟨match dir_path_and_leaf_split "/root/stuff/leaf".toList 17 (by decide) (by decide)
      (by decide) with
    | ⟨r, h, h1, _⟩ => ⟨r, h, h1 (by decide)⟩,
    match dir_path_and_leaf_split "leaf".toList 5 (by decide) (by decide) (by decide) with
    | ⟨r, h, _, h2⟩ => ⟨r, h, h2 (by decide)⟩⟩

theorem dir_path_and_leaf_examples :
    dir_path_and_leaf 30 ("helloWorld/relative/leaf".toList ++ [NUL])
      = some { buffer := "helloWorld/relative".toList ++ NUL :: ("leaf".toList ++ [NUL]),
               path := some 0, leaf := some 20, is_relative := 1 } ∧
    dir_path_and_leaf 30 ("///////leaf".toList ++ [NUL])
      = some { buffer := "//////".toList ++ NUL :: ("leaf".toList ++ [NUL]),
               path := some 0, leaf := some 7, is_relative := 0 } ∧
    dir_path_and_leaf 30 ("/root/stuff/".toList ++ [NUL])
      = some { buffer := "/root/stuff".toList ++ [NUL, NUL],
               path := some 0, leaf := none, is_relative := 0 } ∧
    dir_path_and_leaf 30 ("rel/stuff/".toList ++ [NUL])
      = some { buffer := "rel/stuff".toList ++ [NUL, NUL],
               path := some 0, leaf := none, is_relative := 1 } ∧
    dir_path_and_leaf 30 ("//grow.p".toList ++ [NUL])
      = some { buffer := "/".toList ++ NUL :: ("grow.p".toList ++ [NUL]),
               path := some 0, leaf := some 2, is_relative := 0 } ∧
    dir_path_and_leaf 30 ("/".toList ++ [NUL])
      = some { buffer := "/".toList ++ [NUL], path := none, leaf := some 0,
               is_relative := 0 } ∧
    dir_path_and_leaf 30 [NUL]
      = some { buffer := [NUL], path := none, leaf := none, is_relative := 1 } := by
  refine ⟨?_, ?_, ?_, ?_, ?_, ?_, ?_⟩ <;> decide

/-- C25: for the buffer of a C string `str` (shorter than `2^32`)
`dir_path_and_leaf` returns; the leaf is `NULL` exactly when `str` is empty or
is longer than one character and ends with `'/'`, and otherwise it is a
non-empty string; the return value is 1 exactly when `str` does not begin with
`'/'` (the empty string included) and 0 otherwise. -/
theorem dir_path_and_leaf_leaf (str : List Char) (fuel : Nat) (hnul : NUL ∉ str)
    (hlen : str.length < 4294967296) (hfuel : str.length < fuel) :
    ∃ r, dir_path_and_leaf fuel (str ++ [NUL]) = some r ∧
      (r.leaf = none ↔ (str = [] ∨ (1 < str.length ∧ str.getLast? = some '/'))) ∧
      (r.leaf ≠ none → leaf_string r ≠ []) ∧
      (r.is_relative = 1 ↔ str.head? ≠ some '/') ∧
      (r.is_relative = 0 ↔ str.head? = some '/') := by
  obtain ⟨r, hr, hcases⟩ := dir_path_and_leaf_cases str fuel hnul hlen hfuel
  have hlast : ∀ (X B : List Char), B ≠ [] → '/' ∉ B → (X ++ B).getLast? ≠ some '/' := by
    intro X B hB hno h
    rw [List.getLast?_append_of_ne_nil X hB] at h
    exact hno (List.mem_of_getLast?_eq_some h)
  refine ⟨r, hr, ?_⟩
  rcases hcases with ⟨hno, hrel, hp, hb, hl⟩ | ⟨B, hs, hB, hrel, hp, hb, hl⟩ |
    ⟨A, B, hA, hs, hB, hrel, hp, hb, hl⟩
  · have h2 : str.head? ≠ some '/' := fun h => hno (List.mem_of_mem_head? h)
    refine ⟨?_, ?_, ?_, ?_⟩
    · rw [hl]
      by_cases hemp : str = []
      · simp [hemp]
      · rw [if_neg hemp]
        constructor
        · intro h; exact absurd h (by simp)
        · rintro (h | ⟨_, h⟩)
          · exact absurd h hemp
          · exact absurd h (by simpa using hlast [] str hemp hno)
    · intro hne
      have hemp : str ≠ [] := by
        intro h
        rw [hl, if_pos h] at hne
        exact hne rfl
      unfold leaf_string
      rw [hl, if_neg hemp]
      simp only []
      rw [hb, c_string_zero str [] hnul]
      exact hemp
    · rw [hrel]; simp [h2]
    · rw [hrel]; simp [h2]
  · have hnB : NUL ∉ B := fun h => hnul (by rw [hs]; simp [h])
    have h2 : str.head? = some '/' := by rw [hs]; rfl
    refine ⟨?_, ?_, ?_, ?_⟩
    · rw [hl]
      constructor
      · intro h; exact absurd h (by simp)
      · rintro (h | ⟨h1, h⟩)
        · rw [hs] at h; exact absurd h (by simp)
        · exfalso
          by_cases hBe : B = []
          · rw [hs, hBe] at h1
            simp at h1
          · rw [hs] at h
            exact hlast ['/'] B hBe hB h
    · intro _
      unfold leaf_string
      rw [hl]
      simp only []
      rw [hb]
      by_cases hBe : B = []
      · subst hBe
        subst hs
        decide
      · rw [if_neg hBe, hs]
        rw [show ('/' :: B ++ [NUL]) = ['/'] ++ (B ++ NUL :: []) from by simp]
        rw [show (1 : Nat) = (['/'] : List Char).length from rfl, c_string_at ['/'] B [] hnB]
        exact hBe
    · rw [hrel]; simp [h2]
    · rw [hrel]; simp [h2]
  · have hnB : NUL ∉ B := fun h => hnul (by rw [hs]; simp [h])
    have hhead : str.head? = A.head? := by
      rw [hs]
      cases A with
      | nil => exact absurd rfl hA
      | cons a A => rfl
    refine ⟨?_, ?_, ?_, ?_⟩
    · rw [hl]
      by_cases hBe : B = []
      · rw [if_pos hBe]
        constructor
        · intro _
          right
          subst hBe
          rw [hs]
          have hl2 : 0 < A.length := List.length_pos.mpr hA
          refine ⟨by simp; omega, by simp⟩
        · intro _; rfl
      · rw [if_neg hBe]
        constructor
        · intro h; exact absurd h (by simp)
        · rintro (h | ⟨_, h⟩)
          · rw [hs] at h; exact absurd h (by simp)
          · exfalso
            rw [hs, show A ++ '/' :: B = (A ++ ['/']) ++ B from by simp] at h
            exact hlast _ B hBe hB h
    · intro hne
      have hBe : B ≠ [] := by
        intro h
        rw [hl, if_pos h] at hne
        exact hne rfl
      unfold leaf_string
      rw [hl, if_neg hBe]
      simp only []
      rw [hb, c_string_after A B hnB]
      exact hBe
    · rw [hrel, hhead]
      by_cases hh : A.head? = some '/' <;> simp [hh]
    · rw [hrel, hhead]
      by_cases hh : A.head? = some '/' <;> simp [hh]

/-- C25 on inputs of the test program: `"/root/stuff/"` and the empty string
have no leaf, `"//grow.p"` has one; the first and the last are absolute, the
empty string is relative. -/
theorem dir_path_and_leaf_leaf_witness :
    (∃ r, dir_path_and_leaf 13 ("/root/stuff/".toList ++ [NUL]) = some r ∧
      r.leaf = none ∧ r.is_relative = 0) ∧
    (∃ r, dir_path_and_leaf 1 [NUL] = some r ∧ r.leaf = none ∧ r.is_relative = 1) ∧
    (∃ r, dir_path_and_leaf 9 ("//grow.p".toList ++ [NUL]) = some r ∧
      r.leaf ≠ none ∧ r.is_relative = 0) :=
  ⟨match dir_path_and_leaf_leaf "/root/stuff/".toList 13 (by decide) (by decide)
      (by decide) with
    | ⟨r, h, h1, _, _, h4⟩ => ⟨r, h, h1.mpr (Or.inr (by decide)), h4.mpr (by decide)⟩,
    match dir_path_and_leaf_leaf [] 1 (by decide) (by decide) (by decide) with
    | ⟨r, h, h1, _, h3, _⟩ => ⟨r, h, h1.mpr (Or.inl rfl), h3.mpr (by decide)⟩,
    match dir_path_and_leaf_leaf "//grow.p".toList 9 (by decide) (by decide) (by decide) with
    | ⟨r, h, h1, _, _, h4⟩ =>
      ⟨r, h, fun hn => absurd (h1.mp hn) (by decide), h4.mpr (by decide)⟩⟩

theorem is_thread_congr (s s1 : Kernel) (u : Nat) (h : (s1.mem u).magic = (s.mem u).magic) :
    is_thread s1 u = is_thread s u := by
  unfold is_thread
  rw [h]

theorem ready_linked_congr (s s1 : Kernel) (hp : s1.thread_mlfqs = s.thread_mlfqs)
    (hr : s1.ready_list = s.ready_list) (hq : s1.mlfqs_queue = s.mlfqs_queue) (t : Nat) :
    ready_linked s1 t ↔ ready_linked s t := by
  unfold ready_linked
  rw [hp, hr, hq]

theorem same_base_refl (s : Kernel) : same_base s s :=
  ⟨rfl, rfl, rfl, rfl, rfl, rfl, rfl, fun _ => ⟨rfl, rfl, rfl, rfl, fun _ => rfl⟩⟩

theorem same_core_refl (s : Kernel) : same_core s s := ⟨same_base_refl s, rfl⟩

theorem same_threads_refl (s : Kernel) : same_threads s s :=
  ⟨rfl, rfl, rfl, rfl, fun _ => ⟨rfl, rfl⟩⟩

theorem same_threads_trans (s s1 s2 : Kernel) (h1 : same_threads s s1)
    (h2 : same_threads s1 s2) : same_threads s s2 := by
  obtain ⟨a1, a2, a3, a4, a5⟩ := h1
  obtain ⟨b1, b2, b3, b4, b5⟩ := h2
  exact ⟨b1.trans a1, b2.trans a2, b3.trans a3, b4.trans a4,
    fun u => ⟨(b5 u).1.trans (a5 u).1, (b5 u).2.trans (a5 u).2⟩⟩

theorem same_threads_of_base (s s1 : Kernel) (h : same_base s s1) : same_threads s s1 := by
  obtain ⟨hp, hr, hq, ha, hi, hn, hl, hm⟩ := h
  exact ⟨hp, ha, hi, hn, fun u => ⟨(hm u).1, (hm u).2.2.1⟩⟩

theorem same_threads_valid (s s1 : Kernel) (h : same_threads s s1) (u : Nat) :
    is_thread s1 u = is_thread s u :=
  is_thread_congr s s1 u (h.2.2.2.2 u).1

theorem base_invariant_congr (s s1 : Kernel) (h : same_base s s1) (hb : base_invariant s) :
    base_invariant s1 := by
  obtain ⟨hp, hr, hq, ha, hi, hn, hl, hm⟩ := h
  have hv : ∀ u, is_thread s1 u = is_thread s u := fun u => is_thread_congr s s1 u (hm u).1
  have hlk : ∀ t, ready_linked s1 t ↔ ready_linked s t := ready_linked_congr s s1 hp hr hq
  refine ⟨?_, ?_, ?_, ?_, ?_, ?_, ?_, ?_, ?_, ?_, ?_, ?_⟩
  · intro t ht
    rw [hv, (hm t).2.1]
    exact hb.linked_ready t ((hlk t).mp ht)
  · intro t ht hd
    rw [ha]
    rw [hv] at ht
    rw [(hm t).2.1] at hd
    exact hb.alive_listed t ht hd
  · intro t ht
    rw [ha] at ht
    rw [hv]
    exact hb.listed_valid t ht
  · rw [hi, hv, (hm _).2.1]
    exact hb.idle_alive
  · rw [hr]; exact hb.ready_nodup
  · intro hpol i hi2
    rw [hq]
    exact hb.queue_nodup (hp ▸ hpol) i hi2
  · intro hpol i t hi2 ht
    rw [hq] at ht
    rw [(hm t).2.2.2.2 (hp ▸ hpol)]
    exact hb.queue_priority (hp ▸ hpol) i t hi2 ht
  · intro hpol t ht
    rw [hv] at ht
    rw [(hm t).2.2.2.2 (hp ▸ hpol)]
    exact hb.priority_range (hp ▸ hpol) t ht
  · intro t ht
    rw [hv] at ht
    rw [(hm t).2.2.2.1]
    exact hb.no_locks t ht
  · rw [hl]; exact hb.load_nonneg
  · intro t ht
    rw [ha] at ht
    rw [(hm t).2.2.1, hn]
    exact hb.tid_below t ht
  · rw [ha]
    have e : (fun t => (s1.mem t).tid) = (fun t => (s.mem t).tid) := by
      funext t
      exact (hm t).2.2.1
    rw [e]
    exact hb.tid_nodup

theorem scheduler_invariant_congr (s s1 : Kernel) (h : same_core s s1)
    (hb : scheduler_invariant s) : scheduler_invariant s1 := by
  have hbase := base_invariant_congr s s1 h.1 hb.base
  obtain ⟨⟨hp, hr, hq, ha, hi, hn, hl, hm⟩, hc⟩ := h
  have hv : ∀ u, is_thread s1 u = is_thread s u := fun u => is_thread_congr s s1 u (hm u).1
  refine ⟨hbase, ?_, ?_, ?_⟩
  · rw [hc, hv]; exact hb.cur_valid
  · rw [hc, (hm _).2.1]; exact hb.cur_running
  · intro t ht hr2
    rw [hv] at ht
    rw [(hm t).2.1] at hr2
    rw [hc]
    exact hb.one_running t ht hr2

theorem ready_all_linked_congr (s s1 : Kernel) (h : same_base s s1)
    (hb : ready_all_linked s) : ready_all_linked s1 := by
  obtain ⟨hp, hr, hq, ha, hi, hn, hl, hm⟩ := h
  intro t ht hst hid
  rw [is_thread_congr s s1 t (hm t).1] at ht
  rw [(hm t).2.1] at hst
  rw [hi] at hid
  exact (ready_linked_congr s s1 hp hr hq t).mpr (hb t ht hst hid)

theorem remove_list_max_split (less : Nat → Nat → Bool) (l : List Nat) (m : Nat)
    (r : List Nat) (h : remove_list_max less l = some (m, r)) :
    ∃ A B, l = A ++ m :: B ∧ r = A ++ B := by
  induction l generalizing m r with
  | nil => simp [remove_list_max] at h
  | cons e rest ih =>
    unfold remove_list_max at h
    cases hrec : remove_list_max less rest with
    | none =>
      rw [hrec] at h
      simp only [Option.some.injEq, Prod.mk.injEq] at h
      have hrest : rest = [] := by
        cases rest with
        | nil => rfl
        | cons a b =>
          unfold remove_list_max at hrec
          cases h2 : remove_list_max less b with
          | none => rw [h2] at hrec; simp at hrec
          | some v =>
            rw [h2] at hrec
            simp only at hrec
            split at hrec <;> simp at hrec
      exact ⟨[], [], by rw [← h.1, hrest]; rfl, by rw [← h.2]; rfl⟩
    | some v =>
      obtain ⟨m1, r1⟩ := v
      rw [hrec] at h
      simp only at h
      obtain ⟨A, B, hl, hr⟩ := ih m1 r1 hrec
      by_cases hless : less e m1 = true
      · rw [if_pos hless] at h
        simp only [Option.some.injEq, Prod.mk.injEq] at h
        refine ⟨e :: A, B, ?_, ?_⟩
        · rw [← h.1, hl]; rfl
        · rw [← h.2, hr]; rfl
      · rw [if_neg hless] at h
        simp only [Option.some.injEq, Prod.mk.injEq] at h
        exact ⟨[], rest, by rw [← h.1]; rfl, by rw [← h.2]; rfl⟩

theorem ready_push_priority (s : Kernel) (t : Nat) (hpol : s.thread_mlfqs = false) :
    ready_push s t = { s with ready_list := s.ready_list ++ [t] } := by
  unfold ready_push
  have h1 : ¬ s.thread_mlfqs = true := by simp [hpol]
  rw [if_neg h1]
  congr 1
  funext j
  rw [if_neg (fun h => h1 h.1)]

theorem ready_push_mlfqs (s : Kernel) (t : Nat) (hpol : s.thread_mlfqs = true) :
    ready_push s t = { s with mlfqs_queue := fun j =>
      if j = ((s.mem t).priority).toNat then s.mlfqs_queue j ++ [t] else s.mlfqs_queue j } := by
  unfold ready_push
  rw [if_pos hpol]
  congr 1
  funext j
  by_cases hj : j = ((s.mem t).priority).toNat
  · rw [if_pos ⟨hpol, hj⟩, if_pos hj]
  · rw [if_neg (fun h => hj h.2), if_neg hj]

theorem mlfqs_insert_inv (s s1 : Kernel) (t : Nat) (h : mlfqs_insert s t = Result.ok s1) :
    is_thread s t = true ∧ PRI_MIN ≤ (s.mem t).priority ∧ (s.mem t).priority ≤ PRI_MAX ∧
    s1 = { s with mlfqs_queue := fun j =>
      if j = ((s.mem t).priority).toNat then s.mlfqs_queue j ++ [t] else s.mlfqs_queue j } := by
  unfold mlfqs_insert at h
  by_cases hv : is_thread s t = true
  · rw [if_neg (by simp [hv])] at h
    by_cases hr : (s.mem t).priority ≥ PRI_MIN ∧ (s.mem t).priority ≤ PRI_MAX
    · rw [if_neg (not_not.mpr hr)] at h
      injection h with h
      exact ⟨hv, hr.1, hr.2, h.symm⟩
    · rw [if_pos hr] at h
      exact absurd h (by simp)
  · rw [if_pos (by simp [hv])] at h
    exact absurd h (by simp)

/-- What a successful `thread_unblock` did. -/
theorem thread_unblock_inv (s s1 : Kernel) (t : Nat) (h : thread_unblock s t = Result.ok s1) :
    is_thread s t = true ∧ (s.mem t).status = THREAD_BLOCKED ∧
    (s.thread_mlfqs = true → PRI_MIN ≤ (s.mem t).priority ∧ (s.mem t).priority ≤ PRI_MAX) ∧
    s1 = (ready_push s t).set_status t THREAD_READY := by
  unfold thread_unblock at h
  by_cases hv : is_thread s t = true
  · rw [if_neg (by simp [hv])] at h
    by_cases hst : (s.mem t).status = THREAD_BLOCKED
    · rw [if_neg (not_not.mpr hst)] at h
      by_cases hpol : s.thread_mlfqs = true
      · rw [if_neg (by simp [hpol])] at h
        cases hin : mlfqs_insert s t with
        | panic k => rw [hin] at h; exact absurd h (by simp [Result.bind])
        | ok s2 =>
          rw [hin] at h
          obtain ⟨_, h1, h2, h3⟩ := mlfqs_insert_inv s s2 t hin
          simp only [Result.bind_ok] at h
          injection h with h
          refine ⟨hv, hst, fun _ => ⟨h1, h2⟩, ?_⟩
          rw [← h, h3, ready_push_mlfqs s t hpol]
      · have hpol2 : s.thread_mlfqs = false := by simpa using hpol
        rw [if_pos (by simp [hpol2])] at h
        simp only [Result.bind_ok] at h
        injection h with h
        refine ⟨hv, hst, fun hm => absurd hm hpol, ?_⟩
        rw [← h, ready_push_priority s t hpol2]
        rfl
    · rw [if_pos hst] at h
      exact absurd h (by simp)
  · rw [if_pos (by simp [hv])] at h
    exact absurd h (by simp)

theorem thread_current_inv (s : Kernel) (t : Nat) (h : thread_current s = Result.ok t) :
    t = s.cur ∧ is_thread s s.cur = true ∧ (s.mem s.cur).status = THREAD_RUNNING := by
  unfold thread_current running_thread at h
  by_cases hv : is_thread s s.cur = true
  · simp only [hv, Bool.not_true, Bool.false_eq_true, if_false] at h
    by_cases hst : (s.mem s.cur).status = THREAD_RUNNING
    · rw [if_neg (not_not.mpr hst)] at h
      injection h with h
      exact ⟨h.symm, hv, hst⟩
    · rw [if_pos hst] at h
      exact absurd h (by simp)
  · simp only [hv, Bool.not_false, if_true] at h
    exact absurd h (by simp)

/-- What a successful `thread_block` did. -/
theorem thread_block_inv (s s1 : Kernel) (h : thread_block s = Result.ok s1) :
    s.intr_context = false ∧ is_thread s s.cur = true ∧
    (s.mem s.cur).status = THREAD_RUNNING ∧
    schedule (s.set_status s.cur THREAD_BLOCKED) = Result.ok s1 := by
  unfold thread_block at h
  by_cases hc : s.intr_context = true
  · rw [if_pos hc] at h
    exact absurd h (by simp)
  · rw [if_neg hc] at h
    cases hcur : thread_current s with
    | panic k => rw [hcur] at h; exact absurd h (by simp)
    | ok t =>
      rw [hcur] at h
      obtain ⟨ht, hv, hr⟩ := thread_current_inv s t hcur
      subst ht
      exact ⟨by simpa using hc, hv, hr, h⟩

/-- What a successful `thread_yield` did. -/
theorem thread_yield_inv (s s1 : Kernel) (h : thread_yield s = Result.ok s1) :
    s.intr_context = false ∧ is_thread s s.cur = true ∧
    (s.mem s.cur).status = THREAD_RUNNING ∧
    (s.cur ≠ s.idle_thread → s.thread_mlfqs = true →
      PRI_MIN ≤ (s.mem s.cur).priority ∧ (s.mem s.cur).priority ≤ PRI_MAX) ∧
    schedule ((if s.cur ≠ s.idle_thread then ready_push s s.cur else s).set_status s.cur
      THREAD_READY) = Result.ok s1 := by
  unfold thread_yield at h
  cases hcur : thread_current s with
  | panic k => rw [hcur] at h; exact absurd h (by simp)
  | ok t =>
    rw [hcur] at h
    obtain ⟨ht, hv, hr⟩ := thread_current_inv s t hcur
    subst ht
    simp only at h
    by_cases hc : s.intr_context = true
    · rw [if_pos hc] at h
      exact absurd h (by simp)
    · rw [if_neg hc] at h
      by_cases hid : s.cur ≠ s.idle_thread
      · rw [if_pos hid] at h
        rw [if_pos hid]
        by_cases hpol : s.thread_mlfqs = true
        · rw [if_neg (by simp [hpol])] at h
          cases hin : mlfqs_insert s s.cur with
          | panic k => rw [hin] at h; exact absurd h (by simp [Result.bind])
          | ok s2 =>
            rw [hin] at h
            obtain ⟨_, h1, h2, h3⟩ := mlfqs_insert_inv s s2 s.cur hin
            simp only [Result.bind_ok] at h
            refine ⟨by simpa using hc, hv, hr, fun _ _ => ⟨h1, h2⟩, ?_⟩
            rw [ready_push_mlfqs s s.cur hpol, ← h3]
            exact h
        · have hpol2 : s.thread_mlfqs = false := by simpa using hpol
          rw [if_pos (by simp [hpol2])] at h
          simp only [Result.bind_ok] at h
          refine ⟨by simpa using hc, hv, hr, fun _ hm => absurd hm hpol, ?_⟩
          rw [ready_push_priority s s.cur hpol2]
          exact h
      · rw [if_neg hid] at h
        rw [if_neg hid]
        simp only [Result.bind_ok] at h
        exact ⟨by simpa using hc, hv, hr, fun h2 => absurd h2 hid, h⟩

/-- A successful `thread_preempt` either changed nothing or was a successful
`thread_yield`. -/
theorem thread_preempt_inv (s s1 : Kernel) (h : thread_preempt s = Result.ok s1) :
    s1 = s ∨ thread_yield s = Result.ok s1 := by
  unfold thread_preempt at h
  simp only at h
  split at h
  · exact absurd h (by simp)
  · split at h
    · exact absurd h (by simp)
    · split at h
      · split at h
        · split at h
          · injection h with h; exact Or.inl h.symm
          · split at h
            · exact Or.inr h
            · injection h with h; exact Or.inl h.symm
        · injection h with h; exact Or.inl h.symm
      · split at h
        · exact Or.inr h
        · injection h with h; exact Or.inl h.symm

/-- What a successful `next_thread_to_run` did under the priority policy. -/
theorem next_thread_to_run_priority_inv (s s0 : Kernel) (next : Nat)
    (hpol : s.thread_mlfqs = false) (h : next_thread_to_run s = Result.ok (next, s0)) :
    (s.ready_list = [] ∧ next = s.idle_thread ∧ s0 = s) ∨
    (∃ A B, s.ready_list = A ++ next :: B ∧ s0 = { s with ready_list := A ++ B } ∧
      is_thread s next = true ∧ (s.mem next).status = THREAD_READY) := by
  unfold next_thread_to_run at h
  rw [if_pos (by simp [hpol])] at h
  by_cases hemp : list_empty s.ready_list = true
  · rw [if_pos hemp] at h
    injection h with h
    injection h with h1 h2
    left
    refine ⟨?_, h1.symm, h2.symm⟩
    simpa [list_empty] using hemp
  · rw [if_neg hemp] at h
    cases hrm : remove_list_max (thread_hash_compare s) s.ready_list with
    | none => rw [hrm] at h; exact absurd h (by simp)
    | some v =>
      obtain ⟨t, rest⟩ := v
      rw [hrm] at h
      simp only at h
      obtain ⟨A, B, hl, hr⟩ := remove_list_max_split _ _ _ _ hrm
      by_cases hv : is_thread s t = true
      · have hv2 : is_thread ({ s with ready_list := rest } : Kernel) t = true := hv
        rw [if_neg (by simp [hv2])] at h
        by_cases hst : (s.mem t).status = THREAD_READY
        · rw [if_neg (not_not.mpr hst)] at h
          injection h with h
          injection h with h1 h2
          subst h1
          right
          exact ⟨A, B, hl, by rw [← h2, hr], hv, hst⟩
        · rw [if_pos hst] at h
          exact absurd h (by simp)
      · have hv2 : ¬ is_thread ({ s with ready_list := rest } : Kernel) t = true := hv
        rw [if_pos (by simpa using hv2)] at h
        exact absurd h (by simp)

theorem mlfqs_pop_queue_inv (s s0 : Kernel) (i next : Nat)
    (h : mlfqs_pop_queue s i = Result.ok (next, s0)) :
    ∃ rest, s.mlfqs_queue i = next :: rest ∧
      s0 = { s with mlfqs_queue := fun j => if j = i then rest else s.mlfqs_queue j } ∧
      is_thread s next = true ∧ (s.mem next).status = THREAD_READY := by
  unfold mlfqs_pop_queue at h
  cases hq : s.mlfqs_queue i with
  | nil => rw [hq] at h; exact absurd h (by simp [list_pop_front])
  | cons t rest =>
    rw [hq] at h
    simp only [list_pop_front] at h
    by_cases hv : is_thread s t = true
    · have hv2 : is_thread ({ s with
          mlfqs_queue := fun j => if j = i then rest else s.mlfqs_queue j } : Kernel) t
          = true := hv
      rw [if_neg (by simp [hv2])] at h
      by_cases hst : (s.mem t).status = THREAD_READY
      · rw [if_neg (not_not.mpr hst)] at h
        injection h with h
        injection h with h1 h2
        subst h1
        exact ⟨rest, rfl, h2.symm, hv, hst⟩
      · rw [if_pos hst] at h
        exact absurd h (by simp)
    · have hv2 : ¬ is_thread ({ s with
          mlfqs_queue := fun j => if j = i then rest else s.mlfqs_queue j } : Kernel) t
          = true := hv
      rw [if_pos (by simpa using hv2)] at h
      exact absurd h (by simp)

/-- What a successful `mlfqs_get_next_thread_to_run` did. -/
theorem mlfqs_get_next_thread_to_run_inv (s s0 : Kernel) (next : Nat)
    (h : mlfqs_get_next_thread_to_run s = Result.ok (next, s0)) :
    ((∀ i, i ≤ 63 → s.mlfqs_queue i = []) ∧ next = s.idle_thread ∧ s0 = s) ∨
    (∃ i rest, i ≤ 63 ∧ s.mlfqs_queue i = next :: rest ∧
      s0 = { s with mlfqs_queue := fun j => if j = i then rest else s.mlfqs_queue j } ∧
      is_thread s next = true ∧ (s.mem next).status = THREAD_READY) := by
  rcases mlfqs_top_exists s.mlfqs_queue 63 with hall | ⟨i, hi, hne, habove⟩
  · have e := mlfqs_scan_empty s 63 hall
    unfold mlfqs_get_next_thread_to_run at h
    rw [show PRI_MAX.toNat = 63 from rfl, e] at h
    injection h with h
    injection h with h1 h2
    exact Or.inl ⟨hall, h1.symm, h2.symm⟩
  · have e := mlfqs_scan_top s 63 i hi hne habove
    unfold mlfqs_get_next_thread_to_run at h
    rw [show PRI_MAX.toNat = 63 from rfl, e] at h
    obtain ⟨rest, h1, h2, h3, h4⟩ := mlfqs_pop_queue_inv s s0 i next h
    exact Or.inr ⟨i, rest, hi, h1, h2, h3, h4⟩

theorem next_thread_to_run_mlfqs_inv (s s0 : Kernel) (next : Nat)
    (hpol : s.thread_mlfqs = true) (h : next_thread_to_run s = Result.ok (next, s0)) :
    ((∀ i, i ≤ 63 → s.mlfqs_queue i = []) ∧ next = s.idle_thread ∧ s0 = s) ∨
    (∃ i rest, i ≤ 63 ∧ s.mlfqs_queue i = next :: rest ∧
      s0 = { s with mlfqs_queue := fun j => if j = i then rest else s.mlfqs_queue j } ∧
      is_thread s next = true ∧ (s.mem next).status = THREAD_READY) := by
  unfold next_thread_to_run at h
  rw [if_neg (by simp [hpol])] at h
  exact mlfqs_get_next_thread_to_run_inv s s0 next h

/-- A successful `next_thread_to_run` only changes the ready structure. -/
theorem next_thread_to_run_frame (s s0 : Kernel) (next : Nat)
    (h : next_thread_to_run s = Result.ok (next, s0)) :
    s0 = { s with ready_list := s0.ready_list, mlfqs_queue := s0.mlfqs_queue } := by
  by_cases hpol : s.thread_mlfqs = true
  · rcases next_thread_to_run_mlfqs_inv s s0 next hpol h with ⟨_, _, e⟩ | ⟨i, rest, _, _, e, _⟩
    · rw [e]
    · rw [e]
  · rcases next_thread_to_run_priority_inv s s0 next (by simpa using hpol) h with
      ⟨_, _, e⟩ | ⟨A, B, _, e, _⟩
    · rw [e]
    · rw [e]

/-- What a successful `thread_schedule_tail` did. -/
theorem thread_schedule_tail_inv (s s1 : Kernel) (prev : Nat)
    (h : thread_schedule_tail s prev = Result.ok s1) :
    s1 = { s with
      thread_ticks := 0, freed := s1.freed,
      mem := (fun p => if p = s.cur then { s.mem s.cur with status := THREAD_RUNNING }
        else s.mem p) } := by
  unfold thread_schedule_tail at h
  simp only [running_thread] at h
  split_ifs at h
  all_goals (injection h with h; rw [← h]; rfl)

theorem schedule_shape (s s1 : Kernel) (h : schedule s = Result.ok s1) :
    ∃ next s0, next_thread_to_run s = Result.ok (next, s0) ∧ is_thread s0 next = true ∧
      (s.mem s.cur).status ≠ THREAD_RUNNING ∧
      s1 = { s0 with
        cur := next, thread_ticks := 0, freed := s1.freed,
        mem := (fun p => if p = next then { s0.mem next with status := THREAD_RUNNING }
          else s0.mem p) } := by
  unfold schedule at h
  cases hn : next_thread_to_run s with
  | panic k => rw [hn] at h; exact absurd h (by simp)
  | ok v =>
    obtain ⟨next, s0⟩ := v
    have hfr := next_thread_to_run_frame s s0 next hn
    have hcur : s0.cur = s.cur := by rw [hfr]
    have hmem : s0.mem = s.mem := by rw [hfr]
    rw [hn] at h
    simp only [running_thread] at h
    by_cases hrun : (s0.mem s.cur).status = THREAD_RUNNING
    · rw [if_pos hrun] at h
      exact absurd h (by simp)
    · rw [if_neg hrun] at h
      by_cases hv : is_thread s0 next = true
      · rw [if_neg (by simp [hv])] at h
        refine ⟨next, s0, rfl, hv, by rw [← hmem]; exact hrun, ?_⟩
        by_cases hne : s.cur ≠ next
        · rw [if_pos hne] at h
          exact thread_schedule_tail_inv _ _ _ h
        · rw [if_neg hne] at h
          have hne2 : s0.cur = next := by rw [hcur]; exact not_not.mp hne
          have h2 := thread_schedule_tail_inv _ _ _ h
          rw [hne2] at h2
          rw [h2]
      · rw [if_pos (by simpa using hv)] at h
        exact absurd h (by simp)

theorem set_status_valid (s : Kernel) (t : Nat) (st : thread_status) (u : Nat) :
    is_thread (s.set_status t st) u = is_thread s u := by
  unfold is_thread Kernel.set_status Kernel.write
  by_cases h : u = t
  · simp [h]
  · simp [h]

theorem set_status_status (s : Kernel) (t : Nat) (st : thread_status) (u : Nat) :
    ((s.set_status t st).mem u).status = if u = t then st else (s.mem u).status := by
  unfold Kernel.set_status Kernel.write
  by_cases h : u = t
  · simp [h]
  · simp [h]

theorem set_status_fields (s : Kernel) (t : Nat) (st : thread_status) (u : Nat) :
    ((s.set_status t st).mem u).magic = (s.mem u).magic ∧
    ((s.set_status t st).mem u).tid = (s.mem u).tid ∧
    ((s.set_status t st).mem u).held_locks = (s.mem u).held_locks ∧
    ((s.set_status t st).mem u).priority = (s.mem u).priority := by
  unfold Kernel.set_status Kernel.write
  by_cases h : u = t
  · simp [h]
  · simp [h]

theorem set_status_threads (s : Kernel) (t : Nat) (st : thread_status) :
    same_threads s (s.set_status t st) :=
  ⟨rfl, rfl, rfl, rfl, fun u =>
    ⟨(set_status_fields s t st u).1, (set_status_fields s t st u).2.1⟩⟩

/-- Changing the status of one thread keeps the base invariant, provided a
linked thread only becomes READY, a thread that is not DYING afterwards is on
the all-threads list, and the idle thread does not become DYING. -/
theorem base_invariant_set_status (s : Kernel) (t : Nat) (st : thread_status)
    (hb : base_invariant s) (hlink : ready_linked s t → st = THREAD_READY)
    (halive : is_thread s t = true → st ≠ THREAD_DYING → t ∈ s.all_list)
    (hidle : t = s.idle_thread → st ≠ THREAD_DYING) :
    base_invariant (s.set_status t st) := by
  have hv := set_status_valid s t st
  have hs := set_status_status s t st
  have hf := set_status_fields s t st
  refine ⟨?_, ?_, ?_, ?_, hb.ready_nodup, hb.queue_nodup, ?_, ?_, ?_, hb.load_nonneg, ?_, ?_⟩
  · intro u hu
    have hu2 : ready_linked s u := hu
    rw [hv, hs]
    refine ⟨(hb.linked_ready u hu2).1, ?_⟩
    by_cases h : u = t
    · rw [if_pos h]
      exact hlink (h ▸ hu2)
    · rw [if_neg h]
      exact (hb.linked_ready u hu2).2
  · intro u hu hd
    rw [hv] at hu
    rw [hs] at hd
    show u ∈ s.all_list
    by_cases h : u = t
    · rw [if_pos h] at hd
      rw [h]
      exact halive (h ▸ hu) hd
    · rw [if_neg h] at hd
      exact hb.alive_listed u hu hd
  · intro u hu
    rw [hv]
    exact hb.listed_valid u hu
  · show s.idle_thread = 0 ∨ (is_thread (s.set_status t st) s.idle_thread = true ∧
      ((s.set_status t st).mem s.idle_thread).status ≠ THREAD_DYING)
    rcases hb.idle_alive with h0 | ⟨h1, h2⟩
    · exact Or.inl h0
    · right
      rw [hv, hs]
      refine ⟨h1, ?_⟩
      by_cases h : s.idle_thread = t
      · rw [if_pos h]
        exact hidle h.symm
      · rw [if_neg h]
        exact h2
  · intro hpol i u hi hu
    rw [(hf u).2.2.2]
    exact hb.queue_priority hpol i u hi hu
  · intro hpol u hu
    rw [hv] at hu
    rw [(hf u).2.2.2]
    exact hb.priority_range hpol u hu
  · intro u hu
    rw [hv] at hu
    rw [(hf u).2.2.1]
    exact hb.no_locks u hu
  · intro u hu
    rw [(hf u).2.1]
    exact hb.tid_below u hu
  · have e : (fun u => ((s.set_status t st).mem u).tid) = (fun u => (s.mem u).tid) := by
      funext u
      exact (hf u).2.1
    show (s.all_list.map (fun u => ((s.set_status t st).mem u).tid)).Nodup
    rw [e]
    exact hb.tid_nodup

/-- The threads linked after a push are the ones linked before and the pushed
thread. -/
theorem ready_push_linked (s : Kernel) (t u : Nat)
    (hrange : s.thread_mlfqs = true →
      PRI_MIN ≤ (s.mem t).priority ∧ (s.mem t).priority ≤ PRI_MAX) :
    ready_linked (ready_push s t) u ↔ (ready_linked s u ∨ u = t) := by
  by_cases hpol : s.thread_mlfqs = true
  · rw [ready_push_mlfqs s t hpol]
    unfold ready_linked
    simp only [hpol, if_true]
    have hi : ((s.mem t).priority).toNat ≤ 63 := by
      have := hrange hpol
      unfold PRI_MAX at this
      omega
    constructor
    · rintro ⟨j, hj, hm⟩
      by_cases hji : j = ((s.mem t).priority).toNat
      · rw [if_pos hji] at hm
        rcases List.mem_append.mp hm with h | h
        · exact Or.inl ⟨j, hj, h⟩
        · exact Or.inr (List.mem_singleton.mp h)
      · rw [if_neg hji] at hm
        exact Or.inl ⟨j, hj, hm⟩
    · rintro (⟨j, hj, hm⟩ | h)
      · refine ⟨j, hj, ?_⟩
        by_cases hji : j = ((s.mem t).priority).toNat
        · rw [if_pos hji]
          exact List.mem_append_left _ hm
        · rw [if_neg hji]
          exact hm
      · refine ⟨_, hi, ?_⟩
        rw [if_pos rfl, h]
        exact List.mem_append_right _ (List.mem_singleton.mpr rfl)
  · have hpol2 : s.thread_mlfqs = false := by simpa using hpol
    rw [ready_push_priority s t hpol2]
    unfold ready_linked
    simp only [hpol2, Bool.false_eq_true, if_false]
    simp [List.mem_append]

/-- Pushing a valid, listed, unlinked thread and marking it READY keeps the
base invariant. -/
theorem base_invariant_push_ready (s : Kernel) (t : Nat) (hb : base_invariant s)
    (hv : is_thread s t = true) (hnl : ¬ ready_linked s t) (hlisted : t ∈ s.all_list)
    (hrange : s.thread_mlfqs = true →
      PRI_MIN ≤ (s.mem t).priority ∧ (s.mem t).priority ≤ PRI_MAX) :
    base_invariant ((ready_push s t).set_status t THREAD_READY) := by
  have hlk := fun u => ready_push_linked s t u hrange
  have hvs := set_status_valid (ready_push s t) t THREAD_READY
  have hs := set_status_status (ready_push s t) t THREAD_READY
  have hf := set_status_fields (ready_push s t) t THREAD_READY
  have hmem : (ready_push s t).mem = s.mem := rfl
  have hvp : ∀ u, is_thread (ready_push s t) u = is_thread s u := fun u => rfl
  refine ⟨?_, ?_, ?_, ?_, ?_, ?_, ?_, ?_, ?_, hb.load_nonneg, ?_, ?_⟩
  · intro u hu
    have hu2 : ready_linked (ready_push s t) u := hu
    rw [hvs, hvp, hs]
    rcases (hlk u).mp hu2 with h | h
    · refine ⟨(hb.linked_ready u h).1, ?_⟩
      by_cases hut : u = t
      · rw [if_pos hut]
      · rw [if_neg hut]
        exact (hb.linked_ready u h).2
    · rw [h, if_pos rfl]
      exact ⟨hv, rfl⟩
  · intro u hu hd
    rw [hvs, hvp] at hu
    rw [hs] at hd
    show u ∈ s.all_list
    by_cases hut : u = t
    · rw [hut]; exact hlisted
    · rw [if_neg hut] at hd
      exact hb.alive_listed u hu hd
  · intro u hu
    rw [hvs, hvp]
    exact hb.listed_valid u hu
  · show s.idle_thread = 0 ∨
      (is_thread ((ready_push s t).set_status t THREAD_READY) s.idle_thread = true ∧
      (((ready_push s t).set_status t THREAD_READY).mem s.idle_thread).status ≠ THREAD_DYING)
    rcases hb.idle_alive with h0 | ⟨h1, h2⟩
    · exact Or.inl h0
    · right
      rw [hvs, hvp, hs]
      refine ⟨h1, ?_⟩
      by_cases h : s.idle_thread = t
      · rw [if_pos h]
        decide
      · rw [if_neg h]
        exact h2
  · show (ready_push s t).ready_list.Nodup
    by_cases hpol : s.thread_mlfqs = true
    · rw [ready_push_mlfqs s t hpol]
      exact hb.ready_nodup
    · have hpol2 : s.thread_mlfqs = false := by simpa using hpol
      rw [ready_push_priority s t hpol2]
      show (s.ready_list ++ [t]).Nodup
      have hn : t ∉ s.ready_list := by
        intro h
        apply hnl
        unfold ready_linked
        rw [if_neg hpol]
        exact h
      rw [List.nodup_append]
      refine ⟨hb.ready_nodup, List.nodup_singleton t, ?_⟩
      intro a ha hb2
      exact hn ((List.mem_singleton.mp hb2) ▸ ha)
  · intro hpol i hi
    have hpol2 : s.thread_mlfqs = true := hpol
    show ((ready_push s t).mlfqs_queue i).Nodup
    rw [ready_push_mlfqs s t hpol2]
    show (if i = ((s.mem t).priority).toNat then s.mlfqs_queue i ++ [t]
      else s.mlfqs_queue i).Nodup
    by_cases hji : i = ((s.mem t).priority).toNat
    · rw [if_pos hji]
      have hn : t ∉ s.mlfqs_queue i := by
        intro h
        apply hnl
        unfold ready_linked
        rw [if_pos hpol2]
        exact ⟨i, hi, h⟩
      rw [List.nodup_append]
      refine ⟨hb.queue_nodup hpol2 i hi, List.nodup_singleton t, ?_⟩
      intro a ha hb2
      exact hn ((List.mem_singleton.mp hb2) ▸ ha)
    · rw [if_neg hji]
      exact hb.queue_nodup hpol2 i hi
  · intro hpol i u hi hu
    have hpol2 : s.thread_mlfqs = true := hpol
    rw [(hf u).2.2.2]
    show (s.mem u).priority = (i : Int)
    have hu2 : u ∈ (ready_push s t).mlfqs_queue i := hu
    rw [ready_push_mlfqs s t hpol2] at hu2
    have hu3 : u ∈ (if i = ((s.mem t).priority).toNat then s.mlfqs_queue i ++ [t]
      else s.mlfqs_queue i) := hu2
    by_cases hji : i = ((s.mem t).priority).toNat
    · rw [if_pos hji] at hu3
      rcases List.mem_append.mp hu3 with h | h
      · exact hb.queue_priority hpol2 i u hi h
      · rw [List.mem_singleton.mp h, hji]
        have := (hrange hpol2).1
        unfold PRI_MIN at this
        exact (Int.toNat_of_nonneg this).symm
    · rw [if_neg hji] at hu3
      exact hb.queue_priority hpol2 i u hi hu3
  · intro hpol u hu
    rw [hvs, hvp] at hu
    rw [(hf u).2.2.2]
    exact hb.priority_range hpol u hu
  · intro u hu
    rw [hvs, hvp] at hu
    rw [(hf u).2.2.1]
    exact hb.no_locks u hu
  · intro u hu
    rw [(hf u).2.1]
    exact hb.tid_below u hu
  · have e : (fun u => (((ready_push s t).set_status t THREAD_READY).mem u).tid)
        = (fun u => (s.mem u).tid) := by
      funext u
      exact (hf u).2.1
    show (s.all_list.map
      (fun u => (((ready_push s t).set_status t THREAD_READY).mem u).tid)).Nodup
    rw [e]
    exact hb.tid_nodup

/-- Taking nodes out of the ready structure keeps the base invariant. -/
theorem base_invariant_sublist (s s0 : Kernel) (hb : base_invariant s)
    (h : s0 = { s with ready_list := s0.ready_list, mlfqs_queue := s0.mlfqs_queue })
    (hr : s0.ready_list.Sublist s.ready_list)
    (hq : ∀ i, (s0.mlfqs_queue i).Sublist (s.mlfqs_queue i)) :
    base_invariant s0 ∧ ∀ t, ready_linked s0 t → ready_linked s t := by
  have hmem : s0.mem = s.mem := by rw [h]
  have hpol : s0.thread_mlfqs = s.thread_mlfqs := by rw [h]
  have hall : s0.all_list = s.all_list := by rw [h]
  have hidle : s0.idle_thread = s.idle_thread := by rw [h]
  have hnext : s0.next_tid = s.next_tid := by rw [h]
  have hload : s0.load_avg = s.load_avg := by rw [h]
  have hv : ∀ u, is_thread s0 u = is_thread s u := by
    intro u
    unfold is_thread
    rw [hmem]
  have hsub : ∀ t, ready_linked s0 t → ready_linked s t := by
    intro t ht
    unfold ready_linked at ht ⊢
    rw [hpol] at ht
    by_cases hp : s.thread_mlfqs = true
    · rw [if_pos hp] at ht ⊢
      obtain ⟨i, hi, hm⟩ := ht
      exact ⟨i, hi, (hq i).subset hm⟩
    · rw [if_neg hp] at ht ⊢
      exact hr.subset ht
  refine ⟨⟨?_, ?_, ?_, ?_, hr.nodup hb.ready_nodup, ?_, ?_, ?_, ?_, ?_, ?_, ?_⟩, hsub⟩
  · intro t ht
    rw [hv, hmem]
    exact hb.linked_ready t (hsub t ht)
  · intro t ht hd
    rw [hv] at ht
    rw [hmem] at hd
    rw [hall]
    exact hb.alive_listed t ht hd
  · intro t ht
    rw [hall] at ht
    rw [hv]
    exact hb.listed_valid t ht
  · rw [hidle, hv, hmem]
    exact hb.idle_alive
  · intro hp i hi
    exact (hq i).nodup (hb.queue_nodup (hpol ▸ hp) i hi)
  · intro hp i t hi ht
    rw [hmem]
    exact hb.queue_priority (hpol ▸ hp) i t hi ((hq i).subset ht)
  · intro hp t ht
    rw [hv] at ht
    rw [hmem]
    exact hb.priority_range (hpol ▸ hp) t ht
  · intro t ht
    rw [hv] at ht
    rw [hmem]
    exact hb.no_locks t ht
  · rw [hload]; exact hb.load_nonneg
  · intro t ht
    rw [hall] at ht
    rw [hmem, hnext]
    exact hb.tid_below t ht
  · rw [hall, hmem]
    exact hb.tid_nodup

/-- A successful `next_thread_to_run` on a state with the base invariant: the
invariant is kept, only the ready structure changes, exactly the chosen thread
is unlinked, and the chosen thread is the idle thread or a valid READY
thread. -/
theorem next_thread_to_run_base (s s0 : Kernel) (next : Nat) (hb : base_invariant s)
    (h : next_thread_to_run s = Result.ok (next, s0)) :
    base_invariant s0 ∧
    s0 = { s with ready_list := s0.ready_list, mlfqs_queue := s0.mlfqs_queue } ∧
    (∀ t, ready_linked s0 t ↔ (ready_linked s t ∧ t ≠ next)) ∧
    (next = s.idle_thread ∨ (is_thread s next = true ∧ (s.mem next).status = THREAD_READY)) := by
  have hfr := next_thread_to_run_frame s s0 next h
  have hpol0 : s0.thread_mlfqs = s.thread_mlfqs := by rw [hfr]
  by_cases hpol : s.thread_mlfqs = true
  · rcases next_thread_to_run_mlfqs_inv s s0 next hpol h with
      ⟨hall, hid, e⟩ | ⟨i, rest, hi, hq, e, hv, hst⟩
    · subst e
      refine ⟨hb, hfr, ?_, Or.inl hid⟩
      intro t
      have hno : ¬ ready_linked s0 t := by
        unfold ready_linked
        rw [if_pos hpol]
        rintro ⟨j, hj, hm⟩
        rw [hall j hj] at hm
        exact absurd hm (List.not_mem_nil t)
      exact ⟨fun h1 => absurd h1 hno, fun h1 => absurd h1.1 hno⟩
    · have hnd := hb.queue_nodup hpol i hi
      rw [hq] at hnd
      have hnr : next ∉ rest := (List.nodup_cons.mp hnd).1
      have hq0 : s0.mlfqs_queue = fun j => if j = i then rest else s.mlfqs_queue j := by
        rw [e]
      have hr0 : s0.ready_list = s.ready_list := by rw [e]
      have hsubq : ∀ j, (s0.mlfqs_queue j).Sublist (s.mlfqs_queue j) := by
        intro j
        rw [hq0]
        by_cases hj : j = i
        · simp only [if_pos hj]
          rw [hj, hq]
          exact List.sublist_cons_self next rest
        · simp only [if_neg hj]
          exact List.Sublist.refl _
      obtain ⟨hb0, hsub⟩ := base_invariant_sublist s s0 hb hfr (by rw [hr0]) hsubq
      refine ⟨hb0, hfr, ?_, Or.inr ⟨hv, hst⟩⟩
      intro t
      constructor
      · intro ht
        refine ⟨hsub t ht, ?_⟩
        intro htn
        unfold ready_linked at ht
        rw [hpol0, if_pos hpol, hq0] at ht
        obtain ⟨j, hj, hm⟩ := ht
        by_cases hji : j = i
        · simp only [if_pos hji] at hm
          exact hnr (htn ▸ hm)
        · simp only [if_neg hji] at hm
          have p1 := hb.queue_priority hpol j t hj hm
          have p2 := hb.queue_priority hpol i next hi (by rw [hq]; exact List.mem_cons_self _ _)
          rw [htn, p2] at p1
          exact hji (by exact_mod_cast p1.symm)
      · rintro ⟨ht, htn⟩
        unfold ready_linked at ht ⊢
        rw [hpol0, if_pos hpol, hq0]
        rw [if_pos hpol] at ht
        obtain ⟨j, hj, hm⟩ := ht
        refine ⟨j, hj, ?_⟩
        by_cases hji : j = i
        · simp only [if_pos hji]
          rw [hji, hq] at hm
          rcases List.mem_cons.mp hm with h1 | h1
          · exact absurd h1 htn
          · exact h1
        · simp only [if_neg hji]
          exact hm
  · have hpol2 : s.thread_mlfqs = false := by simpa using hpol
    rcases next_thread_to_run_priority_inv s s0 next hpol2 h with
      ⟨hemp, hid, e⟩ | ⟨A, B, hl, e, hv, hst⟩
    · subst e
      refine ⟨hb, hfr, ?_, Or.inl hid⟩
      intro t
      have hno : ¬ ready_linked s0 t := by
        unfold ready_linked
        rw [if_neg hpol, hemp]
        exact List.not_mem_nil t
      exact ⟨fun h1 => absurd h1 hno, fun h1 => absurd h1.1 hno⟩
    · have hnd := hb.ready_nodup
      rw [hl] at hnd
      have hr0 : s0.ready_list = A ++ B := by rw [e]
      have hq0 : s0.mlfqs_queue = s.mlfqs_queue := by rw [e]
      have hnA : next ∉ A := by
        intro hm
        have := (List.nodup_append.mp hnd).2.2
        exact this hm (List.mem_cons_self _ _)
      have hnB : next ∉ B := by
        have := (List.nodup_append.mp hnd).2.1
        exact (List.nodup_cons.mp this).1
      have hsubr : s0.ready_list.Sublist s.ready_list := by
        rw [hr0, hl]
        exact List.Sublist.append_left (List.sublist_cons_self next B) A
      obtain ⟨hb0, hsub⟩ := base_invariant_sublist s s0 hb hfr hsubr
        (by intro j; rw [hq0])
      refine ⟨hb0, hfr, ?_, Or.inr ⟨hv, hst⟩⟩
      intro t
      unfold ready_linked
      rw [hpol0, if_neg hpol, if_neg hpol, hr0, hl]
      constructor
      · intro ht
        rcases List.mem_append.mp ht with h1 | h1
        · exact ⟨List.mem_append_left _ h1, fun e2 => hnA (e2 ▸ h1)⟩
        · exact ⟨List.mem_append_right _ (List.mem_cons_of_mem _ h1), fun e2 => hnB (e2 ▸ h1)⟩
      · rintro ⟨ht, htn⟩
        rcases List.mem_append.mp ht with h1 | h1
        · exact List.mem_append_left _ h1
        · rcases List.mem_cons.mp h1 with h2 | h2
          · exact absurd h2 htn
          · exact List.mem_append_right _ h2

/-- The function `schedule`, called in a state where no thread is RUNNING any
more, establishes the scheduler invariant: the chosen thread is on the CPU and
is the one RUNNING thread.  Only statuses and the ready structure change, and
the status of every thread but the chosen one is kept. -/
theorem schedule_invariant (s s1 : Kernel) (hpre : schedule_ready s)
    (h : schedule s = Result.ok s1) :
    scheduler_invariant s1 ∧ (ready_all_linked s → ready_all_linked s1) ∧
    same_threads s s1 ∧ (∀ u, u ≠ s1.cur → (s1.mem u).status = (s.mem u).status) ∧
    (s1.cur = s.idle_thread ∨
      (is_thread s s1.cur = true ∧ (s.mem s1.cur).status = THREAD_READY)) := by
  obtain ⟨next, s0, hn, hv0, hnr, e⟩ := schedule_shape s s1 h
  obtain ⟨hb0, hfr, hlk, hnext⟩ := next_thread_to_run_base s s0 next hpre.base hn
  have hmem : s0.mem = s.mem := by rw [hfr]
  have hpol : s0.thread_mlfqs = s.thread_mlfqs := by rw [hfr]
  have hall : s0.all_list = s.all_list := by rw [hfr]
  have hidle : s0.idle_thread = s.idle_thread := by rw [hfr]
  have hntid : s0.next_tid = s.next_tid := by rw [hfr]
  have hvn : is_thread s next = true := by
    unfold is_thread at hv0 ⊢
    rw [hmem] at hv0
    exact hv0
  have hnl0 : ¬ ready_linked s0 next := fun hc => ((hlk next).mp hc).2 rfl
  have hlisted : next ∈ s0.all_list := by
    rw [hall]
    rcases hnext with hid | ⟨_, hst⟩
    · rcases hpre.base.idle_alive with h0 | ⟨h1, h2⟩
      · exfalso
        rw [hid, h0] at hvn
        simp [is_thread] at hvn
      · rw [hid]
        exact hpre.base.alive_listed _ h1 h2
    · exact hpre.base.alive_listed next hvn (by rw [hst]; decide)
  have hbs := base_invariant_set_status s0 next THREAD_RUNNING hb0
    (fun hc => absurd hc hnl0) (fun _ _ => hlisted) (fun _ => by decide)
  have hsb : same_base (s0.set_status next THREAD_RUNNING) s1 := by
    rw [e]
    exact ⟨rfl, rfl, rfl, rfl, rfl, rfl, rfl, fun u => ⟨rfl, rfl, rfl, rfl, fun _ => rfl⟩⟩
  have hb1 := base_invariant_congr _ _ hsb hbs
  have hcur1 : s1.cur = next := by rw [e]
  have hmem1 : ∀ u, s1.mem u = if u = next then { s0.mem next with status := THREAD_RUNNING }
      else s0.mem u := by
    intro u
    rw [e]
  have hv1 : ∀ u, is_thread s1 u = is_thread s u := by
    intro u
    unfold is_thread
    rw [hmem1 u, ← hmem]
    by_cases hu : u = next
    · rw [if_pos hu, hu]
    · rw [if_neg hu]
  have hst1 : ∀ u, u ≠ next → (s1.mem u).status = (s.mem u).status := by
    intro u hu
    rw [hmem1 u, if_neg hu, hmem]
  refine ⟨⟨hb1, ?_, ?_, ?_⟩, ?_, ?_, ?_, ?_⟩
  · rw [hcur1, hv1]; exact hvn
  · rw [hcur1, hmem1 next, if_pos rfl]
  · intro t ht hr
    rw [hcur1]
    by_contra hne
    rw [hv1] at ht
    rw [hst1 t hne] at hr
    exact hpre.none_running t ht hr
  · intro hal t ht hst hid
    rw [hv1] at ht
    have hne : t ≠ next := by
      intro hc
      rw [hc, hmem1 next, if_pos rfl] at hst
      simp at hst
    rw [hst1 t hne] at hst
    have hid2 : t ≠ s.idle_thread := by
      rw [e] at hid
      rw [← hidle]
      exact hid
    have h1 := hal t ht hst hid2
    have h2 := (hlk t).mpr ⟨h1, hne⟩
    exact (ready_linked_congr s0 s1 (by rw [e]) (by rw [e]) (by rw [e]) t).mpr h2
  · refine ⟨?_, ?_, ?_, ?_, ?_⟩
    · rw [← hpol, e]
    · rw [← hall, e]
    · rw [← hidle, e]
    · rw [← hntid, e]
    · intro u
      rw [hmem1 u, ← hmem]
      by_cases hu : u = next
      · rw [if_pos hu, hu]
        exact ⟨rfl, rfl⟩
      · rw [if_neg hu]
        exact ⟨rfl, rfl⟩
  · intro u hu
    rw [hcur1] at hu
    exact hst1 u hu
  · rw [hcur1]
    exact hnext

theorem set_status_linked (s : Kernel) (t : Nat) (st : thread_status) (u : Nat) :
    ready_linked (s.set_status t st) u ↔ ready_linked s u := Iff.rfl

theorem running_not_linked (s : Kernel) (hinv : scheduler_invariant s) :
    ¬ ready_linked s s.cur := by
  intro h
  have h2 := (hinv.base.linked_ready s.cur h).2
  rw [hinv.cur_running] at h2
  exact absurd h2 (by decide)

theorem running_listed (s : Kernel) (hinv : scheduler_invariant s) : s.cur ∈ s.all_list :=
  hinv.base.alive_listed s.cur hinv.cur_valid (by rw [hinv.cur_running]; decide)

theorem step_ok_refl (s : Kernel) (hinv : scheduler_invariant s) : step_ok s s :=
  ⟨hinv, fun h => h, same_threads_refl s⟩

theorem step_ok_trans (s s1 s2 : Kernel) (h1 : step_ok s s1) (h2 : step_ok s1 s2) :
    step_ok s s2 :=
  ⟨h2.1, fun h => h2.2.1 (h1.2.1 h), same_threads_trans s s1 s2 h1.2.2 h2.2.2⟩

/-- A state that agrees with a state satisfying the scheduler invariant on
everything the invariant looks at. -/
theorem step_ok_of_same_core (s s1 : Kernel) (hinv : scheduler_invariant s)
    (h : same_core s s1) : step_ok s s1 :=
  ⟨scheduler_invariant_congr s s1 h hinv, ready_all_linked_congr s s1 h.1,
    same_threads_of_base s s1 h.1⟩

/-- A successful `thread_unblock` keeps the scheduler invariant. -/
theorem thread_unblock_invariant (s s1 : Kernel) (t : Nat) (hinv : scheduler_invariant s)
    (h : thread_unblock s t = Result.ok s1) : step_ok s s1 ∧ s1.cur = s.cur := by
  obtain ⟨hv, hst, hrange, e⟩ := thread_unblock_inv s s1 t h
  have hnl : ¬ ready_linked s t := by
    intro hc
    have h2 := (hinv.base.linked_ready t hc).2
    rw [hst] at h2
    exact absurd h2 (by decide)
  have hlisted : t ∈ s.all_list := hinv.base.alive_listed t hv (by rw [hst]; decide)
  have hb := base_invariant_push_ready s t hinv.base hv hnl hlisted hrange
  have hvs := set_status_valid (ready_push s t) t THREAD_READY
  have hs := set_status_status (ready_push s t) t THREAD_READY
  have hne : s.cur ≠ t := by
    intro hc
    have := hinv.cur_running
    rw [hc, hst] at this
    exact absurd this (by decide)
  subst e
  refine ⟨⟨⟨hb, ?_, ?_, ?_⟩, ?_, ?_⟩, rfl⟩
  · show is_thread ((ready_push s t).set_status t THREAD_READY) s.cur = true
    rw [hvs]
    exact hinv.cur_valid
  · show (((ready_push s t).set_status t THREAD_READY).mem s.cur).status = THREAD_RUNNING
    rw [hs, if_neg hne]
    exact hinv.cur_running
  · intro u hu hr
    show u = s.cur
    rw [hvs] at hu
    rw [hs] at hr
    by_cases hut : u = t
    · rw [if_pos hut] at hr
      exact absurd hr (by decide)
    · rw [if_neg hut] at hr
      exact hinv.one_running u hu hr
  · intro hal u hu hr hid
    rw [hvs] at hu
    rw [hs] at hr
    rw [set_status_linked, ready_push_linked s t u hrange]
    by_cases hut : u = t
    · exact Or.inr hut
    · rw [if_neg hut] at hr
      exact Or.inl (hal u hu hr hid)
  · exact same_threads_trans _ _ _ (same_threads_refl s)
      (set_status_threads (ready_push s t) t THREAD_READY)

/-- The state in which `thread_block` calls `schedule`. -/
theorem block_state_ready (s : Kernel) (hinv : scheduler_invariant s) :
    schedule_ready (s.set_status s.cur THREAD_BLOCKED) ∧
    (ready_all_linked s → ready_all_linked (s.set_status s.cur THREAD_BLOCKED)) := by
  have hvs := set_status_valid s s.cur THREAD_BLOCKED
  have hs := set_status_status s s.cur THREAD_BLOCKED
  have hb := base_invariant_set_status s s.cur THREAD_BLOCKED hinv.base
    (fun hc => absurd hc (running_not_linked s hinv))
    (fun _ _ => running_listed s hinv) (fun _ => by decide)
  refine ⟨⟨hb, ?_, ?_⟩, ?_⟩
  · show is_thread (s.set_status s.cur THREAD_BLOCKED) s.cur = true
    rw [hvs]
    exact hinv.cur_valid
  · intro u hu hr
    rw [hvs] at hu
    rw [hs] at hr
    by_cases hut : u = s.cur
    · rw [if_pos hut] at hr
      exact absurd hr (by decide)
    · rw [if_neg hut] at hr
      exact hut (hinv.one_running u hu hr)
  · intro hal u hu hr hid
    rw [hvs] at hu
    rw [hs] at hr
    rw [set_status_linked]
    by_cases hut : u = s.cur
    · rw [if_pos hut] at hr
      exact absurd hr (by decide)
    · rw [if_neg hut] at hr
      exact hal u hu hr hid

/-- The state in which `thread_yield` calls `schedule`. -/
theorem yield_state_ready (s : Kernel) (hinv : scheduler_invariant s)
    (hrange : s.cur ≠ s.idle_thread → s.thread_mlfqs = true →
      PRI_MIN ≤ (s.mem s.cur).priority ∧ (s.mem s.cur).priority ≤ PRI_MAX) :
    schedule_ready ((if s.cur ≠ s.idle_thread then ready_push s s.cur else s).set_status
      s.cur THREAD_READY) ∧
    (ready_all_linked s →
      ready_all_linked ((if s.cur ≠ s.idle_thread then ready_push s s.cur else s).set_status
        s.cur THREAD_READY)) := by
  by_cases hid : s.cur ≠ s.idle_thread
  · rw [if_pos hid]
    have hvs := set_status_valid (ready_push s s.cur) s.cur THREAD_READY
    have hs := set_status_status (ready_push s s.cur) s.cur THREAD_READY
    have hb := base_invariant_push_ready s s.cur hinv.base hinv.cur_valid
      (running_not_linked s hinv) (running_listed s hinv) (hrange hid)
    refine ⟨⟨hb, ?_, ?_⟩, ?_⟩
    · show is_thread ((ready_push s s.cur).set_status s.cur THREAD_READY) s.cur = true
      rw [hvs]
      exact hinv.cur_valid
    · intro u hu hr
      rw [hvs] at hu
      rw [hs] at hr
      by_cases hut : u = s.cur
      · rw [if_pos hut] at hr
        exact absurd hr (by decide)
      · rw [if_neg hut] at hr
        exact hut (hinv.one_running u hu hr)
    · intro hal u hu hr hid2
      rw [hvs] at hu
      rw [hs] at hr
      rw [set_status_linked, ready_push_linked s s.cur u (hrange hid)]
      by_cases hut : u = s.cur
      · exact Or.inr hut
      · rw [if_neg hut] at hr
        exact Or.inl (hal u hu hr hid2)
  · rw [if_neg hid]
    have hid2 : s.cur = s.idle_thread := not_not.mp hid
    have hvs := set_status_valid s s.cur THREAD_READY
    have hs := set_status_status s s.cur THREAD_READY
    have hb := base_invariant_set_status s s.cur THREAD_READY hinv.base
      (fun _ => rfl) (fun _ _ => running_listed s hinv) (fun _ => by decide)
    refine ⟨⟨hb, ?_, ?_⟩, ?_⟩
    · show is_thread (s.set_status s.cur THREAD_READY) s.cur = true
      rw [hvs]
      exact hinv.cur_valid
    · intro u hu hr
      rw [hvs] at hu
      rw [hs] at hr
      by_cases hut : u = s.cur
      · rw [if_pos hut] at hr
        exact absurd hr (by decide)
      · rw [if_neg hut] at hr
        exact hut (hinv.one_running u hu hr)
    · intro hal u hu hr hid3
      rw [hvs] at hu
      rw [hs] at hr
      rw [set_status_linked]
      by_cases hut : u = s.cur
      · exfalso
        apply hid3
        rw [hut]
        exact hid2
      · rw [if_neg hut] at hr
        exact hal u hu hr hid3

/-- A successful `thread_block` keeps the scheduler invariant. -/
theorem thread_block_invariant (s s1 : Kernel) (hinv : scheduler_invariant s)
    (h : thread_block s = Result.ok s1) : step_ok s s1 := by
  obtain ⟨_, _, _, hsch⟩ := thread_block_inv s s1 h
  obtain ⟨hpre, hlk⟩ := block_state_ready s hinv
  obtain ⟨hi1, hl1, ht1, _⟩ := schedule_invariant _ s1 hpre hsch
  exact ⟨hi1, fun hal => hl1 (hlk hal),
    same_threads_trans _ _ _ (set_status_threads s s.cur THREAD_BLOCKED) ht1⟩

/-- A successful `thread_yield` keeps the scheduler invariant. -/
theorem thread_yield_invariant (s s1 : Kernel) (hinv : scheduler_invariant s)
    (h : thread_yield s = Result.ok s1) : step_ok s s1 := by
  obtain ⟨_, _, _, hrange, hsch⟩ := thread_yield_inv s s1 h
  obtain ⟨hpre, hlk⟩ := yield_state_ready s hinv hrange
  obtain ⟨hi1, hl1, ht1, _⟩ := schedule_invariant _ s1 hpre hsch
  refine ⟨hi1, fun hal => hl1 (hlk hal), same_threads_trans _ _ _ ?_ ht1⟩
  by_cases hid : s.cur ≠ s.idle_thread
  · rw [if_pos hid]
    exact same_threads_trans _ _ _ (same_threads_refl s)
      (set_status_threads (ready_push s s.cur) s.cur THREAD_READY)
  · rw [if_neg hid]
    exact set_status_threads s s.cur THREAD_READY

/-- A successful `thread_preempt` keeps the scheduler invariant. -/
theorem thread_preempt_invariant (s s1 : Kernel) (hinv : scheduler_invariant s)
    (h : thread_preempt s = Result.ok s1) : step_ok s s1 := by
  rcases thread_preempt_inv s s1 h with e | hy
  · rw [e]
    exact step_ok_refl s hinv
  · exact thread_yield_invariant s s1 hinv hy

/-- What a successful `thread_create` did. -/
theorem thread_create_inv (s s1 : Kernel) (page name function : Nat) (b : Bool) (p tid : Int)
    (h : thread_create s page b name p function = Result.ok (tid, s1)) :
    (page = 0 ∧ tid = TID_ERROR ∧ s1 = s) ∨
    (page ≠ 0 ∧
      ((b = false ∧ tid = TID_ERROR ∧
          s1 = created_state s page (if s.thread_mlfqs = true then PRI_MAX else p)) ∨
        (b = true ∧ tid = s.next_tid ∧
          ∃ s4, thread_unblock
              (created_state s page (if s.thread_mlfqs = true then PRI_MAX else p)) page
              = Result.ok s4 ∧
            thread_preempt s4 = Result.ok s1))) := by
  by_cases hfun : function = 0
  · unfold thread_create at h
    simp only [] at h
    rw [if_pos hfun] at h
    cases h
  by_cases hpage : page = 0
  · unfold thread_create at h
    simp only [] at h
    rw [if_neg hfun, if_pos hpage] at h
    injection h with h
    injection h with h1 h2
    exact Or.inl ⟨hpage, h1.symm, h2.symm⟩
  by_cases hok : name ≠ 0 ∧ (PRI_MIN ≤ (if s.thread_mlfqs = true then PRI_MAX else p) ∧
      (if s.thread_mlfqs = true then PRI_MAX else p) ≤ PRI_MAX)
  · have hu := thread_create_unfold s page name function b p hfun hok.1 hpage (by
      intro hm
      have h2 := hok.2
      rw [if_neg (by simp [hm])] at h2
      exact h2)
    rw [hu] at h
    right
    refine ⟨hpage, ?_⟩
    cases b with
    | false =>
      rw [if_pos rfl] at h
      injection h with h
      injection h with h1 h2
      exact Or.inl ⟨rfl, h1.symm, h2.symm⟩
    | true =>
      rw [if_neg (by decide)] at h
      right
      cases hun : thread_unblock
          (created_state s page (if s.thread_mlfqs = true then PRI_MAX else p)) page with
      | panic k => rw [hun] at h; cases h
      | ok s4 =>
        rw [hun] at h
        simp only [Result.bind_ok] at h
        cases hpr : thread_preempt s4 with
        | panic k => rw [hpr] at h; cases h
        | ok s5 =>
          rw [hpr] at h
          simp only [Result.bind_ok] at h
          injection h with h
          injection h with h1 h2
          exact ⟨rfl, h1.symm, s4, rfl, by rw [← h2, hpr]⟩
  · exfalso
    have hi : init_thread s page name (if s.thread_mlfqs = true then PRI_MAX else p)
        = Result.panic s := by
      unfold init_thread
      rw [if_neg hpage]
      by_cases hr : (PRI_MIN ≤ (if s.thread_mlfqs = true then PRI_MAX else p) ∧
          (if s.thread_mlfqs = true then PRI_MAX else p) ≤ PRI_MAX)
      · rw [if_neg (not_not.mpr hr)]
        have hn : name = 0 := by
          by_contra hn
          exact hok ⟨hn, hr⟩
        rw [if_pos hn]
      · rw [if_pos hr]
    unfold thread_create at h
    simp only [] at h
    rw [if_neg hfun, if_neg hpage, hi] at h
    cases h

/-- The state after `init_thread` and `allocate_tid` on a fresh page satisfies
the scheduler invariant: the new thread is valid, BLOCKED, listed, unlinked,
and has a new id. -/
theorem created_state_invariant (s : Kernel) (page : Nat) (P : Int)
    (hinv : scheduler_invariant s) (hfresh : page ∉ s.all_list) (hpage : page ≠ 0)
    (hP : s.thread_mlfqs = true → PRI_MIN ≤ P ∧ P ≤ PRI_MAX) :
    scheduler_invariant (created_state s page P) ∧
    (ready_all_linked s → ready_all_linked (created_state s page P)) := by
  have hb := hinv.base
  have hmem : ∀ u, u ≠ page → (created_state s page P).mem u = s.mem u := by
    intro u hu
    simp [created_state, hu]
  have hv : ∀ u, u ≠ page → is_thread (created_state s page P) u = is_thread s u := by
    intro u hu
    unfold is_thread
    rw [hmem u hu]
  have hvp : is_thread (created_state s page P) page = true := by
    simp [is_thread, created_state, hpage]
  have hsp : ((created_state s page P).mem page).status = THREAD_BLOCKED := by
    simp [created_state]
  have hlk : ∀ u, ready_linked (created_state s page P) u ↔ ready_linked s u :=
    fun u => Iff.rfl
  have hin : ∀ u, u ∈ s.all_list → u ≠ page := fun u hu hc => hfresh (hc ▸ hu)
  have hlp : ∀ u, ready_linked s u → u ≠ page := by
    intro u hu
    have h1 := hb.linked_ready u hu
    exact hin u (hb.alive_listed u h1.1 (by rw [h1.2]; decide))
  have hcur : s.cur ≠ page := hin _ (running_listed s hinv)
  have hall : (created_state s page P).all_list = s.all_list ++ [page] := rfl
  refine ⟨⟨⟨?_, ?_, ?_, ?_, hb.ready_nodup, hb.queue_nodup, ?_, ?_, ?_, hb.load_nonneg, ?_,
    ?_⟩, ?_, ?_, ?_⟩, ?_⟩
  · intro u hu
    have hu2 := (hlk u).mp hu
    rw [hv u (hlp u hu2), hmem u (hlp u hu2)]
    exact hb.linked_ready u hu2
  · intro u hu hd
    rw [hall]
    by_cases hup : u = page
    · rw [hup]
      exact List.mem_append_right _ (List.mem_singleton.mpr rfl)
    · rw [hv u hup] at hu
      rw [hmem u hup] at hd
      exact List.mem_append_left _ (hb.alive_listed u hu hd)
  · intro u hu
    rw [hall] at hu
    rcases List.mem_append.mp hu with h1 | h1
    · rw [hv u (hin u h1)]
      exact hb.listed_valid u h1
    · rw [List.mem_singleton.mp h1]
      exact hvp
  · show s.idle_thread = 0 ∨ (is_thread (created_state s page P) s.idle_thread = true ∧
      ((created_state s page P).mem s.idle_thread).status ≠ THREAD_DYING)
    rcases hb.idle_alive with h0 | ⟨h1, h2⟩
    · exact Or.inl h0
    · right
      have hne := hin _ (hb.alive_listed _ h1 h2)
      rw [hv _ hne, hmem _ hne]
      exact ⟨h1, h2⟩
  · intro hpol i u hi hu
    have hpol2 : s.thread_mlfqs = true := hpol
    have hu2 : u ∈ s.mlfqs_queue i := hu
    have hl : ready_linked s u := by
      unfold ready_linked
      rw [if_pos hpol2]
      exact ⟨i, hi, hu2⟩
    rw [hmem u (hlp u hl)]
    exact hb.queue_priority hpol2 i u hi hu2
  · intro hpol u hu
    have hpol2 : s.thread_mlfqs = true := hpol
    by_cases hup : u = page
    · rw [hup]
      have : ((created_state s page P).mem page).priority = P := by simp [created_state]
      rw [this]
      exact hP hpol2
    · rw [hv u hup] at hu
      rw [hmem u hup]
      exact hb.priority_range hpol2 u hu
  · intro u hu
    by_cases hup : u = page
    · rw [hup]
      simp [created_state, thread.zeroed]
    · rw [hv u hup] at hu
      rw [hmem u hup]
      exact hb.no_locks u hu
  · intro u hu
    show ((created_state s page P).mem u).tid < s.next_tid + 1
    rw [hall] at hu
    rcases List.mem_append.mp hu with h1 | h1
    · rw [hmem u (hin u h1)]
      have := hb.tid_below u h1
      omega
    · rw [List.mem_singleton.mp h1]
      have : ((created_state s page P).mem page).tid = s.next_tid := by simp [created_state]
      rw [this]
      omega
  · rw [hall, List.map_append]
    have e : s.all_list.map (fun t => ((created_state s page P).mem t).tid)
        = s.all_list.map (fun t => (s.mem t).tid) := by
      apply List.map_congr_left
      intro u hu
      rw [hmem u (hin u hu)]
    have e2 : ((created_state s page P).mem page).tid = s.next_tid := by simp [created_state]
    rw [e]
    simp only [List.map_cons, List.map_nil, e2]
    rw [List.nodup_append]
    refine ⟨hb.tid_nodup, List.nodup_singleton _, ?_⟩
    intro a ha hb2
    rw [List.mem_singleton.mp hb2] at ha
    obtain ⟨u, hu, hue⟩ := List.mem_map.mp ha
    have := hb.tid_below u hu
    omega
  · show is_thread (created_state s page P) s.cur = true
    rw [hv _ hcur]
    exact hinv.cur_valid
  · show ((created_state s page P).mem s.cur).status = THREAD_RUNNING
    rw [hmem _ hcur]
    exact hinv.cur_running
  · intro u hu hr
    show u = s.cur
    by_cases hup : u = page
    · rw [hup, hsp] at hr
      exact absurd hr (by decide)
    · rw [hv u hup] at hu
      rw [hmem u hup] at hr
      exact hinv.one_running u hu hr
  · intro hal u hu hr hid
    by_cases hup : u = page
    · rw [hup, hsp] at hr
      exact absurd hr (by decide)
    · rw [hv u hup] at hu
      rw [hmem u hup] at hr
      exact (hlk u).mpr (hal u hu hr hid)

/-- A successful `thread_create` on a page that is not in use keeps the
scheduler invariant; unless no page was available, the new thread is on the
all-threads list, appended at its back, with the id `next_tid`. -/
theorem thread_create_invariant (s s1 : Kernel) (page name function : Nat) (b : Bool)
    (p tid : Int) (hinv : scheduler_invariant s) (hfresh : page ∉ s.all_list)
    (h : thread_create s page b name p function = Result.ok (tid, s1)) :
    scheduler_invariant s1 ∧ (ready_all_linked s → ready_all_linked s1) ∧
    (page = 0 → s1 = s ∧ tid = TID_ERROR) ∧
    (page ≠ 0 → s1.all_list = s.all_list ++ [page] ∧ (s1.mem page).tid = s.next_tid ∧
      (∀ u, u ≠ page → (s1.mem u).tid = (s.mem u).tid) ∧
      (tid = s.next_tid ∨ tid = TID_ERROR)) := by
  rcases thread_create_inv s s1 page name function b p tid h with
    ⟨h0, ht, e⟩ | ⟨hpage, hcase⟩
  · rw [e]
    exact ⟨hinv, fun hl => hl, fun _ => ⟨rfl, ht⟩, fun hc => absurd h0 hc⟩
  · have hP : s.thread_mlfqs = true →
        PRI_MIN ≤ (if s.thread_mlfqs = true then PRI_MAX else p) ∧
        (if s.thread_mlfqs = true then PRI_MAX else p) ≤ PRI_MAX := by
      intro hm
      rw [if_pos hm]
      decide
    obtain ⟨hci, hcl⟩ := created_state_invariant s page _ hinv hfresh hpage hP
    have htid : ((created_state s page
        (if s.thread_mlfqs = true then PRI_MAX else p)).mem page).tid = s.next_tid := by
      simp [created_state]
    have hoth : ∀ u, u ≠ page → ((created_state s page
        (if s.thread_mlfqs = true then PRI_MAX else p)).mem u).tid = (s.mem u).tid := by
      intro u hu
      simp [created_state, hu]
    rcases hcase with ⟨_, ht, e⟩ | ⟨_, ht, s4, hun, hpr⟩
    · rw [e]
      exact ⟨hci, hcl, fun hc => absurd hc hpage,
        fun _ => ⟨rfl, htid, hoth, Or.inr ht⟩⟩
    · obtain ⟨hs4, _⟩ := thread_unblock_invariant _ s4 page hci hun
      have hs1 := thread_preempt_invariant s4 s1 hs4.1 hpr
      have hst := same_threads_trans _ _ _ hs4.2.2 hs1.2.2
      refine ⟨hs1.1, fun hl => hs1.2.1 (hs4.2.1 (hcl hl)), fun hc => absurd hc hpage, ?_⟩
      intro _
      refine ⟨by rw [hst.2.1]; rfl, by rw [(hst.2.2.2.2 page).2]; exact htid, ?_, Or.inl ht⟩
      intro u hu
      rw [(hst.2.2.2.2 u).2]
      exact hoth u hu

/-- What a successful `thread_exit` did in a state with the scheduler
invariant (no thread holds a lock): the caller left the all-threads list,
became DYING, and `schedule` switched to another thread. -/
theorem thread_exit_shape (s s1 : Kernel) (hinv : scheduler_invariant s)
    (h : thread_exit s = Result.ok s1) :
    schedule (({ s with all_list := s.all_list.erase s.cur } : Kernel).set_status s.cur
      THREAD_DYING) = Result.ok s1 ∧ s1.cur ≠ s.cur := by
  have hcur : thread_current s = Result.ok s.cur :=
    thread_current_ok s hinv.cur_valid hinv.cur_running
  have hcurx : thread_current ({ s with all_list := s.all_list.erase s.cur } : Kernel)
      = Result.ok s.cur :=
    thread_current_ok ({ s with all_list := s.all_list.erase s.cur } : Kernel)
      hinv.cur_valid hinv.cur_running
  unfold thread_exit at h
  by_cases hc : s.intr_context = true
  · rw [if_pos hc] at h
    cases h
  · rw [if_neg hc, hcur] at h
    simp only [list_remove] at h
    have hrel : release_locks ({ s with all_list := s.all_list.erase s.cur } : Kernel)
        = Result.ok { s with all_list := s.all_list.erase s.cur } := by
      unfold release_locks
      rw [if_neg hc, hcurx]
      show release_locks_from s.cur (s.mem s.cur).held_locks _ = _
      rw [hinv.base.no_locks s.cur hinv.cur_valid]
      rfl
    rw [hrel] at h
    simp only at h
    rw [hcurx] at h
    simp only at h
    cases hs : schedule (({ s with all_list := s.all_list.erase s.cur } : Kernel).set_status
        s.cur THREAD_DYING) with
    | panic k => rw [hs] at h; cases h
    | ok s4 =>
      rw [hs] at h
      simp only at h
      by_cases hne : s4.cur = s.cur
      · rw [if_pos hne] at h
        cases h
      · rw [if_neg hne] at h
        injection h with h
        rw [← h]
        exact ⟨rfl, hne⟩

/-- The state in which `thread_exit` calls `schedule`, for a caller other than
the idle thread. -/
theorem exit_state_ready (s : Kernel) (hinv : scheduler_invariant s)
    (hid : s.cur ≠ s.idle_thread) :
    schedule_ready (({ s with all_list := s.all_list.erase s.cur } : Kernel).set_status s.cur
      THREAD_DYING) ∧
    (ready_all_linked s →
      ready_all_linked (({ s with all_list := s.all_list.erase s.cur } : Kernel).set_status
        s.cur THREAD_DYING)) := by
  have hb := hinv.base
  have hvs := set_status_valid ({ s with all_list := s.all_list.erase s.cur } : Kernel)
    s.cur THREAD_DYING
  have hs := set_status_status ({ s with all_list := s.all_list.erase s.cur } : Kernel)
    s.cur THREAD_DYING
  have hf := set_status_fields ({ s with all_list := s.all_list.erase s.cur } : Kernel)
    s.cur THREAD_DYING
  have hvx : ∀ u, is_thread ({ s with all_list := s.all_list.erase s.cur } : Kernel) u
      = is_thread s u := fun u => rfl
  have hnl := running_not_linked s hinv
  refine ⟨⟨⟨?_, ?_, ?_, ?_, hb.ready_nodup, hb.queue_nodup, ?_, ?_, ?_, hb.load_nonneg, ?_,
    ?_⟩, ?_, ?_⟩, ?_⟩
  · intro u hu
    have hu2 : ready_linked s u := hu
    have hne : u ≠ s.cur := fun hc => hnl (hc ▸ hu2)
    rw [hvs, hvx, hs, if_neg hne]
    exact hb.linked_ready u hu2
  · intro u hu hd
    rw [hvs, hvx] at hu
    rw [hs] at hd
    show u ∈ s.all_list.erase s.cur
    by_cases hne : u = s.cur
    · rw [if_pos hne] at hd
      exact absurd rfl hd
    · rw [if_neg hne] at hd
      exact (List.mem_erase_of_ne hne).mpr (hb.alive_listed u hu hd)
  · intro u hu
    have hu2 : u ∈ s.all_list.erase s.cur := hu
    rw [hvs, hvx]
    exact hb.listed_valid u (List.mem_of_mem_erase hu2)
  · show s.idle_thread = 0 ∨
      (is_thread (({ s with all_list := s.all_list.erase s.cur } : Kernel).set_status s.cur
        THREAD_DYING) s.idle_thread = true ∧
      ((({ s with all_list := s.all_list.erase s.cur } : Kernel).set_status s.cur
        THREAD_DYING).mem s.idle_thread).status ≠ THREAD_DYING)
    rcases hb.idle_alive with h0 | ⟨h1, h2⟩
    · exact Or.inl h0
    · right
      rw [hvs, hvx, hs, if_neg (fun hc => hid hc.symm)]
      exact ⟨h1, h2⟩
  · intro hpol i u hi hu
    rw [(hf u).2.2.2]
    exact hb.queue_priority hpol i u hi hu
  · intro hpol u hu
    rw [hvs, hvx] at hu
    rw [(hf u).2.2.2]
    exact hb.priority_range hpol u hu
  · intro u hu
    rw [hvs, hvx] at hu
    rw [(hf u).2.2.1]
    exact hb.no_locks u hu
  · intro u hu
    have hu2 : u ∈ s.all_list.erase s.cur := hu
    rw [(hf u).2.1]
    exact hb.tid_below u (List.mem_of_mem_erase hu2)
  · have e : (fun u => ((({ s with all_list := s.all_list.erase s.cur } : Kernel).set_status
        s.cur THREAD_DYING).mem u).tid) = (fun u => (s.mem u).tid) := by
      funext u
      exact (hf u).2.1
    show ((s.all_list.erase s.cur).map (fun u =>
      ((({ s with all_list := s.all_list.erase s.cur } : Kernel).set_status
        s.cur THREAD_DYING).mem u).tid)).Nodup
    rw [e]
    exact (List.Sublist.map _ (List.erase_sublist s.cur s.all_list)).nodup hb.tid_nodup
  · show is_thread (({ s with all_list := s.all_list.erase s.cur } : Kernel).set_status
      s.cur THREAD_DYING) s.cur = true
    rw [hvs, hvx]
    exact hinv.cur_valid
  · intro u hu hr
    rw [hvs, hvx] at hu
    rw [hs] at hr
    by_cases hut : u = s.cur
    · rw [if_pos hut] at hr
      exact absurd hr (by decide)
    · rw [if_neg hut] at hr
      exact hut (hinv.one_running u hu hr)
  · intro hal u hu hr hid2
    rw [hvs, hvx] at hu
    rw [hs] at hr
    rw [set_status_linked]
    by_cases hut : u = s.cur
    · rw [if_pos hut] at hr
      exact absurd hr (by decide)
    · rw [if_neg hut] at hr
      exact hal u hu hr hid2

/-- A successful `thread_exit` by a thread other than the idle thread keeps
the scheduler invariant; the caller has left the all-threads list, whose other
members keep their order, and is DYING; ids do not change. -/
theorem thread_exit_invariant (s s1 : Kernel) (hinv : scheduler_invariant s)
    (hid : s.cur ≠ s.idle_thread) (h : thread_exit s = Result.ok s1) :
    scheduler_invariant s1 ∧ (ready_all_linked s → ready_all_linked s1) ∧
    s1.all_list = s.all_list.erase s.cur ∧ (s1.mem s.cur).status = THREAD_DYING ∧
    s1.cur ≠ s.cur ∧ ∀ u, (s1.mem u).tid = (s.mem u).tid := by
  obtain ⟨hsch, hne⟩ := thread_exit_shape s s1 hinv h
  obtain ⟨hpre, hlk⟩ := exit_state_ready s hinv hid
  obtain ⟨hi1, hl1, ht1, hst1, _⟩ := schedule_invariant _ s1 hpre hsch
  refine ⟨hi1, fun hal => hl1 (hlk hal), ?_, ?_, hne, ?_⟩
  · rw [ht1.2.1]
    rfl
  · rw [hst1 s.cur (fun hc => hne hc.symm), set_status_status, if_pos rfl]
  · intro u
    rw [(ht1.2.2.2.2 u).2]
    exact (set_status_fields _ s.cur THREAD_DYING u).2.1

theorem Result.bind_eq_ok {α β : Type} (r : Result α) (f : α → Result β) (b : β)
    (h : Result.bind r f = Result.ok b) : ∃ a, r = Result.ok a ∧ f a = Result.ok b := by
  cases r with
  | panic k => cases h
  | ok a => exact ⟨a, rfl, h⟩

/-- Writing a thread block that keeps magic, status, id and held locks (and,
under MLFQS, the priority) changes nothing the scheduler invariant looks
at. -/
theorem same_core_write (s : Kernel) (t : Nat) (v : thread)
    (h1 : v.magic = (s.mem t).magic) (h2 : v.status = (s.mem t).status)
    (h3 : v.tid = (s.mem t).tid) (h4 : v.held_locks = (s.mem t).held_locks)
    (h5 : s.thread_mlfqs = true → v.priority = (s.mem t).priority) :
    same_core s (s.write t v) := by
  refine ⟨⟨rfl, rfl, rfl, rfl, rfl, rfl, rfl, ?_⟩, rfl⟩
  intro u
  unfold Kernel.write
  by_cases hu : u = t
  · subst hu
    simp only [if_pos]
    exact ⟨h1, h2, h3, h4, h5⟩
  · simp [hu]

theorem same_core_trans (s s1 s2 : Kernel) (h1 : same_core s s1) (h2 : same_core s1 s2) :
    same_core s s2 := by
  obtain ⟨⟨a1, a2, a3, a4, a5, a7, a8, a9⟩, a6⟩ := h1
  obtain ⟨⟨b1, b2, b3, b4, b5, b7, b8, b9⟩, b6⟩ := h2
  refine ⟨⟨b1.trans a1, b2.trans a2, b3.trans a3, b4.trans a4, b5.trans a5,
    b7.trans a7, b8.trans a8, ?_⟩, b6.trans a6⟩
  intro u
  obtain ⟨c1, c2, c3, c4, c5⟩ := a9 u
  obtain ⟨d1, d2, d3, d4, d5⟩ := b9 u
  exact ⟨d1.trans c1, d2.trans c2, d3.trans c3, d4.trans c4,
    fun hm => (d5 (a1.trans hm)).trans (c5 hm)⟩

/-- A successful `thread_sleep` keeps the scheduler invariant. -/
theorem thread_sleep_invariant (s s1 : Kernel) (w : Int) (hinv : scheduler_invariant s)
    (h : thread_sleep s w = Result.ok s1) : step_ok s s1 := by
  unfold thread_sleep at h
  simp only [running_thread] at h
  rw [if_neg (by simp [hinv.cur_valid]), if_neg (by simp [hinv.cur_running])] at h
  have hc : same_core s ({ (s.write s.cur { s.mem s.cur with wake_time := w }) with
      sleep_list := list_push_back (s.write s.cur { s.mem s.cur with wake_time := w }).sleep_list
        s.cur } : Kernel) :=
    same_core_trans _ _ _
      (same_core_write s s.cur { s.mem s.cur with wake_time := w } rfl rfl rfl rfl (fun _ => rfl))
      ⟨⟨rfl, rfl, rfl, rfl, rfl, rfl, rfl, fun _ => ⟨rfl, rfl, rfl, rfl, fun _ => rfl⟩⟩, rfl⟩
  have h1 := step_ok_of_same_core _ _ hinv hc
  exact step_ok_trans _ _ _ h1 (thread_block_invariant _ s1 h1.1 h)

/-- The loop of `thread_check_sleeping`, when it succeeds, keeps the scheduler
invariant. -/
theorem thread_check_sleeping_from_invariant (now : Int) (l : List Nat) :
    ∀ s s1 : Kernel, scheduler_invariant s →
      thread_check_sleeping_from now l s = Result.ok s1 → step_ok s s1 := by
  induction l with
  | nil =>
    intro s s1 hinv h
    unfold thread_check_sleeping_from at h
    injection h with h
    rw [← h]
    exact step_ok_refl s hinv
  | cons t rest ih =>
    intro s s1 hinv h
    unfold thread_check_sleeping_from at h
    by_cases hdue : (s.mem t).wake_time ≤ now
    · rw [if_pos hdue] at h
      obtain ⟨s2, hun, hrest⟩ := Result.bind_eq_ok _ _ _ h
      have hc : same_core s ({ s with sleep_list := list_remove s.sleep_list t } : Kernel) :=
        ⟨⟨rfl, rfl, rfl, rfl, rfl, rfl, rfl, fun _ => ⟨rfl, rfl, rfl, rfl, fun _ => rfl⟩⟩, rfl⟩
      have h1 := step_ok_of_same_core _ _ hinv hc
      have h2 := (thread_unblock_invariant _ s2 t h1.1 hun).1
      exact step_ok_trans _ _ _ (step_ok_trans _ _ _ h1 h2) (ih s2 s1 h2.1 hrest)
    · rw [if_neg hdue] at h
      exact ih s s1 hinv h

/-- A successful `thread_check_sleeping` keeps the scheduler invariant. -/
theorem thread_check_sleeping_invariant (s s1 : Kernel) (now : Int)
    (hinv : scheduler_invariant s) (h : thread_check_sleeping s now = Result.ok s1) :
    step_ok s s1 := by
  unfold thread_check_sleeping at h
  by_cases hc : s.intr_context = true
  · rw [if_neg (by simp [hc])] at h
    exact thread_check_sleeping_from_invariant now _ s s1 hinv h
  · rw [if_pos (by simpa using hc)] at h
    cases h

/-- A successful `thread_set_priority` keeps the scheduler invariant. -/
theorem thread_set_priority_invariant (s s1 : Kernel) (p : Int)
    (hinv : scheduler_invariant s) (h : thread_set_priority s p = Result.ok s1) :
    step_ok s s1 := by
  unfold thread_set_priority at h
  by_cases hpol : s.thread_mlfqs = true
  · rw [if_pos hpol] at h
    injection h with h
    rw [← h]
    exact step_ok_refl s hinv
  · rw [if_neg hpol, thread_current_ok s hinv.cur_valid hinv.cur_running] at h
    simp only at h
    have hno : ∀ k : Kernel, k.thread_mlfqs = s.thread_mlfqs → ¬ k.thread_mlfqs = true := by
      intro k hk
      rw [hk]
      exact hpol
    have c1 := same_core_write s s.cur { s.mem s.cur with priority := p }
      rfl rfl rfl rfl (fun hm => absurd hm hpol)
    have c2 := same_core_write (s.write s.cur { s.mem s.cur with priority := p }) s.cur
      { (s.write s.cur { s.mem s.cur with priority := p }).mem s.cur with tmp_priority := p }
      rfl rfl rfl rfl (fun _ => rfl)
    have c3 : same_core
        ((s.write s.cur { s.mem s.cur with priority := p }).write s.cur
          { (s.write s.cur { s.mem s.cur with priority := p }).mem s.cur with
            tmp_priority := p })
        (update_temp_priority
          ((s.write s.cur { s.mem s.cur with priority := p }).write s.cur
            { (s.write s.cur { s.mem s.cur with priority := p }).mem s.cur with
              tmp_priority := p }) s.cur) := by
      unfold update_temp_priority
      exact same_core_write _ _ _ rfl rfl rfl rfl (fun _ => rfl)
    have hc := same_core_trans _ _ _ (same_core_trans _ _ _ c1 c2) c3
    have h1 := step_ok_of_same_core _ _ hinv hc
    exact step_ok_trans _ _ _ h1 (thread_preempt_invariant _ s1 h1.1 h)

/-- A successful `thread_set_nice` keeps the scheduler invariant. -/
theorem thread_set_nice_invariant (s s1 : Kernel) (n : Int)
    (hinv : scheduler_invariant s) (h : thread_set_nice s n = Result.ok s1) :
    step_ok s s1 := by
  unfold thread_set_nice at h
  by_cases hpol : s.thread_mlfqs = true
  · rw [if_neg (by simp [hpol]), thread_current_ok s hinv.cur_valid hinv.cur_running] at h
    simp only at h
    rw [recalculate_priority_no_switch] at h
    simp only at h
    have hc := same_core_write s s.cur { s.mem s.cur with nice := n }
      rfl rfl rfl rfl (fun _ => rfl)
    have h1 := step_ok_of_same_core _ _ hinv hc
    exact step_ok_trans _ _ _ h1 (thread_preempt_invariant _ s1 h1.1 h)
  · rw [if_pos (by simpa using hpol)] at h
    injection h with h
    rw [← h]
    exact step_ok_refl s hinv

/-- A successful `thread_tick` keeps the scheduler invariant. -/
theorem thread_tick_invariant (s s1 : Kernel) (b : Bool)
    (hinv : scheduler_invariant s) (h : thread_tick s b = Result.ok s1) :
    step_ok s s1 := by
  rw [thread_tick_eq s b hinv.cur_valid hinv.cur_running] at h
  injection h with h
  rw [← h]
  apply step_ok_of_same_core _ _ hinv
  refine ⟨⟨rfl, rfl, rfl, rfl, rfl, rfl, rfl, ?_⟩, rfl⟩
  intro u
  by_cases hu : u = s.cur ∧ s.thread_mlfqs = true
  · simp [hu]
  · simp [hu]

/-- The function `recalculate_loads` keeps the scheduler invariant: the new
load average is not negative. -/
theorem recalculate_loads_invariant (s : Kernel) (hinv : scheduler_invariant s) :
    step_ok s (recalculate_loads s) := by
  have hb := hinv.base
  have hl : 0 ≤ (recalculate_loads s).load_avg := by
    rw [recalculate_loads_eq]
    exact spec_load_avg_nonneg _ _ hb.load_nonneg (count_ready_threads_nonneg s)
  refine ⟨⟨⟨hb.linked_ready, hb.alive_listed, hb.listed_valid, hb.idle_alive, hb.ready_nodup,
    hb.queue_nodup, hb.queue_priority, hb.priority_range, hb.no_locks, hl, hb.tid_below,
    hb.tid_nodup⟩, hinv.cur_valid, hinv.cur_running, hinv.one_running⟩, fun h => h,
    ⟨rfl, rfl, rfl, rfl, fun _ => ⟨rfl, rfl⟩⟩⟩

theorem recalculate_recent_cpu_from_invariant (l : List Nat) :
    ∀ s s1 : Kernel, scheduler_invariant s →
      thread_foreach_from (fun k t => Result.ok (recalculate_recent_cpu k t)) l s
        = Result.ok s1 → step_ok s s1 := by
  induction l with
  | nil =>
    intro s s1 hinv h
    unfold thread_foreach_from at h
    injection h with h
    rw [← h]
    exact step_ok_refl s hinv
  | cons t rest ih =>
    intro s s1 hinv h
    unfold thread_foreach_from at h
    simp only [Result.bind_ok] at h
    have hc : same_core s (recalculate_recent_cpu s t) := by
      unfold recalculate_recent_cpu
      exact same_core_write _ _ _ rfl rfl rfl rfl (fun _ => rfl)
    have h1 := step_ok_of_same_core _ _ hinv hc
    exact step_ok_trans _ _ _ h1 (ih _ s1 h1.1 h)

/-- A successful `recalculate_all_recent_cpu` keeps the scheduler invariant. -/
theorem recalculate_all_recent_cpu_invariant (s s1 : Kernel) (hinv : scheduler_invariant s)
    (h : recalculate_all_recent_cpu s = Result.ok s1) : step_ok s s1 :=
  recalculate_recent_cpu_from_invariant _ s s1 hinv h

/-- Entering or leaving an interrupt handler keeps the scheduler invariant. -/
theorem intr_context_invariant (s : Kernel) (b : Bool) (hinv : scheduler_invariant s) :
    step_ok s { s with intr_context := b } :=
  step_ok_of_same_core _ _ hinv
    ⟨⟨rfl, rfl, rfl, rfl, rfl, rfl, rfl, fun _ => ⟨rfl, rfl, rfl, rfl, fun _ => rfl⟩⟩, rfl⟩

/-- The idle thread announcing itself (`idle_thread = thread_current ()`, once)
keeps the scheduler invariant. -/
theorem idle_start_invariant (s : Kernel) (hinv : scheduler_invariant s)
    (h0 : s.idle_thread = 0) :
    scheduler_invariant { s with idle_thread := s.cur } ∧
    (ready_all_linked s → ready_all_linked { s with idle_thread := s.cur }) := by
  have hb := hinv.base
  refine ⟨⟨⟨hb.linked_ready, hb.alive_listed, hb.listed_valid, ?_, hb.ready_nodup,
    hb.queue_nodup, hb.queue_priority, hb.priority_range, hb.no_locks, hb.load_nonneg,
    hb.tid_below, hb.tid_nodup⟩, hinv.cur_valid, hinv.cur_running, hinv.one_running⟩, ?_⟩
  · right
    refine ⟨hinv.cur_valid, ?_⟩
    show (s.mem s.cur).status ≠ THREAD_DYING
    rw [hinv.cur_running]
    decide
  · intro hal u hu hr _
    apply hal u hu hr
    rw [h0]
    intro hc
    have hu2 : is_thread s u = true := hu
    rw [hc] at hu2
    simp [is_thread] at hu2

/-- A successful `mlfqs_switch_queue` on a valid thread with a priority in
range keeps the scheduler invariant under MLFQS. -/
theorem mlfqs_switch_queue_invariant (s s1 : Kernel) (t : Nat) (q : Int)
    (hinv : scheduler_invariant s) (hpol : s.thread_mlfqs = true)
    (ht : is_thread s t = true) (hq : PRI_MIN ≤ q ∧ q ≤ PRI_MAX)
    (h : mlfqs_switch_queue s t q = Result.ok s1) : step_ok s s1 := by
  have hb := hinv.base
  rw [mlfqs_switch_queue_eq s t q ht hq] at h
  by_cases hsame : q = (s.mem t).priority
  · rw [if_pos hsame] at h
    injection h with h
    rw [← h]
    exact step_ok_refl s hinv
  rw [if_neg hsame] at h
  have hqi : q.toNat ≤ 63 := by
    have := hq.2
    unfold PRI_MAX at this
    omega
  have hqc : ((q.toNat : Nat) : Int) = q := by
    have := hq.1
    unfold PRI_MIN at this
    exact Int.toNat_of_nonneg this
  by_cases hst : (s.mem t).status = THREAD_READY
  · rw [if_pos hst] at h
    injection h with h
    have hmem : ∀ u, s1.mem u = if u = t then { s.mem t with priority := q } else s.mem u := by
      intro u
      rw [← h]
      rfl
    have hqueue : ∀ j, s1.mlfqs_queue j
        = if j = q.toNat then (s.mlfqs_queue j).erase t ++ [t]
          else (s.mlfqs_queue j).erase t := by
      intro j
      rw [← h]
    have hready : s1.ready_list = s.ready_list.erase t := by rw [← h]; rfl
    have hp1 : s1.thread_mlfqs = s.thread_mlfqs := by rw [← h]; rfl
    have hall : s1.all_list = s.all_list := by rw [← h]; rfl
    have hidle : s1.idle_thread = s.idle_thread := by rw [← h]; rfl
    have hcur : s1.cur = s.cur := by rw [← h]; rfl
    have hntid : s1.next_tid = s.next_tid := by rw [← h]; rfl
    have hload : s1.load_avg = s.load_avg := by rw [← h]; rfl
    have hfld : ∀ u, (s1.mem u).magic = (s.mem u).magic ∧
        (s1.mem u).status = (s.mem u).status ∧ (s1.mem u).tid = (s.mem u).tid ∧
        (s1.mem u).held_locks = (s.mem u).held_locks := by
      intro u
      rw [hmem u]
      by_cases hu : u = t
      · rw [if_pos hu, hu]
        exact ⟨rfl, rfl, rfl, rfl⟩
      · rw [if_neg hu]
        exact ⟨rfl, rfl, rfl, rfl⟩
    have hpri : ∀ u, (s1.mem u).priority = if u = t then q else (s.mem u).priority := by
      intro u
      rw [hmem u]
      by_cases hu : u = t
      · rw [if_pos hu, if_pos hu]
      · rw [if_neg hu, if_neg hu]
    have hv : ∀ u, is_thread s1 u = is_thread s u :=
      fun u => is_thread_congr s s1 u (hfld u).1
    have hlk : ∀ u, ready_linked s1 u ↔ (ready_linked s u ∨ u = t) := by
      intro u
      unfold ready_linked
      rw [hp1, if_pos hpol, if_pos hpol]
      constructor
      · rintro ⟨j, hj, hm⟩
        rw [hqueue j] at hm
        by_cases hjq : j = q.toNat
        · rw [if_pos hjq] at hm
          rcases List.mem_append.mp hm with h1 | h1
          · exact Or.inl ⟨j, hj, List.mem_of_mem_erase h1⟩
          · exact Or.inr (List.mem_singleton.mp h1)
        · rw [if_neg hjq] at hm
          exact Or.inl ⟨j, hj, List.mem_of_mem_erase hm⟩
      · rintro (⟨j, hj, hm⟩ | hu)
        · by_cases hut : u = t
          · refine ⟨q.toNat, hqi, ?_⟩
            rw [hqueue, if_pos rfl, hut]
            exact List.mem_append_right _ (List.mem_singleton.mpr rfl)
          · refine ⟨j, hj, ?_⟩
            rw [hqueue j]
            have hme : u ∈ (s.mlfqs_queue j).erase t := (List.mem_erase_of_ne hut).mpr hm
            by_cases hjq : j = q.toNat
            · rw [if_pos hjq]
              exact List.mem_append_left _ hme
            · rw [if_neg hjq]
              exact hme
        · refine ⟨q.toNat, hqi, ?_⟩
          rw [hqueue, if_pos rfl, hu]
          exact List.mem_append_right _ (List.mem_singleton.mpr rfl)
    have hbase : base_invariant s1 := by
      refine ⟨?_, ?_, ?_, ?_, ?_, ?_, ?_, ?_, ?_, ?_, ?_, ?_⟩
      · intro u hu
        rw [hv, (hfld u).2.1]
        rcases (hlk u).mp hu with h1 | h1
        · exact hb.linked_ready u h1
        · rw [h1]
          exact ⟨ht, hst⟩
      · intro u hu hd
        rw [hv] at hu
        rw [(hfld u).2.1] at hd
        rw [hall]
        exact hb.alive_listed u hu hd
      · intro u hu
        rw [hall] at hu
        rw [hv]
        exact hb.listed_valid u hu
      · rw [hidle, hv, (hfld _).2.1]
        exact hb.idle_alive
      · rw [hready]
        exact hb.ready_nodup.erase t
      · intro _ j hj
        rw [hqueue j]
        have hnd := hb.queue_nodup hpol j hj
        by_cases hjq : j = q.toNat
        · rw [if_pos hjq, List.nodup_append]
          refine ⟨hnd.erase t, List.nodup_singleton t, ?_⟩
          intro a ha hb2
          rw [List.mem_singleton.mp hb2] at ha
          exact (hnd.mem_erase_iff.mp ha).1 rfl
        · rw [if_neg hjq]
          exact hnd.erase t
      · intro _ j u hj hu
        rw [hqueue j] at hu
        have hnd := hb.queue_nodup hpol j hj
        rw [hpri u]
        have hold : u ∈ (s.mlfqs_queue j).erase t → (if u = t then q else (s.mem u).priority)
            = (j : Int) := by
          intro hm
          have h2 := hnd.mem_erase_iff.mp hm
          rw [if_neg h2.1]
          exact hb.queue_priority hpol j u hj h2.2
        by_cases hjq : j = q.toNat
        · rw [if_pos hjq] at hu
          rcases List.mem_append.mp hu with h1 | h1
          · exact hold h1
          · rw [if_pos (List.mem_singleton.mp h1), hjq]
            exact hqc.symm
        · rw [if_neg hjq] at hu
          exact hold hu
      · intro _ u hu
        rw [hv] at hu
        rw [hpri u]
        by_cases hut : u = t
        · rw [if_pos hut]
          exact hq
        · rw [if_neg hut]
          exact hb.priority_range hpol u hu
      · intro u hu
        rw [hv] at hu
        rw [(hfld u).2.2.2]
        exact hb.no_locks u hu
      · rw [hload]; exact hb.load_nonneg
      · intro u hu
        rw [hall] at hu
        rw [(hfld u).2.2.1, hntid]
        exact hb.tid_below u hu
      · rw [hall]
        have e : (fun u => (s1.mem u).tid) = (fun u => (s.mem u).tid) := by
          funext u
          exact (hfld u).2.2.1
        rw [e]
        exact hb.tid_nodup
    refine ⟨⟨hbase, ?_, ?_, ?_⟩, ?_, ?_⟩
    · rw [hcur, hv]; exact hinv.cur_valid
    · rw [hcur, (hfld _).2.1]; exact hinv.cur_running
    · intro u hu hr
      rw [hv] at hu
      rw [(hfld u).2.1] at hr
      rw [hcur]
      exact hinv.one_running u hu hr
    · intro hal u hu hr hid
      rw [hv] at hu
      rw [(hfld u).2.1] at hr
      rw [hidle] at hid
      exact (hlk u).mpr (Or.inl (hal u hu hr hid))
    · exact ⟨hp1, hall, hidle, hntid, fun u => ⟨(hfld u).1, (hfld u).2.2.1⟩⟩
  · rw [if_neg hst] at h
    injection h with h
    have hnl : ¬ ready_linked s t := fun hc => hst (hb.linked_ready t hc).2
    have hmem : ∀ u, s1.mem u = if u = t then { s.mem t with priority := q } else s.mem u := by
      intro u
      rw [← h]
      rfl
    have hfld : ∀ u, (s1.mem u).magic = (s.mem u).magic ∧
        (s1.mem u).status = (s.mem u).status ∧ (s1.mem u).tid = (s.mem u).tid ∧
        (s1.mem u).held_locks = (s.mem u).held_locks := by
      intro u
      rw [hmem u]
      by_cases hu : u = t
      · rw [if_pos hu, hu]
        exact ⟨rfl, rfl, rfl, rfl⟩
      · rw [if_neg hu]
        exact ⟨rfl, rfl, rfl, rfl⟩
    have hpri : ∀ u, (s1.mem u).priority = if u = t then q else (s.mem u).priority := by
      intro u
      rw [hmem u]
      by_cases hu : u = t
      · rw [if_pos hu, if_pos hu]
      · rw [if_neg hu, if_neg hu]
    have hv : ∀ u, is_thread s1 u = is_thread s u :=
      fun u => is_thread_congr s s1 u (hfld u).1
    have hp1 : s1.thread_mlfqs = s.thread_mlfqs := by rw [← h]; rfl
    have hall : s1.all_list = s.all_list := by rw [← h]; rfl
    have hidle : s1.idle_thread = s.idle_thread := by rw [← h]; rfl
    have hcur : s1.cur = s.cur := by rw [← h]; rfl
    have hntid : s1.next_tid = s.next_tid := by rw [← h]; rfl
    have hload : s1.load_avg = s.load_avg := by rw [← h]; rfl
    have hready : s1.ready_list = s.ready_list := by rw [← h]; rfl
    have hqueue : s1.mlfqs_queue = s.mlfqs_queue := by rw [← h]; rfl
    have hlk : ∀ u, ready_linked s1 u ↔ ready_linked s u :=
      ready_linked_congr s s1 hp1 hready hqueue
    have hbase : base_invariant s1 := by
      refine ⟨?_, ?_, ?_, ?_, ?_, ?_, ?_, ?_, ?_, ?_, ?_, ?_⟩
      · intro u hu
        rw [hv, (hfld u).2.1]
        exact hb.linked_ready u ((hlk u).mp hu)
      · intro u hu hd
        rw [hv] at hu
        rw [(hfld u).2.1] at hd
        rw [hall]
        exact hb.alive_listed u hu hd
      · intro u hu
        rw [hall] at hu
        rw [hv]
        exact hb.listed_valid u hu
      · rw [hidle, hv, (hfld _).2.1]
        exact hb.idle_alive
      · rw [hready]; exact hb.ready_nodup
      · intro _ j hj
        rw [hqueue]
        exact hb.queue_nodup hpol j hj
      · intro _ j u hj hu
        rw [hqueue] at hu
        have hut : u ≠ t := by
          intro hc
          apply hnl
          unfold ready_linked
          rw [if_pos hpol]
          exact ⟨j, hj, hc ▸ hu⟩
        rw [hpri u, if_neg hut]
        exact hb.queue_priority hpol j u hj hu
      · intro _ u hu
        rw [hv] at hu
        rw [hpri u]
        by_cases hut : u = t
        · rw [if_pos hut]
          exact hq
        · rw [if_neg hut]
          exact hb.priority_range hpol u hu
      · intro u hu
        rw [hv] at hu
        rw [(hfld u).2.2.2]
        exact hb.no_locks u hu
      · rw [hload]; exact hb.load_nonneg
      · intro u hu
        rw [hall] at hu
        rw [(hfld u).2.2.1, hntid]
        exact hb.tid_below u hu
      · rw [hall]
        have e : (fun u => (s1.mem u).tid) = (fun u => (s.mem u).tid) := by
          funext u
          exact (hfld u).2.2.1
        rw [e]
        exact hb.tid_nodup
    refine ⟨⟨hbase, ?_, ?_, ?_⟩, ?_, ?_⟩
    · rw [hcur, hv]; exact hinv.cur_valid
    · rw [hcur, (hfld _).2.1]; exact hinv.cur_running
    · intro u hu hr
      rw [hv] at hu
      rw [(hfld u).2.1] at hr
      rw [hcur]
      exact hinv.one_running u hu hr
    · intro hal u hu hr hid
      rw [hv] at hu
      rw [(hfld u).2.1] at hr
      rw [hidle] at hid
      exact (hlk u).mpr (hal u hu hr hid)
    · exact ⟨hp1, hall, hidle, hntid, fun u => ⟨(hfld u).1, (hfld u).2.2.1⟩⟩

/-- A successful `recalculate_priority` on a valid thread keeps the scheduler
invariant under MLFQS. -/
theorem recalculate_priority_invariant (s s1 : Kernel) (t sw : Nat)
    (hinv : scheduler_invariant s) (hpol : s.thread_mlfqs = true)
    (ht : is_thread s t = true) (h : recalculate_priority s t sw = Result.ok s1) :
    step_ok s s1 := by
  unfold recalculate_priority at h
  by_cases hid : t = s.idle_thread
  · rw [if_pos hid] at h
    injection h with h
    rw [← h]
    exact step_ok_refl s hinv
  · rw [if_neg hid] at h
    simp only at h
    by_cases hsw : sw = 0
    · rw [if_pos hsw] at h
      obtain ⟨_, hlo, hhi⟩ := recalculate_priority_value_eq (s.mem t).recent_cpu (s.mem t).nice
      exact mlfqs_switch_queue_invariant s s1 t _ hinv hpol ht ⟨hlo, hhi⟩ h
    · rw [if_neg hsw] at h
      injection h with h
      rw [← h]
      exact step_ok_refl s hinv

theorem recalculate_priorities_from_invariant (l : List Nat) :
    ∀ s s1 : Kernel, scheduler_invariant s → s.thread_mlfqs = true →
      (∀ t ∈ l, is_thread s t = true) →
      thread_foreach_from (fun k t => recalculate_priority k t 0) l s = Result.ok s1 →
      step_ok s s1 := by
  induction l with
  | nil =>
    intro s s1 hinv _ _ h
    unfold thread_foreach_from at h
    injection h with h
    rw [← h]
    exact step_ok_refl s hinv
  | cons t rest ih =>
    intro s s1 hinv hpol hval h
    unfold thread_foreach_from at h
    obtain ⟨s2, hstep, hrest⟩ := Result.bind_eq_ok _ _ _ h
    have h1 := recalculate_priority_invariant s s2 t 0 hinv hpol
      (hval t (List.mem_cons_self _ _)) hstep
    have h2 := ih s2 s1 h1.1 (h1.2.2.1.trans hpol) (by
      intro u hu
      rw [same_threads_valid s s2 h1.2.2]
      exact hval u (List.mem_cons_of_mem _ hu)) hrest
    exact step_ok_trans _ _ _ h1 h2

/-- A successful `recalculate_priorities` keeps the scheduler invariant under
MLFQS. -/
theorem recalculate_priorities_invariant (s s1 : Kernel) (hinv : scheduler_invariant s)
    (hpol : s.thread_mlfqs = true) (h : recalculate_priorities s = Result.ok s1) :
    step_ok s s1 :=
  recalculate_priorities_from_invariant _ s s1 hinv hpol hinv.base.listed_valid h

/-- A successful `mlfqs_get_next_thread_to_run` on its own keeps the scheduler
invariant under MLFQS (the thread it unlinks stays READY). -/
theorem mlfqs_get_next_thread_to_run_invariant (s s1 : Kernel) (t : Nat)
    (hinv : scheduler_invariant s) (hpol : s.thread_mlfqs = true)
    (h : mlfqs_get_next_thread_to_run s = Result.ok (t, s1)) :
    scheduler_invariant s1 ∧ same_threads s s1 := by
  have hn : next_thread_to_run s = Result.ok (t, s1) := by
    unfold next_thread_to_run
    rw [if_neg (by simp [hpol])]
    exact h
  obtain ⟨hb1, hfr, _, _⟩ := next_thread_to_run_base s s1 t hinv.base hn
  have hmem : s1.mem = s.mem := by rw [hfr]
  have hcur : s1.cur = s.cur := by rw [hfr]
  have hv : ∀ u, is_thread s1 u = is_thread s u := by
    intro u
    unfold is_thread
    rw [hmem]
  refine ⟨⟨hb1, ?_, ?_, ?_⟩, ?_⟩
  · rw [hcur, hv]; exact hinv.cur_valid
  · rw [hcur, hmem]; exact hinv.cur_running
  · intro u hu hr
    rw [hv] at hu
    rw [hmem] at hr
    rw [hcur]
    exact hinv.one_running u hu hr
  · refine ⟨by rw [hfr], by rw [hfr], by rw [hfr], by rw [hfr], ?_⟩
    intro u
    rw [hmem]
    exact ⟨rfl, rfl⟩

/-- The function `thread_init` on a state whose boot stack page is not `NULL`:
what the state it returns looks like. -/
theorem thread_init_shape (s : Kernel) (hcur : s.cur ≠ 0) :
    ∃ s1, thread_init s = Result.ok s1 ∧ s1.all_list = [s.cur] ∧ s1.ready_list = [] ∧
      (s.thread_mlfqs = true → ∀ i, i ≤ 63 → s1.mlfqs_queue i = []) ∧
      s1.thread_mlfqs = s.thread_mlfqs ∧ s1.cur = s.cur ∧ s1.idle_thread = s.idle_thread ∧
      s1.next_tid = s.next_tid + 1 ∧ (s.thread_mlfqs = true → s1.load_avg = 0) ∧
      (s.thread_mlfqs = false → s1.load_avg = s.load_avg) ∧
      (s1.mem s.cur).magic = THREAD_MAGIC ∧ (s1.mem s.cur).status = THREAD_RUNNING ∧
      (s1.mem s.cur).tid = s.next_tid ∧ (s1.mem s.cur).priority = PRI_DEFAULT ∧
      (s1.mem s.cur).held_locks = [] ∧ ∀ q, q ≠ s.cur → s1.mem q = s.mem q := by
  rcases s with ⟨m, ic, mem, lw, rl, mq, sl, al, idle, ini, cur, la, tt, nt, fr, it, kt, ut, yr⟩
  simp only at hcur
  cases m
  · simp [thread_init, init_thread, running_thread, allocate_tid, Kernel.write,
      Kernel.set_status, list_push_back, mlfqs_init, hcur, PRI_MIN, PRI_DEFAULT, PRI_MAX,
      STR_MAIN, thread.zeroed]
    intro q hq
    simp [hq]
  · simp [thread_init, init_thread, running_thread, allocate_tid, Kernel.write,
      Kernel.set_status, list_push_back, mlfqs_init, hcur, PRI_MIN, PRI_DEFAULT, PRI_MAX,
      STR_MAIN, thread.zeroed]
    refine ⟨?_, ?_⟩
    · intro i hi
      omega
    · intro q hq
      simp [hq]

/-- The state `thread_init` returns on a boot state satisfies the scheduler
invariant, and no thread is READY. -/
theorem thread_init_invariant (s0 s : Kernel) (hboot : boot_state s0)
    (h : thread_init s0 = Result.ok s) : scheduler_invariant s ∧ ready_all_linked s := by
  obtain ⟨hc0, hn0, hi0, hl0, _, hg0⟩ := hboot
  obtain ⟨s1, h1, hall, hready, hqueue, hpol, hcur, hidle, hntid, hld1, hld2, hmag, hst, htid,
    hpri, hlocks, hoth⟩ := thread_init_shape s0 hc0
  rw [h1] at h
  injection h with h
  subst h
  have hvalid : ∀ u, is_thread s1 u = true → u = s0.cur := by
    intro u hu
    by_contra hne
    unfold is_thread at hu
    rw [hoth u hne] at hu
    simp [hg0 u] at hu
  have hvc : is_thread s1 s0.cur = true := by
    unfold is_thread
    simp [hmag, hc0]
  have hnl : ∀ u, ¬ ready_linked s1 u := by
    intro u hu
    unfold ready_linked at hu
    by_cases hp : s0.thread_mlfqs = true
    · rw [hpol, if_pos hp] at hu
      obtain ⟨i, hi, hm⟩ := hu
      rw [hqueue hp i hi] at hm
      exact absurd hm (List.not_mem_nil u)
    · rw [hpol, if_neg hp, hready] at hu
      exact absurd hu (List.not_mem_nil u)
  refine ⟨⟨⟨?_, ?_, ?_, ?_, ?_, ?_, ?_, ?_, ?_, ?_, ?_, ?_⟩, ?_, ?_, ?_⟩, ?_⟩
  · intro u hu
    exact absurd hu (hnl u)
  · intro u hu _
    rw [hall, hvalid u hu]
    exact List.mem_singleton.mpr rfl
  · intro u hu
    rw [hall] at hu
    rw [List.mem_singleton.mp hu]
    exact hvc
  · left
    rw [hidle]
    exact hi0
  · rw [hready]
    exact List.nodup_nil
  · intro hp i hi
    rw [hqueue (hpol ▸ hp) i hi]
    exact List.nodup_nil
  · intro hp i u hi hu
    rw [hqueue (hpol ▸ hp) i hi] at hu
    exact absurd hu (List.not_mem_nil u)
  · intro _ u hu
    rw [hvalid u hu, hpri]
    decide
  · intro u hu
    rw [hvalid u hu]
    exact hlocks
  · by_cases hp : s0.thread_mlfqs = true
    · rw [hld1 hp]
    · rw [hld2 (by simpa using hp), hl0]
  · intro u hu
    rw [hall] at hu
    rw [List.mem_singleton.mp hu, htid, hntid]
    omega
  · rw [hall]
    exact List.nodup_singleton _
  · rw [hcur]; exact hvc
  · rw [hcur]; exact hst
  · intro u hu _
    rw [hcur]
    exact hvalid u hu
  · intro u hu hr _
    rw [hvalid u hu, hst] at hr
    exact absurd hr (by decide)

/-- Every reachable state satisfies the scheduler invariant. -/
theorem reachable_invariant (internal : Bool) (s : Kernel) (h : Reachable internal s) :
    scheduler_invariant s := by
  induction h with
  | init_step s0 s hboot hinit => exact (thread_init_invariant s0 s hboot hinit).1
  | create_step s s1 page name function b p tid _ hfresh hc ih =>
    exact (thread_create_invariant s s1 page name function b p tid ih hfresh hc).1
  | block_step s s1 _ hop ih => exact (thread_block_invariant s s1 ih hop).1
  | unblock_step s s1 t _ hop ih => exact (thread_unblock_invariant s s1 t ih hop).1.1
  | yield_step s s1 _ hop ih => exact (thread_yield_invariant s s1 ih hop).1
  | sleep_step s s1 w _ hop ih => exact (thread_sleep_invariant s s1 w ih hop).1
  | check_sleeping_step s s1 n _ hop ih =>
    exact (thread_check_sleeping_invariant s s1 n ih hop).1
  | set_priority_step s s1 p _ hop ih => exact (thread_set_priority_invariant s s1 p ih hop).1
  | exit_step s s1 _ hid hop ih => exact (thread_exit_invariant s s1 ih hid hop).1
  | set_nice_step s s1 n _ hop ih => exact (thread_set_nice_invariant s s1 n ih hop).1
  | tick_step s s1 b _ hop ih => exact (thread_tick_invariant s s1 b ih hop).1
  | recalculate_priority_step s s1 t sw _ hpol ht hop ih =>
    exact (recalculate_priority_invariant s s1 t sw ih hpol ht hop).1
  | recalculate_priorities_step s s1 _ hpol hop ih =>
    exact (recalculate_priorities_invariant s s1 ih hpol hop).1
  | recalculate_loads_step s _ ih => exact (recalculate_loads_invariant s ih).1
  | recalculate_recent_cpu_step s s1 _ hop ih =>
    exact (recalculate_all_recent_cpu_invariant s s1 ih hop).1
  | intr_step s b _ ih => exact (intr_context_invariant s b ih).1
  | idle_step s _ h0 ih => exact (idle_start_invariant s ih h0).1
  | switch_queue_step s s1 t q _ _ hpol ht hq hop ih =>
    exact (mlfqs_switch_queue_invariant s s1 t q ih hpol ht hq hop).1
  | next_step s s1 t _ _ hpol hop ih =>
    exact (mlfqs_get_next_thread_to_run_invariant s s1 t ih hpol hop).1

/-- In every state reachable by the public operations, every READY thread
other than the idle thread is linked into the ready structure. -/
theorem reachable_linked (s : Kernel) (h : Reachable false s) : ready_all_linked s := by
  induction h with
  | init_step s0 s hboot hinit => exact (thread_init_invariant s0 s hboot hinit).2
  | create_step s s1 page name function b p tid hr hfresh hc ih =>
    exact (thread_create_invariant s s1 page name function b p tid
      (reachable_invariant false s hr) hfresh hc).2.1 ih
  | block_step s s1 hr hop ih =>
    exact (thread_block_invariant s s1 (reachable_invariant false s hr) hop).2.1 ih
  | unblock_step s s1 t hr hop ih =>
    exact (thread_unblock_invariant s s1 t (reachable_invariant false s hr) hop).1.2.1 ih
  | yield_step s s1 hr hop ih =>
    exact (thread_yield_invariant s s1 (reachable_invariant false s hr) hop).2.1 ih
  | sleep_step s s1 w hr hop ih =>
    exact (thread_sleep_invariant s s1 w (reachable_invariant false s hr) hop).2.1 ih
  | check_sleeping_step s s1 n hr hop ih =>
    exact (thread_check_sleeping_invariant s s1 n (reachable_invariant false s hr) hop).2.1 ih
  | set_priority_step s s1 p hr hop ih =>
    exact (thread_set_priority_invariant s s1 p (reachable_invariant false s hr) hop).2.1 ih
  | exit_step s s1 hr hid hop ih =>
    exact (thread_exit_invariant s s1 (reachable_invariant false s hr) hid hop).2.1 ih
  | set_nice_step s s1 n hr hop ih =>
    exact (thread_set_nice_invariant s s1 n (reachable_invariant false s hr) hop).2.1 ih
  | tick_step s s1 b hr hop ih =>
    exact (thread_tick_invariant s s1 b (reachable_invariant false s hr) hop).2.1 ih
  | recalculate_priority_step s s1 t sw hr hpol ht hop ih =>
    exact (recalculate_priority_invariant s s1 t sw (reachable_invariant false s hr) hpol ht
      hop).2.1 ih
  | recalculate_priorities_step s s1 hr hpol hop ih =>
    exact (recalculate_priorities_invariant s s1 (reachable_invariant false s hr) hpol
      hop).2.1 ih
  | recalculate_loads_step s hr ih =>
    exact (recalculate_loads_invariant s (reachable_invariant false s hr)).2.1 ih
  | recalculate_recent_cpu_step s s1 hr hop ih =>
    exact (recalculate_all_recent_cpu_invariant s s1 (reachable_invariant false s hr)
      hop).2.1 ih
  | intr_step s b hr ih =>
    exact (intr_context_invariant s b (reachable_invariant false s hr)).2.1 ih
  | idle_step s hr h0 ih =>
    exact (idle_start_invariant s (reachable_invariant false s hr) h0).2 ih
  | switch_queue_step s s1 t q _ hi _ _ _ _ _ => exact absurd hi (by decide)
  | next_step s s1 t _ hi _ _ _ => exact absurd hi (by decide)

theorem example_boot_state : boot_state example_boot_kernel :=
  ⟨by decide, rfl, rfl, rfl, rfl,
    fun _ => show thread.zeroed.magic ≠ THREAD_MAGIC from by decide⟩

theorem example_mlfqs_boot_state : boot_state example_mlfqs_boot_kernel :=
  ⟨by decide, rfl, rfl, rfl, rfl,
    fun _ => show thread.zeroed.magic ≠ THREAD_MAGIC from by decide⟩

theorem example_run_created_reachable (internal : Bool) :
    Reachable internal example_run_created :=
  Reachable.create_step example_run_init example_run_created 2 7 8 true PRI_MIN 2
    (Reachable.init_step example_boot_kernel example_run_init example_boot_state rfl)
    (by decide) rfl

theorem example_run_yielded_reachable (internal : Bool) :
    Reachable internal example_run_yielded :=
  Reachable.yield_step example_run_woken example_run_yielded
    (Reachable.unblock_step example_run_idle example_run_woken 1
      (Reachable.idle_step example_run_blocked
        (Reachable.block_step example_run_created example_run_blocked
          (example_run_created_reachable internal) rfl)
        rfl)
      rfl)
    rfl

theorem example_mlfqs_run_reachable (internal : Bool) :
    Reachable internal example_mlfqs_run_loads :=
  Reachable.recalculate_loads_step example_mlfqs_run_created
    (Reachable.create_step example_mlfqs_run_init example_mlfqs_run_created 2 7 8 true
      PRI_DEFAULT 2
      (Reachable.init_step example_mlfqs_boot_kernel example_mlfqs_run_init
        example_mlfqs_boot_state rfl)
      (by decide) rfl)

theorem example_run_yielded_facts :
    example_run_yielded.cur = 1 ∧ example_run_yielded.idle_thread = 2 ∧
    example_run_yielded.all_list = [1, 2] ∧ example_run_yielded.ready_list = [] ∧
    (example_run_yielded.mem 1).status = THREAD_RUNNING ∧
    (example_run_yielded.mem 2).status = THREAD_READY ∧
    is_thread example_run_yielded 2 = true :=
  ⟨rfl, rfl, rfl, rfl, rfl, rfl, rfl⟩

/-- C18: in every state reachable from `thread_init` by completed scheduler
operations, exactly one thread has status RUNNING: the thread on the CPU (the
one `schedule` chose last, which `thread_current` returns) is a valid thread
on the all-threads list with status RUNNING, and every thread with status
RUNNING, on the all-threads list or anywhere in memory, is that thread. -/
theorem one_running_thread (internal : Bool) (s : Kernel) (h : Reachable internal s) :
    thread_current s = Result.ok s.cur ∧ is_thread s s.cur = true ∧ s.cur ∈ s.all_list ∧
    (s.mem s.cur).status = THREAD_RUNNING ∧
    (∀ t, t ∈ s.all_list → (s.mem t).status = THREAD_RUNNING → t = s.cur) ∧
    (∀ t, is_thread s t = true → (s.mem t).status = THREAD_RUNNING → t = s.cur) := by
  have hinv := reachable_invariant internal s h
  exact ⟨thread_current_ok s hinv.cur_valid hinv.cur_running, hinv.cur_valid,
    running_listed s hinv, hinv.cur_running,
    fun t ht hr => hinv.one_running t (hinv.base.listed_valid t ht) hr, hinv.one_running⟩

/-- C18 on the boot run: after `main` has created the idle thread, blocked,
been woken, and the idle thread has yielded, `main` (page 1) is the one
RUNNING thread and `thread_current` returns it. -/
theorem one_running_thread_witness :
    thread_current example_run_yielded = Result.ok 1 ∧
    (example_run_yielded.mem 1).status = THREAD_RUNNING ∧
    (∀ t, t ∈ example_run_yielded.all_list →
      (example_run_yielded.mem t).status = THREAD_RUNNING → t = 1) :=
  ⟨(one_running_thread false example_run_yielded (example_run_yielded_reachable false)).1,
    (one_running_thread false example_run_yielded
      (example_run_yielded_reachable false)).2.2.2.1,
    (one_running_thread false example_run_yielded
      (example_run_yielded_reachable false)).2.2.2.2.1⟩

/-- C19 (counterexample): the boot run reaches a state in which the idle
thread (page 2) is a valid thread on the all-threads list with status READY
that is linked neither into the ready list nor into a queue: it yielded, and
`thread_yield` does not enqueue the idle thread. -/
theorem idle_ready_unlinked_counterexample :
    Reachable false example_run_yielded ∧ example_run_yielded.idle_thread = 2 ∧
    is_thread example_run_yielded 2 = true ∧ 2 ∈ example_run_yielded.all_list ∧
    (example_run_yielded.mem 2).status = THREAD_READY ∧
    ¬ ready_linked example_run_yielded 2 ∧ example_run_yielded.ready_list = [] :=
  ⟨example_run_yielded_reachable false, rfl, rfl, by decide, rfl,
    fun h => absurd (show 2 ∈ example_run_yielded.ready_list from h) (by decide), rfl⟩

/-- C19 (amended): in every state reachable by completed scheduler
operations, a thread linked into the ready structure (the ready list, or one
of the MLFQS queues) is a valid thread with status READY, and every valid
thread other than the idle thread is linked into the ready structure if and
only if its status is READY. -/
theorem ready_linked_iff_ready (s : Kernel) (h : Reachable false s) :
    (∀ t, ready_linked s t → is_thread s t = true ∧ (s.mem t).status = THREAD_READY) ∧
    (∀ t, is_thread s t = true → t ≠ s.idle_thread →
      (ready_linked s t ↔ (s.mem t).status = THREAD_READY)) ∧
    (∀ t, t ∈ s.all_list → t ≠ s.idle_thread →
      (ready_linked s t ↔ (s.mem t).status = THREAD_READY)) := by
  have hinv := reachable_invariant false s h
  have hl := reachable_linked s h
  have key : ∀ t, is_thread s t = true → t ≠ s.idle_thread →
      (ready_linked s t ↔ (s.mem t).status = THREAD_READY) :=
    fun t ht hid => ⟨fun hlk => (hinv.base.linked_ready t hlk).2, fun hr => hl t ht hr hid⟩
  exact ⟨hinv.base.linked_ready, key,
    fun t ht hid => key t (hinv.base.listed_valid t ht) hid⟩

/-- C19 on the boot run: after the creation of the idle thread (page 2, before
it has announced itself) that thread is READY and on the ready list, and
`main` (page 1), RUNNING, is not. -/
theorem ready_linked_iff_ready_witness :
    (ready_linked example_run_created 2 ↔
      (example_run_created.mem 2).status = THREAD_READY) ∧
    (example_run_created.mem 2).status = THREAD_READY ∧
    example_run_created.ready_list = [2] ∧
    (ready_linked example_run_created 1 ↔
      (example_run_created.mem 1).status = THREAD_READY) ∧
    (example_run_created.mem 1).status = THREAD_RUNNING :=
  ⟨(ready_linked_iff_ready example_run_created (example_run_created_reachable false)).2.1 2
      rfl (by decide),
    rfl, rfl,
    (ready_linked_iff_ready example_run_created (example_run_created_reachable false)).2.1 1
      rfl (by decide),
    rfl⟩

/-- C26: under MLFQS, in every state reachable by completed scheduler
operations (with `mlfqs_switch_queue`, for a priority in range, and
`mlfqs_get_next_thread_to_run` counted as operations of their own), every
thread linked into queue `i` has priority exactly `i`, every thread's priority
lies in `[PRI_MIN, PRI_MAX]`, and so `mlfqs_insert` on any thread passes its
assertions and pushes it on a queue with an index in `0..63`. -/
theorem mlfqs_queue_priority (s : Kernel) (h : Reachable true s)
    (hpol : s.thread_mlfqs = true) :
    (∀ i t, i ≤ 63 → t ∈ s.mlfqs_queue i → (s.mem t).priority = (i : Int)) ∧
    (∀ t, is_thread s t = true →
      PRI_MIN ≤ (s.mem t).priority ∧ (s.mem t).priority ≤ PRI_MAX) ∧
    (∀ t, is_thread s t = true →
      ((s.mem t).priority).toNat ≤ 63 ∧
      ∃ s1, mlfqs_insert s t = Result.ok s1 ∧
        s1.mlfqs_queue ((s.mem t).priority).toNat
          = s.mlfqs_queue ((s.mem t).priority).toNat ++ [t]) := by
  have hinv := reachable_invariant true s h
  refine ⟨hinv.base.queue_priority hpol, hinv.base.priority_range hpol, ?_⟩
  intro t ht
  have hr := hinv.base.priority_range hpol t ht
  refine ⟨?_, ?_⟩
  · have := hr.2
    unfold PRI_MAX at this
    omega
  · refine ⟨_, mlfqs_insert_ok s t ht hr, ?_⟩
    simp [list_push_back]

/-- C26 on the MLFQS run: the thread created on page 2 (priority 63) has
preempted `main`, which waits in queue 31 with priority 31; the priority of
the new thread lies in range. -/
theorem mlfqs_queue_priority_witness :
    example_mlfqs_run_loads.mlfqs_queue 31 = [1] ∧
    (example_mlfqs_run_loads.mem 1).priority = 31 ∧
    (PRI_MIN ≤ (example_mlfqs_run_loads.mem 2).priority ∧
      (example_mlfqs_run_loads.mem 2).priority ≤ PRI_MAX) :=
  ⟨rfl,
    (mlfqs_queue_priority example_mlfqs_run_loads (example_mlfqs_run_reachable true) rfl).1
      31 1 (by decide) (by decide),
    (mlfqs_queue_priority example_mlfqs_run_loads (example_mlfqs_run_reachable true) rfl).2.1
      2 rfl⟩

/-- C27: `load_avg` is never negative: `thread_init` on a boot state leaves it
0, `recalculate_loads` maps a non-negative `load_avg` to a non-negative one
(the ready count is never negative), and in every reachable state it is
non-negative; hence the divisor `2*load_avg + 1` of `recalculate_recent_cpu`
is strictly positive, in particular not zero. -/
theorem load_avg_nonneg (internal : Bool) (s : Kernel) (h : Reachable internal s) :
    0 ≤ s.load_avg ∧ 0 ≤ (recalculate_loads s).load_avg ∧
    0 < fp_int_add (fp_int_mult s.load_avg 2) 1 ∧
    fp_int_add (fp_int_mult s.load_avg 2) 1 ≠ 0 ∧
    (∀ s0 s1 : Kernel, boot_state s0 → thread_init s0 = Result.ok s1 → s1.load_avg = 0) ∧
    (∀ k : Kernel, 0 ≤ k.load_avg → 0 ≤ (recalculate_loads k).load_avg) := by
  have hinv := reachable_invariant internal s h
  have hl := hinv.base.load_nonneg
  have hstep : ∀ k : Kernel, 0 ≤ k.load_avg → 0 ≤ (recalculate_loads k).load_avg := by
    intro k hk
    rw [recalculate_loads_eq]
    exact spec_load_avg_nonneg _ _ hk (count_ready_threads_nonneg k)
  have hpos : 0 < fp_int_add (fp_int_mult s.load_avg 2) 1 := by
    unfold fp_int_add fp_int_mult FP_SCALE
    omega
  refine ⟨hl, hstep s hl, hpos, ne_of_gt hpos, ?_, hstep⟩
  intro s0 s1 hboot hinit
  obtain ⟨hc0, _, _, hl0, _, _⟩ := hboot
  obtain ⟨s2, h2, _, _, _, _, _, _, _, hld1, hld2, _⟩ := thread_init_shape s0 hc0
  rw [h2] at hinit
  injection hinit with hinit
  rw [← hinit]
  by_cases hp : s0.thread_mlfqs = true
  · exact hld1 hp
  · rw [hld2 (by simpa using hp), hl0]

/-- C27 on the MLFQS run: with one thread running and `main` ready the
recalculated load average is 546 (about 0.033), not negative, and the divisor
of the decay coefficient is 17476. -/
theorem load_avg_nonneg_witness :
    example_mlfqs_run_loads.load_avg = 546 ∧ 0 ≤ example_mlfqs_run_loads.load_avg ∧
    fp_int_add (fp_int_mult example_mlfqs_run_loads.load_avg 2) 1 = 17476 ∧
    0 < fp_int_add (fp_int_mult example_mlfqs_run_loads.load_avg 2) 1 :=
  ⟨by decide,
    (load_avg_nonneg true example_mlfqs_run_loads (example_mlfqs_run_reachable true)).1,
    by decide,
    (load_avg_nonneg true example_mlfqs_run_loads (example_mlfqs_run_reachable true)).2.2.1⟩

theorem thread_is_alive_from_iff (s : Kernel) (tid : Int) (l : List Nat) :
    thread_is_alive_from s tid l = true ↔ ∃ t, t ∈ l ∧ (s.mem t).tid = tid := by
  induction l with
  | nil => simp [thread_is_alive_from]
  | cons a rest ih =>
    unfold thread_is_alive_from
    by_cases ha : (s.mem a).tid = tid
    · rw [if_pos ha]
      exact ⟨fun _ => ⟨a, List.mem_cons_self _ _, ha⟩, fun _ => rfl⟩
    · rw [if_neg ha, ih]
      constructor
      · rintro ⟨t, ht, he⟩
        exact ⟨t, List.mem_cons_of_mem _ ht, he⟩
      · rintro ⟨t, ht, he⟩
        rcases List.mem_cons.mp ht with h1 | h1
        · rw [h1] at he
          exact absurd he ha
        · exact ⟨t, h1, he⟩

theorem thread_is_alive_iff (s : Kernel) (tid : Int) :
    thread_is_alive s tid = true ↔ ∃ t, t ∈ s.all_list ∧ (s.mem t).tid = tid :=
  thread_is_alive_from_iff s tid s.all_list

/-- Operations that keep the threads keep `thread_is_alive`. -/
theorem thread_is_alive_same (s s1 : Kernel) (h : same_threads s s1) (x : Int) :
    thread_is_alive s1 x = thread_is_alive s x := by
  rw [Bool.eq_iff_iff, thread_is_alive_iff, thread_is_alive_iff, h.2.1]
  constructor
  · rintro ⟨t, ht, he⟩
    exact ⟨t, ht, by rw [← (h.2.2.2.2 t).2]; exact he⟩
  · rintro ⟨t, ht, he⟩
    exact ⟨t, ht, by rw [(h.2.2.2.2 t).2]; exact he⟩

/-- C21: `thread_is_alive (tid)` is true if and only if some thread on the
all-threads list has that id.  In a reachable state, a `thread_create` on an
allocated page puts a thread with the next id (which was not alive before) on
the list and leaves every other id as it was; `thread_block`, `thread_yield`,
`thread_unblock`, `thread_sleep`, `thread_check_sleeping` and
`thread_set_priority` change no id's liveness; and `thread_exit` removes the
caller from the all-threads list, keeping the other members and their order,
and sets its state to DYING before it calls `schedule`, so that the caller's
id, alive before, is not alive afterwards and all other ids are as before. -/
theorem thread_is_alive_spec (internal : Bool) (s : Kernel) (h : Reachable internal s) :
    (∀ (k : Kernel) (tid : Int),
      thread_is_alive k tid = true ↔ ∃ t, t ∈ k.all_list ∧ (k.mem t).tid = tid) ∧
    (∀ (s1 : Kernel) (page name function : Nat) (b : Bool) (p tid : Int),
      page ∉ s.all_list → page ≠ 0 →
      thread_create s page b name p function = Result.ok (tid, s1) →
      thread_is_alive s s.next_tid = false ∧ thread_is_alive s1 s.next_tid = true ∧
      (s1.mem page).tid = s.next_tid ∧ (b = true → tid = s.next_tid) ∧
      ∀ x, x ≠ s.next_tid → thread_is_alive s1 x = thread_is_alive s x) ∧
    (∀ s1 : Kernel, s.cur ≠ s.idle_thread → thread_exit s = Result.ok s1 →
      schedule (({ s with all_list := s.all_list.erase s.cur } : Kernel).set_status s.cur
        THREAD_DYING) = Result.ok s1 ∧
      s1.all_list = s.all_list.filter (fun t => t != s.cur) ∧
      (s1.mem s.cur).status = THREAD_DYING ∧
      thread_is_alive s (s.mem s.cur).tid = true ∧
      thread_is_alive s1 (s.mem s.cur).tid = false ∧
      ∀ x, x ≠ (s.mem s.cur).tid → thread_is_alive s1 x = thread_is_alive s x) ∧
    (∀ s1 : Kernel,
      (thread_block s = Result.ok s1 ∨ thread_yield s = Result.ok s1 ∨
        (∃ t, thread_unblock s t = Result.ok s1) ∨ (∃ w, thread_sleep s w = Result.ok s1) ∨
        (∃ n, thread_check_sleeping s n = Result.ok s1) ∨
        (∃ p, thread_set_priority s p = Result.ok s1)) →
      ∀ x, thread_is_alive s1 x = thread_is_alive s x) := by
  have hinv := reachable_invariant internal s h
  have hb := hinv.base
  refine ⟨thread_is_alive_iff, ?_, ?_, ?_⟩
  · intro s1 page name function b p tid hfresh hpage hc
    obtain ⟨_, _, _, hfacts⟩ :=
      thread_create_invariant s s1 page name function b p tid hinv hfresh hc
    obtain ⟨hall, htid, hoth, _⟩ := hfacts hpage
    have hnot : thread_is_alive s s.next_tid = false := by
      rw [Bool.eq_false_iff]
      intro hc2
      obtain ⟨t, ht, he⟩ := (thread_is_alive_iff s _).mp hc2
      have := hb.tid_below t ht
      omega
    refine ⟨hnot, ?_, htid, ?_, ?_⟩
    · rw [thread_is_alive_iff, hall]
      exact ⟨page, List.mem_append_right _ (List.mem_singleton.mpr rfl), htid⟩
    · intro hbt
      rcases thread_create_inv s s1 page name function b p tid hc with
        ⟨h0, _⟩ | ⟨_, ⟨hbf, _⟩ | ⟨_, ht, _⟩⟩
      · exact absurd h0 hpage
      · rw [hbt] at hbf
        exact absurd hbf (by decide)
      · exact ht
    · intro x hx
      rw [Bool.eq_iff_iff, thread_is_alive_iff, thread_is_alive_iff, hall]
      constructor
      · rintro ⟨t, ht, he⟩
        rcases List.mem_append.mp ht with h1 | h1
        · have hne : t ≠ page := fun hc2 => hfresh (hc2 ▸ h1)
          exact ⟨t, h1, by rw [← hoth t hne]; exact he⟩
        · rw [List.mem_singleton.mp h1, htid] at he
          exact absurd he.symm hx
      · rintro ⟨t, ht, he⟩
        have hne : t ≠ page := fun hc2 => hfresh (hc2 ▸ ht)
        exact ⟨t, List.mem_append_left _ ht, by rw [hoth t hne]; exact he⟩
  · intro s1 hid he
    obtain ⟨hsch, _⟩ := thread_exit_shape s s1 hinv he
    obtain ⟨_, _, hall, hdying, _, htid⟩ := thread_exit_invariant s s1 hinv hid he
    have hnd : s.all_list.Nodup := List.Nodup.of_map _ hb.tid_nodup
    have hcur := running_listed s hinv
    refine ⟨hsch, ?_, hdying, ?_, ?_, ?_⟩
    · rw [hall]
      exact hnd.erase_eq_filter s.cur
    · rw [thread_is_alive_iff]
      exact ⟨s.cur, hcur, rfl⟩
    · rw [Bool.eq_false_iff]
      intro hc2
      obtain ⟨t, ht, he2⟩ := (thread_is_alive_iff s1 _).mp hc2
      rw [hall] at ht
      have h2 := hnd.mem_erase_iff.mp ht
      rw [htid t] at he2
      exact h2.1 (List.inj_on_of_nodup_map hb.tid_nodup h2.2 hcur he2)
    · intro x hx
      rw [Bool.eq_iff_iff, thread_is_alive_iff, thread_is_alive_iff, hall]
      constructor
      · rintro ⟨t, ht, he2⟩
        exact ⟨t, List.mem_of_mem_erase ht, by rw [← htid t]; exact he2⟩
      · rintro ⟨t, ht, he2⟩
        have hne : t ≠ s.cur := by
          intro hc2
          rw [hc2] at he2
          exact hx he2.symm
        exact ⟨t, (List.mem_erase_of_ne hne).mpr ht, by rw [htid t]; exact he2⟩
  · intro s1 hop x
    apply thread_is_alive_same
    rcases hop with h1 | h1 | ⟨t, h1⟩ | ⟨w, h1⟩ | ⟨n, h1⟩ | ⟨p, h1⟩
    · exact (thread_block_invariant s s1 hinv h1).2.2
    · exact (thread_yield_invariant s s1 hinv h1).2.2
    · exact (thread_unblock_invariant s s1 t hinv h1).1.2.2
    · exact (thread_sleep_invariant s s1 w hinv h1).2.2
    · exact (thread_check_sleeping_invariant s s1 n hinv h1).2.2
    · exact (thread_set_priority_invariant s s1 p hinv h1).2.2

/-- C21 on the boot run: when `main` (page 1, id 1) exits, it leaves the
all-threads list `[1, 2]`, which becomes `[2]`, it is DYING, and its id 1,
alive before, is not alive afterwards, while id 2 stays alive. -/
theorem thread_is_alive_spec_witness :
    example_run_exited.all_list = [2] ∧
    (example_run_exited.mem 1).status = THREAD_DYING ∧
    thread_is_alive example_run_yielded 1 = true ∧
    thread_is_alive example_run_exited 1 = false ∧
    thread_is_alive example_run_exited 2 = true :=
  match (thread_is_alive_spec false example_run_yielded
    (example_run_yielded_reachable false)).2.2.1 example_run_exited (by decide) rfl with
  | ⟨_, hall, hd, ha, hn, _⟩ => ⟨by rw [hall]; rfl, hd, ha, hn, by decide⟩

end Cs140
